import Mathlib

/-!
# OpenTomb renderer: visibility list (`src/render/render.cpp`)

Shallow embedding of the render-list part of `CRender`:
`ResetWorld`, `CleanList`, `AddRoom`, `ProcessRoom` and `GenWorldList`.

Conventions of the embedding.

* A `room_s *` is a natural number, the address of the room counted in rooms;
  `m_rooms + i` is address arithmetic. `NULL` is `none`.
* The fields of `room_s` that the renderer only reads (bounding box, `real_room`,
  `content->portals`, `content->room_flags`) are maps over room pointers kept in `Level`;
  the two fields it writes (`is_in_r_list`, `frustum`) are maps kept in the state.
* `float` scalars are represented by `Int`: a `float` with an integer value is that
  integer, and a comparison of two `float` values is the comparison of the integers. The
  `float` sum and difference of the boundary test of `GenWorldList`, which the machine
  rounds to single precision, are fields of `Level`, as are the functions of `vmath.h`,
  `frustum.h`, `room.h` and `world.h` that are called but not part of the embedded file.
* `r_list` is the memory starting at the array pointer, a map from index to entry,
  so a write outside `[0, r_list_size)` would be visible.
* Loops that only assign constants to every element of an index range are given by their
  closed form.
-/

namespace OpenTomb

/-- Geometry of a clip volume (`frustum_s`), kept abstract. -/
abbrev Frustum := Nat

abbrev Vec3 := Fin 3 → Int

/-- Portal (`portal_s`): `id` stands for its polygon and normal, `dest_room` is the
pointer stored in the portal. -/
structure portal_s where
  id : Nat
  dest_room : Nat
deriving DecidableEq, Repr

/-- Camera (`camera_s`): position (`transform.M4x4 + 12`), its own frustum and the
last known room. -/
structure camera_s where
  pos : Vec3
  frustum : Frustum
  current_room : Option Nat
deriving DecidableEq

/-- One entry of the render list (`render_list_s`). -/
structure render_list_s where
  room : Option Nat
  active : Nat
  dist : Int
deriving DecidableEq, Repr

/-- Read-only level data and the external functions and constants used by the
embedded code. -/
structure Level where
  /-- Field `room->bb_min`. -/
  bb_min : Nat → Vec3
  /-- Field `room->bb_max`. -/
  bb_max : Nat → Vec3
  /-- Field `room->real_room`. -/
  real_room : Nat → Nat
  /-- Array `room->content->portals[0 .. portals_count)`. -/
  portals : Nat → List portal_s
  /-- Field `room->content->room_flags`. -/
  room_flags : Nat → Nat
  /-- Constant of `render.h`. -/
  R_DRAW_SKYBOX : Nat
  /-- Constant of `tr_versions.h`. -/
  TR_ROOM_FLAG_SKYBOX : Nat
  /-- Function `vec3_dist` of `vmath.h`. -/
  vec3_dist : Vec3 → Vec3 → Int
  /-- Function `World_FindRoomByPosCogerrence(pos, hint)` of `world.h`. -/
  World_FindRoomByPosCogerrence : Vec3 → Option Nat → Option Nat
  /-- Outcome of the geometric clip of a portal against an emitter frustum for a
  camera: `none` when the portal is culled, the new clip volume otherwise. -/
  clip : camera_s → portal_s → Frustum → Option Frustum
  /-- Function `Frustum_IsAABBVisible(bb_min, bb_max, frustum)` of `frustum.h`. -/
  Frustum_IsAABBVisible : Vec3 → Vec3 → Frustum → Bool
  /-- Function `Room_IsInOverlappedRoomsList(room, other)` of `room.h`. -/
  Room_IsInOverlappedRoomsList : Nat → Nat → Bool
  /-- Operator `+` on two `float` values: their sum as the machine computes it, rounded
  to `float`. -/
  fadd : Int → Int → Int
  /-- Operator `-` on two `float` values: their difference as the machine computes it,
  rounded to `float`. -/
  fsub : Int → Int → Int

/-- The members of `CRender` used by the visibility pass, with the two room fields the
renderer writes. -/
structure CRender where
  m_camera : Option camera_s
  m_rooms : Option Nat
  m_rooms_count : Nat
  m_anim_sequences : Option Nat
  m_anim_sequences_count : Nat
  r_list_size : Nat
  r_list_active_count : Nat
  r_list : Nat → render_list_s
  r_flags : Nat
  /-- Field `room->is_in_r_list` for every room pointer. -/
  room_is_in_r_list : Nat → Nat
  /-- Field `room->frustum` for every room pointer: the chain as a list, `NULL` is `[]`. -/
  room_frustum : Nat → List Frustum

/-- The value of `x & ~m` on unsigned integers of any width. -/
def clearBits (x m : Nat) : Nat := x ^^^ (x &&& m)

/-- The room pointer lies in `m_rooms[0 .. m_rooms_count)`. -/
def isLevelRoom (s : CRender) (r : Nat) : Bool :=
  match s.m_rooms with
  | none => false
  | some base => decide (base ≤ r ∧ r < base + s.m_rooms_count)

/-- State built by the constructor `CRender::CRender`, over a given room memory. -/
def CRender.init (flags : Nat → Nat) (chains : Nat → List Frustum)
    (mem : Nat → render_list_s) : CRender where
  m_camera := none
  m_rooms := none
  m_rooms_count := 0
  m_anim_sequences := none
  m_anim_sequences_count := 0
  r_list_size := 0
  r_list_active_count := 0
  r_list := mem
  r_flags := 0
  room_is_in_r_list := flags
  room_frustum := chains

/-- Method `CRender::CleanList`. -/
def CleanList (W : Level) (s : CRender) : CRender :=
  { s with
    r_list := fun i =>
      if i < s.r_list_active_count then { room := none, active := 0, dist := 0 }
      else s.r_list i
    room_is_in_r_list := fun r => if isLevelRoom s r then 0 else s.room_is_in_r_list r
    room_frustum := fun r => if isLevelRoom s r then [] else s.room_frustum r
    r_flags := clearBits s.r_flags W.R_DRAW_SKYBOX
    r_list_active_count := 0 }

/-- Method `CRender::ResetWorld`; `rooms_count` is a `uint32_t`, so is `list_size`. The memory
returned by `malloc` is the old memory outside the initialised range. -/
def ResetWorld (W : Level) (s : CRender) (rooms : Option Nat) (rooms_count : Nat)
    (anim_sequences : Option Nat) (anim_sequences_count : Nat) : CRender :=
  let s1 := CleanList W s
  let s2 := { s1 with
    r_flags := 0
    m_rooms := rooms
    m_rooms_count := rooms_count
    m_anim_sequences := anim_sequences
    m_anim_sequences_count := anim_sequences_count }
  match rooms with
  | none => s2
  | some base =>
    let list_size := (rooms_count + 128) % 2 ^ 32
    { s2 with
      r_list := fun i =>
        if i < list_size then { room := none, active := 0, dist := 0 } else s2.r_list i
      r_list_size := list_size
      r_list_active_count := 0
      room_is_in_r_list := fun r =>
        if base ≤ r ∧ r < base + rooms_count then 0 else s2.room_is_in_r_list r }

/-- Centre of the bounding box of a room, as computed in `AddRoom`. -/
def centre (W : Level) (room : Nat) : Vec3 :=
  fun k => (W.bb_min room k + W.bb_max room k) / 2

/-- Method `CRender::AddRoom`. The result is `none` when `m_camera` is `NULL` at the point where
it is dereferenced. -/
def AddRoom (W : Level) (s : CRender) (room : Nat) : Option (CRender × Nat) :=
  if s.room_is_in_r_list room = 0 then
    match s.m_camera with
    | none => none
    | some cam =>
      let dist := W.vec3_dist cam.pos (centre W room)
      if s.r_list_active_count < s.r_list_size then
        some ({ s with
          r_list := fun i =>
            if i = s.r_list_active_count then { room := some room, active := 1, dist := dist }
            else s.r_list i
          r_list_active_count := s.r_list_active_count + 1
          r_flags :=
            if W.room_flags room &&& W.TR_ROOM_FLAG_SKYBOX ≠ 0 then s.r_flags ||| W.R_DRAW_SKYBOX
            else s.r_flags
          room_is_in_r_list := fun r => if r = room then 1 else s.room_is_in_r_list r }, 1)
      else
        some ({ s with
          room_is_in_r_list := fun r => if r = room then 1 else s.room_is_in_r_list r }, 0)
  else some (s, 0)

/-- The state after a frustum is attached at the end of the chain of the destination room
`portal->dest_room->real_room` of a portal. -/
def linkFrustum (W : Level) (s : CRender) (portal : portal_s) (f : Frustum) : CRender :=
  { s with
    room_frustum := fun r =>
      if r = W.real_room portal.dest_room then s.room_frustum r ++ [f]
      else s.room_frustum r }

/-- Modelled from the spec: `CFrustumManager::PortalFrustumIntersect` (`frustum.cpp` is
not among the sources). It computes the clip of the portal against the emitter frustum
as seen from the camera; when there is no volume it returns `NULL` and changes nothing;
on success the new frustum is attached at the end of the chain of the destination room
`portal->dest_room->real_room` and returned. -/
def PortalFrustumIntersect (W : Level) (s : CRender) (portal : portal_s) (emitter : Frustum)
    (cam : camera_s) : CRender × Option Frustum :=
  match W.clip cam portal emitter with
  | none => (s, none)
  | some f => (linkFrustum W s portal f, some f)

/-- A `for` loop over the elements of an array whose body may fail. -/
def forEach {α σ : Type} (body : σ → α → Option σ) : List α → σ → Option σ
  | [], s => some s
  | a :: as, s =>
    match body s a with
    | none => none
    | some s1 => forEach body as s1

/-- Body of the `for` loop of `ProcessRoom`, given the function used for the recursive
call; the accumulator is the state with the local `ret`. -/
def ProcessRoom_body (W : Level) (rec : CRender → portal_s → Frustum → Option (CRender × Nat))
    (frus : Frustum) (acc : CRender × Nat) (p : portal_s) : Option (CRender × Nat) :=
  match acc.1.m_camera with
  | none => none
  | some cam =>
    let dest_room := W.real_room p.dest_room
    match PortalFrustumIntersect W acc.1 p frus cam with
    | (s1, none) => some (s1, acc.2)
    | (s1, some gen_frus) =>
      match AddRoom W s1 dest_room with
      | none => none
      | some (s2, _) =>
        match rec s2 p gen_frus with
        | none => none
        | some (s3, _) => some (s3, acc.2 + 1)

/-- Method `CRender::ProcessRoom`, with a bound on the recursion depth: `none` when the bound
is reached (or on a `NULL` camera). -/
def ProcessRoom (W : Level) : Nat → CRender → portal_s → Frustum → Option (CRender × Nat)
  | 0, _, _, _ => none
  | fuel + 1, s, portal, frus =>
    let room := W.real_room portal.dest_room
    if s.room_is_in_r_list room ≠ 0 ∧ s.room_frustum room = [] then some (s, 0)
    else forEach (ProcessRoom_body W (ProcessRoom W fuel) frus) (W.portals room) (s, 0)

/-- The assignment `room->frustum = NULL`. -/
def setFrustumNull (s : CRender) (room : Nat) : CRender :=
  { s with room_frustum := fun r => if r = room then [] else s.room_frustum r }

/-- The camera object after line 245 of `GenWorldList`: `current_room` holds the result
of the room lookup. -/
def camFound (W : Level) (cam : camera_s) : camera_s :=
  { cam with current_room := W.World_FindRoomByPosCogerrence cam.pos cam.current_room }

/-- The state of `GenWorldList` after line 245: list cleaned, camera stored in `m_camera`
with its `current_room` updated. -/
def passStart (W : Level) (s : CRender) (cam : camera_s) : CRender :=
  { CleanList W s with m_camera := some (camFound W cam) }

/-- Body of the inner loop of `GenWorldList` (lines 271-281): the portals of a room next
to the camera, clipped against the camera frustum. -/
def GenWorldList_near (W : Level) (fuel : Nat) (cam : camera_s) (s : CRender) (np : portal_s) :
    Option CRender :=
  let ndest_room := W.real_room np.dest_room
  match PortalFrustumIntersect W s np cam.frustum cam with
  | (s1, none) => some s1
  | (s1, some last_frus) =>
    match AddRoom W s1 ndest_room with
    | none => none
    | some (s2, _) =>
      match ProcessRoom W fuel s2 np last_frus with
      | none => none
      | some (s3, _) => some s3

/-- The local constant `eps` of `GenWorldList` (`10.0f`). -/
def eps : Int := 10

/-- The test of lines 262-265: on every axis the camera position is at most the `float`
sum `bb_max + eps` and at least the `float` difference `bb_min - eps` of the bounding box
of the destination room, and that room is not in the overlapped list of the current
one. -/
def nearTest (W : Level) (cam : camera_s) (curr_room dest_room : Nat) : Bool :=
  decide (cam.pos 0 ≤ W.fadd (W.bb_max dest_room 0) eps) &&
  decide (cam.pos 0 ≥ W.fsub (W.bb_min dest_room 0) eps) &&
  decide (cam.pos 1 ≤ W.fadd (W.bb_max dest_room 1) eps) &&
  decide (cam.pos 1 ≥ W.fsub (W.bb_min dest_room 1) eps) &&
  decide (cam.pos 2 ≤ W.fadd (W.bb_max dest_room 2) eps) &&
  decide (cam.pos 2 ≥ W.fsub (W.bb_min dest_room 2) eps) &&
  !W.Room_IsInOverlappedRoomsList curr_room dest_room

/-- Body of the loop over the portals of the camera room in `GenWorldList`
(lines 252-284). The write `last_frus->parents_count = 1` is to a field of the frustum that
none of the embedded functions reads; it is left out. -/
def GenWorldList_portal (W : Level) (fuel : Nat) (cam : camera_s) (curr_room : Nat)
    (s : CRender) (p : portal_s) : Option CRender :=
  let dest_room := W.real_room p.dest_room
  match PortalFrustumIntersect W s p cam.frustum cam with
  | (s1, some last_frus) =>
    match AddRoom W s1 dest_room with
    | none => none
    | some (s2, _) =>
      match ProcessRoom W fuel s2 p last_frus with
      | none => none
      | some (s3, _) => some s3
  | (s1, none) =>
    if nearTest W cam curr_room dest_room then
      match AddRoom W (setFrustumNull s1 dest_room) dest_room with
      | none => none
      | some (s3, ret) =>
        if ret ≠ 0 then forEach (GenWorldList_near W fuel cam) (W.portals dest_room) s3
        else some s3
    else some s1

/-- Body of the loop over all rooms in `GenWorldList` (lines 289-295). -/
def GenWorldList_all (W : Level) (cam : camera_s) (rooms : Nat) (s : CRender) (i : Nat) :
    Option CRender :=
  let curr_room := rooms + i
  if W.Frustum_IsAABBVisible (W.bb_min curr_room) (W.bb_max curr_room) cam.frustum then
    match AddRoom W s (W.real_room curr_room) with
    | none => none
    | some (s1, _) => some s1
  else some s

/-- Method `CRender::GenWorldList`; `fuel` bounds the recursion depth of `ProcessRoom`. The
camera object behind `cam` is the one behind `m_camera` afterwards, so the write to
`cam->current_room` shows in `m_camera`. The resets of the BSP and of the frustum pool
and the write `cam->frustum->next = NULL` do not touch the state kept here. -/
def GenWorldList (W : Level) (fuel : Nat) (s : CRender) (cam : camera_s) : Option CRender :=
  let s1 := { CleanList W s with m_camera := some cam }
  match s1.m_rooms with
  | none => some s1
  | some rooms =>
    let s2 := passStart W s cam
    match W.World_FindRoomByPosCogerrence cam.pos cam.current_room with
    | some cr =>
      match AddRoom W (setFrustumNull s2 cr) cr with
      | none => none
      | some (s4, _) => forEach (GenWorldList_portal W fuel (camFound W cam) cr) (W.portals cr) s4
    | none => forEach (GenWorldList_all W (camFound W cam) rooms) (List.range s2.m_rooms_count) s2

/-- The rooms of the active entries of the render list, in index order. -/
def activeRooms (s : CRender) : List (Option Nat) :=
  (List.range s.r_list_active_count).map fun i => (s.r_list i).room

/-- Some entry below `r_list_active_count` refers to the room. -/
def inList (s : CRender) (r : Nat) : Prop :=
  ∃ i, i < s.r_list_active_count ∧ (s.r_list i).room = some r

/-! ## Predicates used in the statements -/

/-- The address lies in the room array `[base, base + n)`. -/
def inLevel (base n : Nat) (r : Nat) : Prop := base ≤ r ∧ r < base + n

instance (base n : Nat) (r : Nat) : Decidable (inLevel base n r) :=
  inferInstanceAs (Decidable (_ ∧ _))

/-- A property of the state kept by each elementary step of the visibility pass, for rooms
in the set `G`: a call of `AddRoom`, a call of `PortalFrustumIntersect` on a portal of a
room of `G`, and the assignment `room->frustum = NULL`. -/
structure StepInv (W : Level) (G : Nat → Prop) (P : CRender → Prop) : Prop where
  add : ∀ s r s1 n, G r → P s → AddRoom W s r = some (s1, n) → P s1
  link : ∀ s r p e cam, G r → p ∈ W.portals r → s.m_camera = some cam → P s →
    P (PortalFrustumIntersect W s p e cam).1
  null : ∀ s r, G r → P s → P (setFrustumNull s r)

/-- The set of rooms `G` is closed under following a portal to `dest_room->real_room`. -/
def PortalClosed (W : Level) (G : Nat → Prop) : Prop :=
  ∀ r, G r → ∀ p ∈ W.portals r, G (W.real_room p.dest_room)

/-- A call of one of the four public operations on the render list. -/
inductive Op where
  | ResetWorld (rooms : Option Nat) (rooms_count : Nat) (anim_sequences : Option Nat)
      (anim_sequences_count : Nat)
  | CleanList
  | AddRoom (room : Nat)
  | GenWorldList (fuel : Nat) (cam : camera_s)

/-- The state after one call, `none` when the call does not return. -/
def step (W : Level) (s : CRender) : Op → Option CRender
  | Op.ResetWorld rooms n a c => some (ResetWorld W s rooms n a c)
  | Op.CleanList => some (CleanList W s)
  | Op.AddRoom room =>
    match AddRoom W s room with
    | none => none
    | some (s1, _) => some s1
  | Op.GenWorldList fuel cam => GenWorldList W fuel s cam

/-- The state after a sequence of calls. -/
def run (W : Level) (s : CRender) (ops : List Op) : Option CRender :=
  forEach (step W) ops s

/-- No room is referred to by two different active entries. -/
def NoDupActive (s : CRender) : Prop :=
  ∀ i j r, i < s.r_list_active_count → j < s.r_list_active_count →
    (s.r_list i).room = some r → (s.r_list j).room = some r → i = j

/-- Every room referred to by an active entry has its flag set. -/
def ListedFlagged (s : CRender) : Prop :=
  ∀ i r, i < s.r_list_active_count → (s.r_list i).room = some r → s.room_is_in_r_list r ≠ 0

/-- Agreement of the render list with the flags of the rooms of the level `[b, b + n)`:
the capacity is at least `n`, every active entry refers to a flagged room of the level,
no room is listed twice and every flagged room of the level is listed. -/
def ListInv (b n : Nat) (s : CRender) : Prop :=
  s.m_rooms = some b ∧ s.m_rooms_count = n ∧ n ≤ s.r_list_size ∧
  (∀ i, i < s.r_list_active_count →
    ∃ r, (s.r_list i).room = some r ∧ inLevel b n r ∧ s.room_is_in_r_list r ≠ 0) ∧
  NoDupActive s ∧
  (∀ r, inLevel b n r → s.room_is_in_r_list r ≠ 0 → inList s r)

/-- Every reference the visibility pass follows from a room of the level `[b, b + n)` leads
to a room of the level: `real_room` of a room, `dest_room->real_room` of a portal, and the
result of the room lookup. -/
def LevelClosed (W : Level) (b n : Nat) : Prop :=
  PortalClosed W (inLevel b n) ∧
  (∀ r, inLevel b n r → inLevel b n (W.real_room r)) ∧
  (∀ pos hint cr, W.World_FindRoomByPosCogerrence pos hint = some cr → inLevel b n cr)

/-- Calls allowed in a sequence on the level `[b, b + n)`: no new `ResetWorld`, and
`AddRoom` only on rooms of the level. -/
def LevelOp (b n : Nat) : Op → Prop
  | Op.ResetWorld _ _ _ _ => False
  | Op.CleanList => True
  | Op.AddRoom room => inLevel b n room
  | Op.GenWorldList _ _ => True

/-- Follow a chain of portals from room `a` seen through frustum `f`: every portal has to
be a portal of the room reached so far and its clip against the frustum produced by the
previous portal has to succeed. The result is the room at the end of the chain. -/
def chainEnd (W : Level) (cam : camera_s) : Nat → Frustum → List portal_s → Option Nat
  | a, _, [] => some a
  | a, f, p :: ps =>
    if p ∈ W.portals a then
      match W.clip cam p f with
      | none => none
      | some g => chainEnd W cam (W.real_room p.dest_room) g ps
    else none

/-- Two states agree on what a visibility pass reads: the camera, the capacity, the
active entries of the list, and the flag and chain of every room of `G`. -/
def SameView (G : Nat → Prop) (s t : CRender) : Prop :=
  s.m_camera = t.m_camera ∧ s.r_list_size = t.r_list_size ∧
  s.r_list_active_count = t.r_list_active_count ∧
  (∀ i, i < s.r_list_active_count → s.r_list i = t.r_list i) ∧
  ∀ r, G r → s.room_is_in_r_list r = t.room_is_in_r_list r ∧ s.room_frustum r = t.room_frustum r

/-! ## Concrete levels and states -/

/-- The spacing of the single-precision values around a magnitude `n`: `1` below `2 ^ 24`,
doubling with every further binary digit of `n`. The first argument bounds the number of
doublings; `104` covers every finite single-precision value. -/
def f32ulp : Nat → Nat → Nat
  | 0, _ => 1
  | k + 1, n => if n < 2 ^ 24 then 1 else 2 * f32ulp k (n / 2)

/-- Rounding of an integer to the nearest single-precision value, ties to the even
significand (IEEE 754 binary32, for magnitudes below `2 ^ 128`). Every integer of
magnitude at most `2 ^ 24` is a single-precision value; above that the values are the
multiples of the spacing. -/
def f32 (z : Int) : Int :=
  let n := z.natAbs
  let u := f32ulp 104 n
  let q := n / u
  let r := n % u
  let m := if 2 * r < u then q else if u < 2 * r then q + 1 else if q % 2 = 0 then q else q + 1
  if z < 0 then -((m * u : Nat) : Int) else ((m * u : Nat) : Int)

/-- Rooms `0`, `1`, `2` (A, B, C) in a row along the first axis, room `r` filling
`[1000 r, 1000 r + 1000]` there, with portals A to B (id 0), B to A (id 1), B to C (id 2)
and C to B (id 3). The clip of A to B against the camera frustum `0` gives frustum `1`,
the clip of B to C against frustum `1` gives frustum `2`, every other clip fails. The
lookup finds room `0`. Sums and differences of `float` values are rounded to single
precision. -/
def lvl3 : Level where
  bb_min := fun r k => if k = 0 then 1000 * r else 0
  bb_max := fun r k => if k = 0 then 1000 * r + 1000 else 1000
  real_room := fun r => r
  portals := fun r =>
    if r = 0 then [{ id := 0, dest_room := 1 }]
    else if r = 1 then [{ id := 1, dest_room := 0 }, { id := 2, dest_room := 2 }]
    else if r = 2 then [{ id := 3, dest_room := 1 }]
    else []
  room_flags := fun _ => 0
  R_DRAW_SKYBOX := 8192
  TR_ROOM_FLAG_SKYBOX := 8
  vec3_dist := fun _ _ => 0
  World_FindRoomByPosCogerrence := fun _ _ => some 0
  clip := fun _ p f =>
    if p.id = 0 ∧ f = 0 then some 1 else if p.id = 2 ∧ f = 1 then some 2 else none
  Frustum_IsAABBVisible := fun _ _ _ => true
  Room_IsInOverlappedRoomsList := fun _ _ => false
  fadd := fun a b => f32 (a + b)
  fsub := fun a b => f32 (a - b)

/-- A camera in the middle of room `0` of `lvl3`, with no last known room. -/
def cam0 : camera_s where
  pos := fun _ => 500
  frustum := 0
  current_room := none

/-- A camera on the plane between rooms `0` and `1` of `lvl3`. -/
def camEdge : camera_s where
  pos := fun k => if k = 0 then 1000 else 500
  frustum := 0
  current_room := none

/-- The state of the constructor over zeroed memory. -/
def st0 : CRender :=
  CRender.init (fun _ => 0) (fun _ => []) (fun _ => { room := none, active := 0, dist := 0 })

/-- The state left by `GenWorldList` called with `cam0` in the constructor state: no level
is loaded, the render list has capacity `0` and the camera is stored. -/
def stCam : CRender := (GenWorldList lvl3 0 st0 cam0).getD st0

/-- The state after `ResetWorld` then loads the three rooms of `lvl3` at address `0`. -/
def st3 : CRender := ResetWorld lvl3 stCam (some 0) 3 none 0

/-- Two rooms `0` and `1` (A, B) joined by the portals A to B (id 0) and B to A (id 1),
for a camera standing on the portal plane: the clip of A to B against the camera frustum
`0` gives frustum `1` and the clip of B to A against frustum `1` gives frustum `2`. -/
def lvlBack : Level :=
  { lvl3 with
    portals := fun r =>
      if r = 0 then [{ id := 0, dest_room := 1 }]
      else if r = 1 then [{ id := 1, dest_room := 0 }]
      else []
    clip := fun _ p f =>
      if p.id = 0 ∧ f = 0 then some 1 else if p.id = 1 ∧ f = 1 then some 2 else none }

/-- The state after `ResetWorld` loads the two rooms of `lvlBack` at address `0`. -/
def stBack : CRender := ResetWorld lvlBack st0 (some 0) 2 none 0

/-- The state after `ResetWorld` loads, from `stCam`, a level made of room `0` alone: the
render list has 129 entries. -/
def st1 : CRender := ResetWorld lvl3 stCam (some 0) 1 none 0

/-- The calls `AddRoom(1)`, ..., `AddRoom(129)` on rooms outside the level of `st1`,
then `AddRoom(0)` on its only room. -/
def fillOps : List Op := (List.range 129).map (fun i => Op.AddRoom (i + 1)) ++ [Op.AddRoom 0]

/-- The three rooms of `lvl3` with the portals A to B (id 0) and B to C (id 2) only: an
acyclic portal graph. -/
def lvlOneWay : Level :=
  { lvl3 with
    portals := fun r =>
      if r = 0 then [{ id := 0, dest_room := 1 }]
      else if r = 1 then [{ id := 2, dest_room := 2 }]
      else [] }

/-- The rooms of `lvl3` without portals, with a room lookup that depends on the hint: for
a camera on the plane between rooms `0` and `1` it answers room `0` without a hint and
room `1` with one. -/
def lvlHint : Level :=
  { lvl3 with
    portals := fun _ => []
    World_FindRoomByPosCogerrence := fun _ hint => if hint = none then some 0 else some 1 }

/-! ## Transparent polygons: the BSP tree and its traversal -/

/-- Plane of a BSP node: `plane[0 .. 3]`. -/
abbrev Plane := Fin 4 → Int

/-- Polygon of the BSP tree (`bsp_polygon_s`): the positions of its vertices, its texture
and its blending mode. The `next` pointer is the tail of the list holding the polygon. -/
structure bsp_polygon_s where
  vertices : List Vec3
  texture_index : Nat
  transparency : Nat

/-- Pointer to a node of the BSP tree (`bsp_node_s *`): `NULL`, or a node with its plane,
its two children and its two lists of polygons. -/
inductive bsp_node_p where
  | null : bsp_node_p
  | node (plane : Plane) (front back : bsp_node_p)
      (polygons_front polygons_back : List bsp_polygon_s) : bsp_node_p

/-- Face of a mesh (`mesh_face_s`), as far as `DrawMesh` reads it: its texture. -/
structure mesh_face_s where
  texture_index : Nat

/-- Mesh (`base_mesh_s`), as far as `DrawMesh` and `DrawList` read it: the counts that gate
the two face loops, the two arrays of faces, and the pointer `transparency_polygons`
(`none` for `NULL`). -/
structure base_mesh_s where
  animated_vertex_count : Nat
  animated_faces : List mesh_face_s
  vertex_count : Nat
  faces : List mesh_face_s
  transparency_polygons : Option Nat

/-- Static mesh of a room (`static_mesh_s`): the `hide` flag, the bounding box (held by
name) and the mesh. -/
structure static_mesh_s where
  hide : Nat
  obb : Nat
  mesh : base_mesh_s

/-- Bone of an entity (`ss_bone_tag_s`), as far as `DrawSkeletalModel` and `DrawList` read it;
`parent` tells whether the pointer of that name is set. -/
structure ss_bone_tag_s where
  is_hidden : Nat
  mesh_base : base_mesh_s
  mesh_replace : Option base_mesh_s
  mesh_slot : Option base_mesh_s
  mesh_skin : Option base_mesh_s
  parent : Bool

/-- Model of an entity (`skeletal_model_s`): `animations` tells whether the pointer of that
name is set. -/
structure skeletal_model_s where
  hide : Nat
  animations : Bool
  transparency_flags : Nat

/-- Entity (`entity_s`), as far as the drawing code reads it: `model` is
`bf->animations.model` (`none` for `NULL`), `bone_tags` is `bf->bone_tags`, and `hairs` holds,
for each hair of the character, the meshes that `Hair_GetElementInfo` gives for its elements
(no hair when there is no character). -/
structure entity_s where
  state_flags : Nat
  obb : Nat
  model : Option skeletal_model_s
  bone_tags : List ss_bone_tag_s
  hairs : List (List base_mesh_s)

/-- Link of the list `room->containers` (`engine_container_s`); `object` is read as an
entity only when `object_type` is `OBJECT_ENTITY`. -/
structure engine_container_s where
  object_type : Nat
  object : entity_s

/-- The calls whose order the drawing claims are about: entries into methods of `CRender`
and of the BSP tree, and the two places of `DrawRoom` where a static mesh (of the room
`owner`) is drawn. -/
inductive Method where
  | DrawSkyBox
  | DrawRoom (room : Nat)
  | DrawRoomSprites (room : Nat)
  | DrawStaticMesh (owner : Nat) (sm : static_mesh_s)
  | DrawEntity (entity : entity_s)
  | AddNewPolygonList (polygons : Nat)
  | DrawBSPBackToFront

/-- Calls recorded while the scene is drawn: the calls to the graphics library that bind a
texture, set the blending or submit geometry (`DrawElements` for a polygon of the BSP tree,
`DrawFace` for `qglDrawElements` on a face of a mesh, `DrawArrays` for `qglDrawArrays`),
the call of `BindWhiteTexture`, and the entries into the methods of `Method`. -/
inductive GLCall where
  | BlendFunc (sfactor dfactor : Nat)
  | BindTexture (texture : Nat)
  | DrawElements (p : bsp_polygon_s)
  | DrawFace (face : mesh_face_s)
  | DrawArrays
  | BindWhiteTexture
  | Enter (m : Method)

/-- The members of `CRender` written by `DrawBSPPolygon`, with the calls made so far. -/
structure DrawState where
  m_active_transparency : Nat
  m_active_texture : Nat
  calls : List GLCall

/-- What the traversal of the BSP tree reads from outside `render.cpp`: the function
`vec3_plane_dist` of `vmath.h`, the position of the global `engine_camera`
(`transform.M4x4 + 12`), and the table of the `switch` of `DrawBSPPolygon`, from the
blending mode to the two arguments of `qglBlendFunc` (`none` for the `default` case). -/
structure DrawEnv where
  vec3_plane_dist : Plane → Vec3 → Int
  engine_camera_pos : Vec3
  blendFunc : Nat → Option (Nat × Nat)

/-- Method `CRender::DrawBSPPolygon`. -/
def DrawBSPPolygon (E : DrawEnv) (st : DrawState) (p : bsp_polygon_s) : DrawState :=
  let st1 :=
    if st.m_active_transparency ≠ p.transparency then
      { st with
        m_active_transparency := p.transparency
        calls :=
          match E.blendFunc p.transparency with
          | some (sfactor, dfactor) => st.calls ++ [GLCall.BlendFunc sfactor dfactor]
          | none => st.calls }
    else st
  let st2 :=
    if st1.m_active_texture ≠ p.texture_index then
      { st1 with
        m_active_texture := p.texture_index
        calls := st1.calls ++ [GLCall.BindTexture p.texture_index] }
    else st1
  { st2 with calls := st2.calls ++ [GLCall.DrawElements p] }

/-- Method `CRender::DrawBSPBackToFront`; a `NULL` child is not visited. -/
def DrawBSPBackToFront (E : DrawEnv) : bsp_node_p → DrawState → DrawState
  | bsp_node_p.null, st => st
  | bsp_node_p.node plane front back polygons_front polygons_back, st =>
    if E.vec3_plane_dist plane E.engine_camera_pos ≥ 0 then
      let st1 := DrawBSPBackToFront E back st
      let st2 := polygons_back.foldl (DrawBSPPolygon E) st1
      let st3 := polygons_front.foldl (DrawBSPPolygon E) st2
      DrawBSPBackToFront E front st3
    else
      let st1 := DrawBSPBackToFront E front st
      let st2 := polygons_front.foldl (DrawBSPPolygon E) st1
      let st3 := polygons_back.foldl (DrawBSPPolygon E) st2
      DrawBSPBackToFront E back st3

/-- The polygons submitted by `qglDrawElements`, in call order. -/
def drawn (st : DrawState) : List bsp_polygon_s :=
  st.calls.filterMap fun c =>
    match c with
    | GLCall.DrawElements p => some p
    | _ => none

/-- The state at the start of the transparent pass: nothing drawn yet. -/
def DrawState.start : DrawState where
  m_active_transparency := 0
  m_active_texture := 0
  calls := []

/-- The sequence of polygons emitted by `DrawBSPBackToFront` on a tree. -/
def emitted (E : DrawEnv) (t : bsp_node_p) : List bsp_polygon_s :=
  drawn (DrawBSPBackToFront E t DrawState.start)

/-- The order in the words of the specification: at each node the child on the far side of
the plane from the camera, then the two buckets of the node, then the child on the near
side; a camera on the plane counts as in front. -/
def backToFrontOrder (E : DrawEnv) : bsp_node_p → List bsp_polygon_s
  | bsp_node_p.null => []
  | bsp_node_p.node plane front back polygons_front polygons_back =>
    if E.vec3_plane_dist plane E.engine_camera_pos ≥ 0 then
      backToFrontOrder E back ++ (polygons_back ++ polygons_front) ++ backToFrontOrder E front
    else
      backToFrontOrder E front ++ (polygons_front ++ polygons_back) ++ backToFrontOrder E back

/-- The usual signed distance `p[0] x + p[1] y + p[2] z + p[3]` of a point from a plane. -/
def planeDist (plane : Plane) (pos : Vec3) : Int :=
  plane 0 * pos 0 + plane 1 * pos 1 + plane 2 * pos 2 + plane 3

/-- Square of the distance between two points. -/
def distSq (a b : Vec3) : Int :=
  (a 0 - b 0) ^ 2 + (a 1 - b 1) ^ 2 + (a 2 - b 2) ^ 2

/-- A point given by its three coordinates. -/
def vec3 (x y z : Int) : Vec3 := fun k => if k = 0 then x else if k = 1 then y else z

/-- A plane given by its four coefficients. -/
def plane4 (a b c d : Int) : Plane :=
  fun k => if k = 0 then a else if k = 1 then b else if k = 2 then c else d

/-- The engine camera at the origin, with the usual plane distance. -/
def envOrigin : DrawEnv where
  vec3_plane_dist := planeDist
  engine_camera_pos := vec3 0 0 0
  blendFunc := fun _ => none

/-- A quad in the plane `y = 100`, around `(300, 100, 0)`. -/
def quadMid : bsp_polygon_s where
  vertices := [vec3 290 100 (-10), vec3 310 100 (-10), vec3 310 100 10, vec3 290 100 10]
  texture_index := 1
  transparency := 2

/-- A quad in the plane `y = 200`, around `(200, 200, 0)`. -/
def quadNear : bsp_polygon_s where
  vertices := [vec3 190 200 (-10), vec3 210 200 (-10), vec3 210 200 10, vec3 190 200 10]
  texture_index := 1
  transparency := 2

/-- A quad in the plane `x = 1000`, around `(1000, 0, 0)`. -/
def quadFar : bsp_polygon_s where
  vertices := [vec3 1000 (-10) (-10), vec3 1000 10 (-10), vec3 1000 10 10, vec3 1000 (-10) 10]
  texture_index := 1
  transparency := 2

/-- The BSP tree of the three quads: `quadMid` splits along `y = 100`, `quadNear` lies in
front of that plane and `quadFar` behind it, on the side of the camera. -/
def treeQuads : bsp_node_p :=
  bsp_node_p.node (plane4 0 1 0 (-100))
    (bsp_node_p.node (plane4 0 1 0 (-200)) bsp_node_p.null bsp_node_p.null [quadNear] [])
    (bsp_node_p.node (plane4 1 0 0 (-1000)) bsp_node_p.null bsp_node_p.null [quadFar] [])
    [quadMid] []

/-- Three parallel quads one behind the other along the first axis, at `x = 100`, `200`
and `300`. -/
def quadAt (x : Int) : bsp_polygon_s where
  vertices := [vec3 x (-10) (-10), vec3 x 10 (-10), vec3 x 10 10, vec3 x (-10) 10]
  texture_index := 1
  transparency := 2

/-- The BSP tree of the quads at `x = 200` (root), `x = 300` (in front of the root plane)
and `x = 100` (behind it). -/
def treeStack : bsp_node_p :=
  bsp_node_p.node (plane4 1 0 0 (-200))
    (bsp_node_p.node (plane4 1 0 0 (-300)) bsp_node_p.null bsp_node_p.null [quadAt 300] [])
    (bsp_node_p.node (plane4 1 0 0 (-100)) bsp_node_p.null bsp_node_p.null [quadAt 100] [])
    [quadAt 200] []

/-- Some active entry of the render list refers to a room tagged `TR_ROOM_FLAG_SKYBOX`. -/
def SkyListed (W : Level) (s : CRender) : Prop :=
  ∃ i r, i < s.r_list_active_count ∧ (s.r_list i).room = some r ∧
    W.room_flags r &&& W.TR_ROOM_FLAG_SKYBOX ≠ 0

/-- The level `lvl3` with room `2` tagged as a skybox room. -/
def lvlSky : Level :=
  { lvl3 with room_flags := fun r => if r = 2 then 8 else 0 }

/-- One portal as the walk treats it, in the words of the specification: the clip of the
portal against the frustum `frus` is attempted; when it fails nothing changes; when it
succeeds (the new frustum being attached to the chain of the destination room) the
destination room is added and `ProcessRoom` recurses into it with the new frustum, and
the local count `ret` goes up by one. -/
def clipVisit (W : Level) (fuel : Nat) (cam : camera_s) (frus : Frustum) (acc : CRender × Nat)
    (p : portal_s) : Option (CRender × Nat) :=
  match W.clip cam p frus with
  | none => some acc
  | some g =>
    (AddRoom W (linkFrustum W acc.1 p g) (W.real_room p.dest_room)).bind fun r2 =>
      (ProcessRoom W fuel r2.1 p g).bind fun r3 => some (r3.1, acc.2 + 1)

/-- The state reached by `GenWorldList` in `lvl3` from `st3` with the camera `cam0`: rooms
`0`, `1`, `2` are listed, room `0` with a null chain. -/
def stSeen : CRender := (GenWorldList lvl3 5 st3 cam0).getD st3

/-- The level `lvl3` seen by a camera that faces away from every portal: no clip gives a
frustum. -/
def lvlAway : Level :=
  { lvl3 with clip := fun _ _ _ => none }

/-- A camera in room `0` of `lvl3`, five units from the plane shared with room `1`. -/
def camNear : camera_s where
  pos := fun k => if k = 0 then 995 else 500
  frustum := 0
  current_room := none

/-- The test of the boundary heuristic as lines 262-265 compute it, axis by axis: the
position is at least the `float` difference `bb_min - eps` and at most the `float` sum
`bb_max + eps` of the bounding box of the destination room, and the destination is not in
the overlapped-room list of the current room. -/
def nearBox (W : Level) (pos : Vec3) (curr_room dest_room : Nat) : Prop :=
  (∀ k : Fin 3, W.fsub (W.bb_min dest_room k) eps ≤ pos k ∧
    pos k ≤ W.fadd (W.bb_max dest_room k) eps) ∧
  W.Room_IsInOverlappedRoomsList curr_room dest_room = false

/-- The first condition of the boundary heuristic in the words of the specification: the
position lies inside the bounding box of the destination room enlarged by 10 units on
every axis, the enlargement taken exactly. -/
def enlargedBox (W : Level) (pos : Vec3) (dest_room : Nat) : Prop :=
  ∀ k : Fin 3, W.bb_min dest_room k - 10 ≤ pos k ∧ pos k ≤ W.bb_max dest_room k + 10

/-- The rooms of `lvlAway` far from the origin: along the first axis room `0` fills
`[200000000, 300000000]`, room `1` fills `[100000000, 200000000]` and room `2` fills
`[0, 100000000]`. Every bound is a single-precision value. -/
def lvlFar : Level :=
  { lvlAway with
    bb_min := fun r k =>
      if k = 0 then (if r = 0 then 200000000 else if r = 1 then 100000000 else 0) else 0
    bb_max := fun r k =>
      if k = 0 then (if r = 0 then 300000000 else if r = 1 then 200000000 else 100000000)
      else 1000 }

/-- A camera in room `0` of `lvlFar`, 16 units from the plane shared with room `1`; its
coordinates are single-precision values. -/
def camFar : camera_s where
  pos := fun k => if k = 0 then 200000016 else 500
  frustum := 0
  current_room := none

/-- The test of the brute-force pass of `GenWorldList` (line 291) on one room. -/
def boxVisible (W : Level) (cam : camera_s) (room : Nat) : Bool :=
  W.Frustum_IsAABBVisible (W.bb_min room) (W.bb_max room) cam.frustum

/-- The rooms the brute-force pass over the indices `l` of the room array at `b` adds to
the rooms `acc` already listed: `real_room` of each room whose box is visible, unless
already there. -/
def sweep (W : Level) (cam : camera_s) (b : Nat) (acc : List Nat) (l : List Nat) : List Nat :=
  l.foldl (fun a i =>
    if boxVisible W cam (b + i) then
      (if W.real_room (b + i) ∈ a then a else a ++ [W.real_room (b + i)])
    else a) acc

/-- The level `lvl3` with room `1` standing in for room `0` (`real_room` of room `0` is
room `1`), no room found for any position, and only the box of room `0` visible. -/
def lvlFlip : Level :=
  { lvl3 with
    real_room := fun r => if r = 0 then 1 else r
    World_FindRoomByPosCogerrence := fun _ _ => none
    Frustum_IsAABBVisible := fun bb_min _ _ => decide (bb_min 0 = 0) }

/-- The level `lvl3` with no room found for any position and the box of room `1` out of
view. -/
def lvlOut : Level :=
  { lvl3 with
    World_FindRoomByPosCogerrence := fun _ _ => none
    Frustum_IsAABBVisible := fun bb_min _ _ => decide (bb_min 0 ≠ 1000) }

/-- A room admitted by the boundary heuristic of `GenWorldList`: the destination of a
portal of the camera room `cr` whose clip against the camera frustum fails while the test
of line 262 holds. -/
def NearRoom (W : Level) (cam : camera_s) (cr r : Nat) : Prop :=
  ∃ p ∈ W.portals cr, W.clip cam p cam.frustum = none ∧
    nearTest W cam cr (W.real_room p.dest_room) = true ∧ W.real_room p.dest_room = r

/-- Every listed room with a null frustum chain is the camera room `cr` or a room admitted
by the boundary heuristic. -/
def NullOnly (W : Level) (cam : camera_s) (cr : Nat) (s : CRender) : Prop :=
  ∀ r, inList s r → s.room_frustum r = [] → r = cr ∨ NearRoom W cam cr r

/-- The level `lvl3` seen by a camera that looks along the plane between rooms `0` and `1`:
the clip of the portal from room `0` fails, the portal from room `1` to room `2` is seen
in the camera frustum. -/
def lvlSide : Level :=
  { lvl3 with clip := fun _ p f => if p.id = 2 ∧ f = 0 then some 2 else none }

/-- Method `CRender::DrawBSPFrontToBack`; a `NULL` child is not visited. -/
def DrawBSPFrontToBack (E : DrawEnv) : bsp_node_p → DrawState → DrawState
  | bsp_node_p.null, st => st
  | bsp_node_p.node plane front back polygons_front polygons_back, st =>
    if E.vec3_plane_dist plane E.engine_camera_pos ≥ 0 then
      let st1 := DrawBSPFrontToBack E front st
      let st2 := polygons_front.foldl (DrawBSPPolygon E) st1
      let st3 := polygons_back.foldl (DrawBSPPolygon E) st2
      DrawBSPFrontToBack E back st3
    else
      let st1 := DrawBSPFrontToBack E back st
      let st2 := polygons_back.foldl (DrawBSPPolygon E) st1
      let st3 := polygons_front.foldl (DrawBSPPolygon E) st2
      DrawBSPFrontToBack E front st3

/-- The sequence of polygons emitted by `DrawBSPFrontToBack` on a tree. -/
def emittedFrontToBack (E : DrawEnv) (t : bsp_node_p) : List bsp_polygon_s :=
  drawn (DrawBSPFrontToBack E t DrawState.start)

/-- The polygons stored in the tree: the front and the back bucket of every node, each
stored polygon once. -/
def storedPolygons : bsp_node_p → List bsp_polygon_s
  | bsp_node_p.null => []
  | bsp_node_p.node _ front back polygons_front polygons_back =>
    polygons_front ++ polygons_back ++ storedPolygons front ++ storedPolygons back

/-- Every bucket of the tree holds at most one polygon. -/
def SmallBuckets : bsp_node_p → Prop
  | bsp_node_p.null => True
  | bsp_node_p.node _ front back polygons_front polygons_back =>
    polygons_front.length ≤ 1 ∧ polygons_back.length ≤ 1 ∧ SmallBuckets front ∧
      SmallBuckets back

/-- A point of space with coordinates in an ordered field `K`, such as the rationals or
the reals. -/
abbrev Point (K : Type) := Fin 3 → K

/-- The point at a position given by integers. -/
def toPoint (K : Type) [LinearOrderedField K] (v : Vec3) : Point K := fun k => ((v k : Int) : K)

/-- The points of a polygon: the convex hull of its vertices. -/
def polygonPoints (K : Type) [LinearOrderedField K] (p : bsp_polygon_s) : Set (Point K) :=
  convexHull K {x | ∃ v ∈ p.vertices, x = toPoint K v}

/-- The signed distance `p[0] x + p[1] y + p[2] z + p[3]` of a point from a plane. -/
def planeDistAt {K : Type} [LinearOrderedField K] (plane : Plane) (x : Point K) : K :=
  plane 0 * x 0 + plane 1 * x 1 + plane 2 * x 2 + plane 3

/-- Square of the Euclidean distance between two points. -/
def distSqAt {K : Type} [LinearOrderedField K] (a b : Point K) : K :=
  (a 0 - b 0) ^ 2 + (a 1 - b 1) ^ 2 + (a 2 - b 2) ^ 2

/-- The point `q` lies on the ray from `c` through `p`: `q - c = s (p - c)` for some
`s > 0`. -/
def OnRay {K : Type} [LinearOrderedField K] (c p q : Point K) : Prop :=
  ∃ s : K, 0 < s ∧ ∀ k, q k - c k = s * (p k - c k)

/-- Two polygons that do not intersect: no point belongs to both. -/
def NonIntersecting (K : Type) [LinearOrderedField K] (x y : bsp_polygon_s) : Prop :=
  ∀ p, p ∈ polygonPoints K x → p ∉ polygonPoints K y

/-- Descending distance from the point `c` along the lines of sight: wherever a ray from
`c` meets the polygon `x` and the polygon `y`, the point of `y` is strictly nearer to `c`
than the point of `x`. -/
def SeenBehind (K : Type) [LinearOrderedField K] (c : Point K) (x y : bsp_polygon_s) : Prop :=
  ∀ p ∈ polygonPoints K x, ∀ q ∈ polygonPoints K y, OnRay c p q → distSqAt c q < distSqAt c p

/-- The point of the first axis at the first coordinate of the first vertex of a polygon;
for the quad `quadAt a` it is the middle `(a, 0, 0)` of the quad. -/
def axisPoint (p : bsp_polygon_s) : Vec3 :=
  match p.vertices with
  | [] => vec3 0 0 0
  | v :: _ => vec3 (v 0) 0 0

/-- The polygons lie where a BSP tree keeps them: at every node the polygons of the two
buckets lie in the plane of the node, the polygons of the front subtree on its front side
(signed distance `≥ 0` at every vertex) and the polygons of the back subtree on its back
side (signed distance `≤ 0` at every vertex). -/
def OnProperSides : bsp_node_p → Prop
  | bsp_node_p.null => True
  | bsp_node_p.node plane front back polygons_front polygons_back =>
    (∀ x ∈ polygons_front ++ polygons_back, ∀ v ∈ x.vertices, planeDist plane v = 0) ∧
    (∀ x ∈ storedPolygons front, ∀ v ∈ x.vertices, 0 ≤ planeDist plane v) ∧
    (∀ x ∈ storedPolygons back, ∀ v ∈ x.vertices, planeDist plane v ≤ 0) ∧
    OnProperSides front ∧ OnProperSides back

/-- The camera lies on the plane of no node, and at every node the sign test of
`DrawBSPBackToFront` on the value of `vec3_plane_dist` reports the side the camera is
on. -/
def CameraOffPlanes (E : DrawEnv) : bsp_node_p → Prop
  | bsp_node_p.null => True
  | bsp_node_p.node plane front back _ _ =>
    ((0 < planeDist plane E.engine_camera_pos ∧
        E.vec3_plane_dist plane E.engine_camera_pos ≥ 0) ∨
      (planeDist plane E.engine_camera_pos < 0 ∧
        ¬ E.vec3_plane_dist plane E.engine_camera_pos ≥ 0)) ∧
    CameraOffPlanes E front ∧ CameraOffPlanes E back

/-! ## Drawing the render list -/

/-- What the drawing code reads from outside `render.cpp`: the content of the rooms (mesh,
static meshes, containers, sprites by the texture of their sprite, overlapped and near
rooms, bounding box), the tests `Frustum_IsOBBVisibleInFrustumList` and `OBB_OBB_Test`, the
mesh of the model that `World_GetSkybox` returns, the flag constants, and the BSP tree:
`bsp_root` is the root `dynamicBSP->m_root` of the tree that holds the polygon lists added
by `AddNewPolygonList` since its last reset, `bsp_vbo` is `dynamicBSP->m_vbo`. -/
structure Scene where
  mesh : Nat → Option base_mesh_s
  static_mesh : Nat → List static_mesh_s
  containers : Nat → List engine_container_s
  sprites : Nat → List Nat
  overlapped_room_list : Nat → List Nat
  near_room_list : Nat → List Nat
  room_obb : Nat → Nat
  Frustum_IsOBBVisibleInFrustumList : Nat → List Frustum → Bool
  OBB_OBB_Test : Nat → Nat → Bool
  World_GetSkybox : Option base_mesh_s
  R_SKIP_ROOM : Nat
  R_DRAW_DUMMY_STATICS : Nat
  R_DRAW_NULLMESHES : Nat
  ENTITY_STATE_VISIBLE : Nat
  OBJECT_ENTITY : Nat
  MESH_HAS_TRANSPARENCY : Nat
  bsp_root : List Nat → bsp_node_p
  bsp_vbo : Nat

/-- Record of the entry into a method. -/
def enter (st : DrawState) (m : Method) : DrawState :=
  { st with calls := st.calls ++ [GLCall.Enter m] }

/-- Body of the two loops over faces of `DrawMesh` (lines 750-755 and 786-791). -/
def DrawMesh_face (st : DrawState) (face : mesh_face_s) : DrawState :=
  let st1 :=
    if st.m_active_texture ≠ face.texture_index then
      { st with
        m_active_texture := face.texture_index
        calls := st.calls ++ [GLCall.BindTexture face.texture_index] }
    else st
  { st1 with calls := st1.calls ++ [GLCall.DrawFace face] }

/-- Method `CRender::DrawMesh`; the vertex buffers and the texture coordinates of the
animated polygons are not kept. -/
def DrawMesh (st : DrawState) (mesh : base_mesh_s) : DrawState :=
  let st1 :=
    if mesh.animated_vertex_count ≠ 0 then mesh.animated_faces.foldl DrawMesh_face st else st
  if mesh.vertex_count = 0 then st1 else mesh.faces.foldl DrawMesh_face st1

/-- Body of the loop of `CRender::DrawSkeletalModel`; `DrawSkinMesh` ends in `DrawMesh` on
the skin mesh. -/
def DrawSkeletalModel_tag (st : DrawState) (btag : ss_bone_tag_s) : DrawState :=
  if btag.is_hidden = 0 then
    let st1 :=
      DrawMesh st (match btag.mesh_replace with
        | some m => m
        | none => btag.mesh_base)
    let st2 :=
      match btag.mesh_slot with
      | some m => DrawMesh st1 m
      | none => st1
    match btag.mesh_skin with
    | some m => if btag.parent then DrawMesh st2 m else st2
    | none => st2
  else st

/-- Method `CRender::DrawEntity`: `none` for the dereference of a `NULL` model at line 897.
The lighting set up by `SetupEntityLight` and the lines handed to the debug drawer bind no
texture and draw no face; they are not kept. -/
def DrawEntity (Sc : Scene) (s : CRender) (st : DrawState) (entity : entity_s) :
    Option DrawState :=
  let st0 := enter st (Method.DrawEntity entity)
  if entity.state_flags &&& Sc.ENTITY_STATE_VISIBLE = 0 then some st0
  else
    match entity.model with
    | none => none
    | some model =>
      if model.hide ≠ 0 ∧ s.r_flags &&& Sc.R_DRAW_NULLMESHES = 0 then some st0
      else if model.animations then
        let st1 := entity.bone_tags.foldl DrawSkeletalModel_tag st0
        some (entity.hairs.foldl (fun t hair => hair.foldl DrawMesh t) st1)
      else some st0

/-- The frustum list of the tests of `DrawRoom` and `DrawList`:
`(room->frustum) ? (room->frustum) : (m_camera->frustum)`. -/
def frustumList (s : CRender) (cam : camera_s) (room : Nat) : List Frustum :=
  if s.room_frustum room ≠ [] then s.room_frustum room else [cam.frustum]

/-- The stencil part of `DrawRoom` (lines 986-1029). -/
def DrawRoom_stencil (W : Level) (Sc : Scene) (s : CRender) (st : DrawState) (room : Nat) :
    DrawState :=
  if s.room_frustum room ≠ [] ∧
      (Sc.overlapped_room_list room).any
        (fun o => decide (s.room_is_in_r_list (W.real_room o) ≠ 0)) = true then
    (s.room_frustum room).foldl (fun t _ =>
      { t with
        m_active_texture := 0
        calls := t.calls ++ [GLCall.BindWhiteTexture, GLCall.DrawArrays] }) st
  else st

/-- Body of the loop of `DrawRoom` over the static meshes of the room (lines 1063-1084). -/
def DrawRoom_static (Sc : Scene) (s : CRender) (cam : camera_s) (room : Nat) (st : DrawState)
    (sm : static_mesh_s) : DrawState :=
  if (sm.hide = 0 ∨ s.r_flags &&& Sc.R_DRAW_DUMMY_STATICS ≠ 0) ∧
      Sc.Frustum_IsOBBVisibleInFrustumList sm.obb (frustumList s cam room) = true then
    DrawMesh (enter st (Method.DrawStaticMesh room sm)) sm.mesh
  else st

/-- Body of the loop of `DrawRoom` over the containers of the room (lines 1087-1099). -/
def DrawRoom_container (Sc : Scene) (s : CRender) (cam : camera_s) (room : Nat)
    (st : DrawState) (cont : engine_container_s) : Option DrawState :=
  if cont.object_type = Sc.OBJECT_ENTITY then
    if Sc.Frustum_IsOBBVisibleInFrustumList cont.object.obb (frustumList s cam room) = true then
      DrawEntity Sc s st cont.object
    else some st
  else some st

/-- Body of the loop over the static meshes of a near room (lines 1109-1131). -/
def DrawRoom_near_static (Sc : Scene) (s : CRender) (cam : camera_s) (room near_room : Nat)
    (st : DrawState) (sm : static_mesh_s) : DrawState :=
  if Sc.OBB_OBB_Test sm.obb (Sc.room_obb room) = true ∧
      Sc.Frustum_IsOBBVisibleInFrustumList sm.obb (frustumList s cam room) = true ∧
      (sm.hide = 0 ∨ s.r_flags &&& Sc.R_DRAW_DUMMY_STATICS ≠ 0) then
    DrawMesh (enter st (Method.DrawStaticMesh near_room sm)) sm.mesh
  else st

/-- Body of the loop over the containers of a near room (lines 1135-1148). -/
def DrawRoom_near_container (Sc : Scene) (s : CRender) (cam : camera_s) (room : Nat)
    (st : DrawState) (cont : engine_container_s) : Option DrawState :=
  if cont.object_type = Sc.OBJECT_ENTITY then
    if Sc.OBB_OBB_Test cont.object.obb (Sc.room_obb room) = true ∧
        Sc.Frustum_IsOBBVisibleInFrustumList cont.object.obb (frustumList s cam room) = true then
      DrawEntity Sc s st cont.object
    else some st
  else some st

/-- Body of the loop of `DrawRoom` over the near rooms (lines 1101-1151); `ni` is
`room->content->near_room_list[ni]`. -/
def DrawRoom_near (W : Level) (Sc : Scene) (s : CRender) (cam : camera_s) (room : Nat)
    (st : DrawState) (ni : Nat) : Option DrawState :=
  let near_room := W.real_room ni
  if s.room_is_in_r_list ni = 0 then
    forEach (DrawRoom_near_container Sc s cam room) (Sc.containers near_room)
      ((Sc.static_mesh near_room).foldl (DrawRoom_near_static Sc s cam room near_room) st)
  else some st

/-- Method `CRender::DrawRoom`, for the camera `cam` behind `m_camera`; shaders and
matrices are not kept. -/
def DrawRoom (W : Level) (Sc : Scene) (s : CRender) (cam : camera_s) (st : DrawState)
    (room : Nat) : Option DrawState :=
  let st0 := enter st (Method.DrawRoom room)
  let st1 := DrawRoom_stencil W Sc s st0 room
  let st2 :=
    if s.r_flags &&& Sc.R_SKIP_ROOM = 0 then
      match Sc.mesh room with
      | some m => DrawMesh st1 m
      | none => st1
    else st1
  let st3 := (Sc.static_mesh room).foldl (DrawRoom_static Sc s cam room) st2
  (forEach (DrawRoom_container Sc s cam room) (Sc.containers room) st3).bind fun st4 =>
    forEach (DrawRoom_near W Sc s cam room) (Sc.near_room_list room) st4

/-- Method `CRender::DrawRoomSprites`: the texture of the first sprite is bound by a
direct call of `qglBindTexture`; `m_active_texture` is not written. -/
def DrawRoomSprites (Sc : Scene) (st : DrawState) (room : Nat) : DrawState :=
  let st0 := enter st (Method.DrawRoomSprites room)
  match Sc.sprites room with
  | [] => st0
  | texture_index :: _ =>
    { st0 with calls := st0.calls ++ [GLCall.BindTexture texture_index, GLCall.DrawArrays] }

/-- Method `CRender::DrawSkyBox`. -/
def DrawSkyBox (W : Level) (Sc : Scene) (s : CRender) (st : DrawState) : DrawState :=
  let st0 := enter st Method.DrawSkyBox
  if s.r_flags &&& W.R_DRAW_SKYBOX ≠ 0 then
    match Sc.World_GetSkybox with
    | some m => DrawMesh st0 m
    | none => st0
  else st0

/-- The rooms of a sequence of render-list entries: `none` when an entry holds a `NULL`
room, which the loops of `DrawList` dereference. -/
def listedRooms : List (Option Nat) → Option (List Nat)
  | [] => some []
  | none :: _ => none
  | some r :: l => (listedRooms l).map fun rooms => r :: rooms

/-- Body of the first loop over transparent polygons of `DrawList` (lines 362-369): the
polygon lists handed to `AddNewPolygonList` so far, and the one of the mesh of the room. -/
def DrawList_roomBatch (Sc : Scene) (added : List Nat) (r : Nat) : List Nat :=
  match Sc.mesh r with
  | some m =>
    match m.transparency_polygons with
    | some polygons => added ++ [polygons]
    | none => added
  | none => added

/-- Body of the loop over the static meshes of a room in `DrawList` (lines 375-381). -/
def DrawList_staticBatch (Sc : Scene) (s : CRender) (cam : camera_s) (r : Nat)
    (added : List Nat) (sm : static_mesh_s) : List Nat :=
  match sm.mesh.transparency_polygons with
  | some polygons =>
    if Sc.Frustum_IsOBBVisibleInFrustumList sm.obb (frustumList s cam r) = true then
      added ++ [polygons]
    else added
  | none => added

/-- Body of the loop over the bones of an entity in `DrawList` (lines 390-397). -/
def DrawList_boneBatch (added : List Nat) (btag : ss_bone_tag_s) : List Nat :=
  match btag.mesh_base.transparency_polygons with
  | some polygons => added ++ [polygons]
  | none => added

/-- Body of the loop over the containers of a room in `DrawList` (lines 384-399). -/
def DrawList_containerBatch (Sc : Scene) (s : CRender) (cam : camera_s) (r : Nat)
    (added : List Nat) (cont : engine_container_s) : List Nat :=
  if cont.object_type = Sc.OBJECT_ENTITY then
    match cont.object.model with
    | some model =>
      if cont.object.state_flags &&& Sc.ENTITY_STATE_VISIBLE ≠ 0 ∧
          model.transparency_flags = Sc.MESH_HAS_TRANSPARENCY ∧
          Sc.Frustum_IsOBBVisibleInFrustumList cont.object.obb (frustumList s cam r) = true then
        cont.object.bone_tags.foldl DrawList_boneBatch added
      else added
    | none => added
  else added

/-- Body of the second loop over transparent polygons of `DrawList` (lines 371-400). -/
def DrawList_objectBatch (Sc : Scene) (s : CRender) (cam : camera_s) (added : List Nat)
    (r : Nat) : List Nat :=
  (Sc.containers r).foldl (DrawList_containerBatch Sc s cam r)
    ((Sc.static_mesh r).foldl (DrawList_staticBatch Sc s cam r) added)

/-- The end of `DrawList` (lines 402-427): the traversal of the BSP tree, when the front
list of the root is not empty and the vertex buffer exists; `none` for a `NULL` root. -/
def DrawList_bsp (Sc : Scene) (E : DrawEnv) (added : List Nat) (st : DrawState) :
    Option DrawState :=
  match Sc.bsp_root added with
  | bsp_node_p.null => none
  | bsp_node_p.node plane front back polygons_front polygons_back =>
    let st1 :=
      if polygons_front.isEmpty = false ∧ Sc.bsp_vbo ≠ 0 then
        DrawBSPBackToFront E (bsp_node_p.node plane front back polygons_front polygons_back)
          (enter { st with m_active_transparency := 0 } Method.DrawBSPBackToFront)
      else st
    some { st1 with m_active_texture := 0 }

/-- Method `CRender::DrawList`. The polygon modes, the capabilities, the shaders and the
vector `m_cam_right` are not kept. The BSP tree is taken as emptied by `GenWorldList`
before the call, so that it holds the polygon lists added by this call. `none` stands for
the dereference of a `NULL` pointer (room of an active entry, model of a visible entity,
root of the tree). -/
def DrawList (W : Level) (Sc : Scene) (E : DrawEnv) (s : CRender) (st : DrawState) :
    Option DrawState :=
  match s.m_camera with
  | none => some st
  | some cam =>
    match listedRooms (activeRooms s) with
    | none => none
    | some rooms =>
      let st1 := DrawSkyBox W Sc s { st with m_active_texture := 0 }
      (forEach (DrawRoom W Sc s cam) rooms st1).bind fun st2 =>
        let st3 := rooms.foldl (DrawRoomSprites Sc) st2
        let added1 := rooms.foldl (DrawList_roomBatch Sc) []
        let added2 := rooms.foldl (DrawList_objectBatch Sc s cam) added1
        let st4 :=
          { st3 with
            calls := st3.calls ++ added2.map fun p => GLCall.Enter (Method.AddNewPolygonList p) }
        DrawList_bsp Sc E added2 st4

/-- The entries into methods among recorded calls, in call order. -/
def methodsOf (calls : List GLCall) : List Method :=
  calls.filterMap fun c =>
    match c with
    | GLCall.Enter m => some m
    | _ => none

/-- The entries into methods recorded in a state, in call order. -/
def entered (st : DrawState) : List Method := methodsOf st.calls

/-- The calls that `DrawList` itself makes: the entries recorded inside `DrawRoom` are left
out. -/
def Method.atList : Method → Bool
  | Method.DrawStaticMesh _ _ => false
  | Method.DrawEntity _ => false
  | _ => true

/-- Concatenation of the lists `g a` for `a` along a list. -/
def gather {α β : Type} (g : α → List β) : List α → List β
  | [] => []
  | a :: l => g a ++ gather g l

/-- The static meshes and the entities that `DrawRoom` draws for a near room `ni` of
`room`, in call order. -/
def DrawRoom_near_calls (W : Level) (Sc : Scene) (s : CRender) (cam : camera_s) (room ni : Nat) :
    List Method :=
  if s.room_is_in_r_list ni = 0 then
    gather (fun sm =>
      if Sc.OBB_OBB_Test sm.obb (Sc.room_obb room) = true ∧
          Sc.Frustum_IsOBBVisibleInFrustumList sm.obb (frustumList s cam room) = true ∧
          (sm.hide = 0 ∨ s.r_flags &&& Sc.R_DRAW_DUMMY_STATICS ≠ 0) then
        [Method.DrawStaticMesh (W.real_room ni) sm]
      else []) (Sc.static_mesh (W.real_room ni)) ++
    gather (fun cont =>
      if cont.object_type = Sc.OBJECT_ENTITY ∧
          Sc.OBB_OBB_Test cont.object.obb (Sc.room_obb room) = true ∧
          Sc.Frustum_IsOBBVisibleInFrustumList cont.object.obb (frustumList s cam room) = true then
        [Method.DrawEntity cont.object]
      else []) (Sc.containers (W.real_room ni))
  else []

/-- The entries that one call of `DrawRoom` records, in call order: its own, the static
meshes of the room that pass the test, the entities of the room that pass the test, then
what is drawn for the near rooms. -/
def DrawRoom_calls (W : Level) (Sc : Scene) (s : CRender) (cam : camera_s) (room : Nat) :
    List Method :=
  [Method.DrawRoom room] ++
  gather (fun sm =>
    if (sm.hide = 0 ∨ s.r_flags &&& Sc.R_DRAW_DUMMY_STATICS ≠ 0) ∧
        Sc.Frustum_IsOBBVisibleInFrustumList sm.obb (frustumList s cam room) = true then
      [Method.DrawStaticMesh room sm]
    else []) (Sc.static_mesh room) ++
  gather (fun cont =>
    if cont.object_type = Sc.OBJECT_ENTITY ∧
        Sc.Frustum_IsOBBVisibleInFrustumList cont.object.obb (frustumList s cam room) = true then
      [Method.DrawEntity cont.object]
    else []) (Sc.containers room) ++
  gather (DrawRoom_near_calls W Sc s cam room) (Sc.near_room_list room)

/-- The polygon list that the first loop over transparent polygons of `DrawList` hands to
the BSP tree for a room: the one of the mesh of the room, when there is one. -/
def roomPolygons (Sc : Scene) (r : Nat) : Option Nat :=
  match Sc.mesh r with
  | some m => m.transparency_polygons
  | none => none

/-- The texture left bound by a sequence of recorded calls, from the texture `b` bound
before them: the argument of the last `qglBindTexture`; `none` after `BindWhiteTexture`,
which binds a texture of its own. -/
def boundTexture (b : Option Nat) (calls : List GLCall) : Option Nat :=
  calls.foldl (fun t c =>
    match c with
    | GLCall.BindTexture texture => some texture
    | GLCall.BindWhiteTexture => none
    | _ => t) b

/-- The faces and polygons submitted by a sequence of recorded calls, each as the pair of
its `texture_index` and of the texture bound at that moment, `b` being the texture bound
before the calls. -/
def submitted (b : Option Nat) : List GLCall → List (Nat × Option Nat)
  | [] => []
  | GLCall.BindTexture texture :: l => submitted (some texture) l
  | GLCall.BindWhiteTexture :: l => submitted none l
  | GLCall.DrawFace face :: l => (face.texture_index, b) :: submitted b l
  | GLCall.DrawElements p :: l => (p.texture_index, b) :: submitted b l
  | _ :: l => submitted b l

/-- The state after `GenWorldList` in `lvlAway` from `st3` with the camera `cam0`: room `0`
alone is listed. -/
def stOne : CRender := (GenWorldList lvlAway 2 st3 cam0).getD st3

/-- A room mesh with one face, of texture `1`, and a list of transparent polygons. -/
def meshWall : base_mesh_s where
  animated_vertex_count := 0
  animated_faces := []
  vertex_count := 4
  faces := [{ texture_index := 1 }]
  transparency_polygons := some 1

/-- A scene in which room `0` has the mesh `meshWall` and one sprite, of texture `7`; the
BSP tree built from the transparent polygons of the mesh holds the quad `quadAt 100`, of
texture `1`. -/
def sceneSprite : Scene where
  mesh := fun r => if r = 0 then some meshWall else none
  static_mesh := fun _ => []
  containers := fun _ => []
  sprites := fun r => if r = 0 then [7] else []
  overlapped_room_list := fun _ => []
  near_room_list := fun _ => []
  room_obb := fun r => r
  Frustum_IsOBBVisibleInFrustumList := fun obb _ => decide (obb ≠ 4)
  OBB_OBB_Test := fun _ _ => true
  World_GetSkybox := none
  R_SKIP_ROOM := 1
  R_DRAW_DUMMY_STATICS := 2
  R_DRAW_NULLMESHES := 4
  ENTITY_STATE_VISIBLE := 2
  OBJECT_ENTITY := 1
  MESH_HAS_TRANSPARENCY := 1
  bsp_root := fun added =>
    bsp_node_p.node (plane4 1 0 0 (-100)) bsp_node_p.null bsp_node_p.null
      (if added = [] then [] else [quadAt 100]) []
  bsp_vbo := 1

/-- A mesh with one face of texture `t` and no transparent polygon. -/
def meshOf (t : Nat) : base_mesh_s where
  animated_vertex_count := 0
  animated_faces := []
  vertex_count := 3
  faces := [{ texture_index := t }]
  transparency_polygons := none

/-- A static mesh in view and not hidden. -/
def smShown : static_mesh_s := { hide := 0, obb := 1, mesh := meshOf 2 }

/-- A static mesh in view but hidden. -/
def smHidden : static_mesh_s := { hide := 1, obb := 2, mesh := meshOf 3 }

/-- A static mesh that is not hidden, with its box (`4`) out of view. -/
def smOut : static_mesh_s := { hide := 0, obb := 4, mesh := meshOf 4 }

/-- An entity with the box `obb`, visible, with a model of one bone. -/
def entityAt (obb : Nat) : entity_s where
  state_flags := 2
  obb := obb
  model := some { hide := 0, animations := true, transparency_flags := 0 }
  bone_tags :=
    [{ is_hidden := 0, mesh_base := meshOf 6, mesh_replace := none, mesh_slot := none,
       mesh_skin := none, parent := false }]
  hairs := []

/-- The scene `sceneSprite` with three static meshes and two entities in room `0`. -/
def sceneDemo : Scene :=
  { sceneSprite with
    static_mesh := fun r => if r = 0 then [smShown, smHidden, smOut] else []
    containers := fun r =>
      if r = 0 then
        [{ object_type := 1, object := entityAt 3 }, { object_type := 1, object := entityAt 4 }]
      else [] }

/-- The state after `DrawList` on `sceneDemo` with room `0` listed, from the empty record. -/
def stListDemo : DrawState :=
  (DrawList lvlAway sceneDemo envOrigin stOne DrawState.start).getD DrawState.start

/-! ## Animated textures -/

/-- Frame of an animated texture (`tex_frame_s`), as far as `UpdateAnimTextures` touches it;
a `float` is kept as its bit pattern. -/
structure tex_frame_s where
  uvrotate_max : Nat
  current_uvrotate : Nat

/-- Animated-texture sequence (`anim_seq_s`), as far as `UpdateAnimTextures` touches it;
`current_frame` and `frames_count` are `uint16_t`, the times are `float`s kept as bit
patterns, `frames` is the memory behind the pointer of that name. -/
structure anim_seq_s where
  frame_lock : Bool
  uvrotate : Bool
  frame_time : Nat
  frame_rate : Nat
  anim_type : Nat
  reverse_direction : Bool
  current_frame : Nat
  frames_count : Nat
  frames : Nat → tex_frame_s

/-- What `UpdateAnimTextures` reads from outside `render.cpp`: the global
`engine_frame_time`, the three constants of the `switch`, and the arithmetic of `float`,
taken as given: sum, comparison `>=`, the conversion `(int)(a / b)`, the value of
`a - (float)j * b` and the value of `a * b / c`. -/
structure AnimEnv where
  engine_frame_time : Nat
  TR_ANIMTEXTURE_FORWARD : Nat
  TR_ANIMTEXTURE_BACKWARD : Nat
  TR_ANIMTEXTURE_REVERSE : Nat
  fadd : Nat → Nat → Nat
  fge : Nat → Nat → Bool
  fquot : Nat → Nat → Int
  fsubmul : Nat → Int → Nat → Nat
  fmuldiv : Nat → Nat → Nat → Nat

/-- Body of the loop of `CRender::UpdateAnimTextures` (lines 169-222) on one sequence;
`none` for the division by zero of `current_frame %= frames_count`. The increments and
decrements of `current_frame` are modulo `65536`; the comparisons with `frames_count - 1`
are made on `int`. -/
def UpdateAnimTextures_seq (A : AnimEnv) (seq : anim_seq_s) : Option anim_seq_s :=
  if seq.frame_lock then some seq
  else
    let t := A.fadd seq.frame_time A.engine_frame_time
    if seq.uvrotate then
      let t1 := A.fsubmul t (A.fquot t seq.frame_rate) seq.frame_rate
      some { seq with
        frame_time := t1
        frames := fun k =>
          if k = seq.current_frame then
            { seq.frames k with
              current_uvrotate := A.fmuldiv t1 (seq.frames k).uvrotate_max seq.frame_rate }
          else seq.frames k }
    else if A.fge t seq.frame_rate then
      let seq1 := { seq with frame_time := A.fsubmul t (A.fquot t seq.frame_rate) seq.frame_rate }
      if seq.anim_type = A.TR_ANIMTEXTURE_REVERSE then
        if seq.reverse_direction then
          if seq.current_frame = 0 then
            some { seq1 with
              current_frame := (seq.current_frame + 1) % 65536
              reverse_direction := false }
          else some { seq1 with current_frame := (seq.current_frame + 65535) % 65536 }
        else
          let seq2 :=
            if (seq.current_frame : Int) = (seq.frames_count : Int) - 1 then
              { seq1 with
                current_frame := (seq.current_frame + 65535) % 65536
                reverse_direction := true }
            else if (seq.current_frame : Int) < (seq.frames_count : Int) - 1 then
              { seq1 with current_frame := (seq.current_frame + 1) % 65536 }
            else seq1
          if seq.frames_count = 0 then none
          else some { seq2 with current_frame := seq2.current_frame % seq.frames_count }
      else if seq.anim_type = A.TR_ANIMTEXTURE_FORWARD ∨
          seq.anim_type = A.TR_ANIMTEXTURE_BACKWARD then
        if seq.frames_count = 0 then none
        else
          some { seq1 with
            current_frame := (seq.current_frame + 1) % 65536 % seq.frames_count }
      else some seq1
    else some { seq with frame_time := t }

/-- Method `CRender::UpdateAnimTextures` on the memory `mem` of the sequences; the loop index
is a `uint16_t`, so the loop does not end (`none`) when the count is `65536` or more. -/
def UpdateAnimTextures (A : AnimEnv) (s : CRender) (mem : Nat → anim_seq_s) :
    Option (Nat → anim_seq_s) :=
  match s.m_anim_sequences with
  | none => some mem
  | some base =>
    if 65536 ≤ s.m_anim_sequences_count then none
    else
      forEach (fun m i =>
        (UpdateAnimTextures_seq A (m (base + i))).map fun seq =>
          fun k => if k = base + i then seq else m k)
        (List.range s.m_anim_sequences_count) mem

/-- An environment in which every frame lasts longer than the frame rate of the sequences:
the comparison `>=` holds. The constants of the `switch` are 0, 1 and 2. -/
def animTick : AnimEnv where
  engine_frame_time := 1
  TR_ANIMTEXTURE_FORWARD := 0
  TR_ANIMTEXTURE_BACKWARD := 1
  TR_ANIMTEXTURE_REVERSE := 2
  fadd := fun a b => a + b
  fge := fun _ _ => true
  fquot := fun _ _ => 1
  fsubmul := fun _ _ _ => 0
  fmuldiv := fun _ _ _ => 0

/-- A sequence of type `TR_ANIMTEXTURE_REVERSE` with a single frame, at frame 0, going
forward. -/
def seqSingle : anim_seq_s where
  frame_lock := false
  uvrotate := false
  frame_time := 0
  frame_rate := 1
  anim_type := 2
  reverse_direction := false
  current_frame := 0
  frames_count := 1
  frames := fun _ => { uvrotate_max := 0, current_uvrotate := 0 }

/-- The state after `ResetWorld` loads the rooms of `lvl3` and one animated-texture
sequence at address `0`. -/
def stAnim : CRender := ResetWorld lvl3 st0 (some 0) 3 (some 0) 1

/-! ## The level loader -/

/-- The reports of the loader: the call `Sys_extError("Wrong level version")` of line 250,
and any other call of `Sys_extError` or `Sys_extWarn`, told apart by a number. -/
inductive Report where
  | WrongLevelVersion
  | other (site : Nat)

/-- What `read_tr2_level` uses from outside `l_tr2.cpp`: the reader `read_bitu32` of
`l_main.h`, which returns a 32-bit word and leaves the stream after it; whether
`Sys_extError` returns to its caller; and the reports made by lines 252 to 458 on the
stream left after the version word, for either value of `demo`. -/
structure LoaderEnv where
  read_bitu32 : List Nat → Nat × List Nat
  Sys_extError_returns : Bool
  rest : Bool → List Nat → List Report

/-- Method `TR_Level::read_tr2_level`, as the list of its reports in call order, on the
stream `src` of the bytes not read yet. -/
def read_tr2_level (L : LoaderEnv) (src : List Nat) (demo : Bool) : List Report :=
  let file_version := (L.read_bitu32 src).1
  if file_version ≠ 0x0000002d then
    if L.Sys_extError_returns then
      Report.WrongLevelVersion :: L.rest demo (L.read_bitu32 src).2
    else [Report.WrongLevelVersion]
  else L.rest demo (L.read_bitu32 src).2

/-- Modelled from the spec: `read_bitu32` is not among the sources; the claim describes it
as reading a 32-bit little-endian word from the stream. On a stream of fewer than four
bytes the word is 0 here. -/
def read_bitu32_le : List Nat → Nat × List Nat
  | b0 :: b1 :: b2 :: b3 :: l =>
    (b0 % 256 + 256 * (b1 % 256) + 65536 * (b2 % 256) + 16777216 * (b3 % 256), l)
  | _ => (0, [])

/-- A loader environment with the little-endian reader, in which `Sys_extError` returns
and the rest of the function makes one other report. -/
def loaderLE : LoaderEnv where
  read_bitu32 := read_bitu32_le
  Sys_extError_returns := true
  rest := fun _ _ => [Report.other 0]

/-- The two rooms of `lvlBack` with clips that always succeed: the clip of any portal
against the frustum `f` gives the frustum `f + 1`. -/
def lvlLoop : Level :=
  { lvlBack with clip := fun _ _ f => some (f + 1) }

/-- The state of the pass of `GenWorldList` in `lvlBack` from `stBack` with the camera
`camEdge` at the moment it calls `ProcessRoom` for the portal from room `0` to room `1`:
room `0` is listed, the frustum `1` is in the chain of room `1`, and room `1` is listed. -/
def stBackWalk : CRender :=
  ((AddRoom lvlBack
    (linkFrustum lvlBack
      ((AddRoom lvlBack (setFrustumNull (passStart lvlBack stBack camEdge) 0) 0).getD
        (stBack, 0)).1
      { id := 0, dest_room := 1 } 1) 1).getD (stBack, 0)).1

/-! ## The pass in which the list may not be full -/

/-- The function `AddRoom` made to stop (`none`) where it would take the branch that sets
the flag of the room without writing an entry: flag clear and list full. -/
def AddRoom_guarded (W : Level) (s : CRender) (room : Nat) : Option (CRender × Nat) :=
  if s.room_is_in_r_list room = 0 ∧ ¬ s.r_list_active_count < s.r_list_size then none
  else AddRoom W s room

/-- The recursion of `ProcessRoom` with `AddRoom_guarded` in the place of `AddRoom`, written
by the outcome of each clip. -/
def ProcessRoom_guarded (W : Level) : Nat → CRender → portal_s → Frustum → Option (CRender × Nat)
  | 0, _, _, _ => none
  | fuel + 1, s, portal, frus =>
    if s.room_is_in_r_list (W.real_room portal.dest_room) ≠ 0 ∧
        s.room_frustum (W.real_room portal.dest_room) = [] then some (s, 0)
    else
      forEach (fun acc p =>
        match acc.1.m_camera with
        | none => none
        | some cam =>
          match W.clip cam p frus with
          | none => some acc
          | some g =>
            (AddRoom_guarded W (linkFrustum W acc.1 p g) (W.real_room p.dest_room)).bind
              fun r2 => (ProcessRoom_guarded W fuel r2.1 p g).bind
                fun r3 => some (r3.1, acc.2 + 1))
        (W.portals (W.real_room portal.dest_room)) (s, 0)

/-- The step of `GenWorldList` on a portal whose clip gave `g`, with `AddRoom_guarded`. -/
def guarded_visit (W : Level) (fuel : Nat) (s : CRender) (p : portal_s) (g : Frustum) :
    Option CRender :=
  (AddRoom_guarded W (linkFrustum W s p g) (W.real_room p.dest_room)).bind fun r2 =>
    (ProcessRoom_guarded W fuel r2.1 p g).bind fun r3 => some r3.1

/-- The body of the loop of `GenWorldList` over the portals of the camera room, with
`AddRoom_guarded`, written by the outcome of each clip. -/
def guarded_portal (W : Level) (fuel : Nat) (cam : camera_s) (cr : Nat) (s : CRender)
    (p : portal_s) : Option CRender :=
  match W.clip cam p cam.frustum with
  | some g => guarded_visit W fuel s p g
  | none =>
    if nearTest W cam cr (W.real_room p.dest_room) then
      (AddRoom_guarded W (setFrustumNull s (W.real_room p.dest_room))
        (W.real_room p.dest_room)).bind fun r3 =>
          if r3.2 ≠ 0 then
            forEach (fun t np =>
              match W.clip cam np cam.frustum with
              | some g => guarded_visit W fuel t np g
              | none => some t) (W.portals (W.real_room p.dest_room)) r3.1
          else some r3.1
    else some s

/-- The pass of `GenWorldList` with `AddRoom_guarded` in the place of `AddRoom`: it stops
(`none`) if a call of `AddRoom` would find the room not flagged and the list full. -/
def GenWorldList_guarded (W : Level) (fuel : Nat) (s : CRender) (cam : camera_s) :
    Option CRender :=
  match s.m_rooms with
  | none => some { CleanList W s with m_camera := some cam }
  | some rooms =>
    match W.World_FindRoomByPosCogerrence cam.pos cam.current_room with
    | some cr =>
      (AddRoom_guarded W (setFrustumNull (passStart W s cam) cr) cr).bind fun r4 =>
        forEach (guarded_portal W fuel (camFound W cam) cr) (W.portals cr) r4.1
    | none =>
      forEach (fun t i =>
        if boxVisible W (camFound W cam) (rooms + i) then
          (AddRoom_guarded W t (W.real_room (rooms + i))).bind fun r => some r.1
        else some t) (List.range s.m_rooms_count) (passStart W s cam)

/-- Agreement of the texture cache with the texture bound, `b` being the texture bound
before the recorded calls: `m_active_texture` is 0 or it is the texture bound; and every
face or polygon of non-zero `texture_index` submitted so far was submitted with its texture
bound. -/
def CacheSound (b : Option Nat) (st : DrawState) : Prop :=
  (st.m_active_texture = 0 ∨ boundTexture b st.calls = some st.m_active_texture) ∧
  ∀ pr ∈ submitted b st.calls, pr.1 ≠ 0 → pr.2 = some pr.1

/-! ## `AddRoom` -/

theorem AddRoom_of_flag (W : Level) (s : CRender) (room : Nat)
    (h : s.room_is_in_r_list room ≠ 0) : AddRoom W s room = some (s, 0) := by
  simp [AddRoom, h]

theorem AddRoom_flag_after (W : Level) (s s1 : CRender) (room : Nat) (ret : Nat)
    (h : AddRoom W s room = some (s1, ret)) : s1.room_is_in_r_list room ≠ 0 := by
  unfold AddRoom at h
  split at h
  · split at h
    · exact absurd h (by simp)
    · split at h <;>
      · simp only [Option.some.injEq, Prod.mk.injEq] at h
        obtain ⟨rfl, -⟩ := h
        simp
  · simp only [Option.some.injEq, Prod.mk.injEq] at h
    obtain ⟨rfl, -⟩ := h
    assumption

theorem AddRoom_new (W : Level) (s : CRender) (room : Nat) (cam : camera_s)
    (hcam : s.m_camera = some cam) (hflag : s.room_is_in_r_list room = 0)
    (hcap : s.r_list_active_count < s.r_list_size) :
    AddRoom W s room = some ({ s with
      r_list := fun i =>
        if i = s.r_list_active_count then
          { room := some room, active := 1, dist := W.vec3_dist cam.pos (centre W room) }
        else s.r_list i
      r_list_active_count := s.r_list_active_count + 1
      r_flags :=
        if W.room_flags room &&& W.TR_ROOM_FLAG_SKYBOX ≠ 0 then s.r_flags ||| W.R_DRAW_SKYBOX
        else s.r_flags
      room_is_in_r_list := fun r => if r = room then 1 else s.room_is_in_r_list r }, 1) := by
  simp [AddRoom, hcam, hflag, hcap]

theorem AddRoom_full (W : Level) (s : CRender) (room : Nat) (cam : camera_s)
    (hcam : s.m_camera = some cam) (hflag : s.room_is_in_r_list room = 0)
    (hcap : ¬ s.r_list_active_count < s.r_list_size) :
    AddRoom W s room = some ({ s with
      room_is_in_r_list := fun r => if r = room then 1 else s.room_is_in_r_list r }, 0) := by
  simp [AddRoom, hcam, hflag, hcap]

theorem stCam_camera : stCam.m_camera ≠ none := by
  rw [show stCam.m_camera = some cam0 from rfl]
  exact Option.some_ne_none cam0

theorem st3_camera : st3.m_camera ≠ none := by
  rw [show st3.m_camera = some cam0 from rfl]
  exact Option.some_ne_none cam0

/-- C1: a second `AddRoom` on the same room, straight after a first one that returned,
returns 0 and leaves the whole state (render list, active count, `r_flags`, every room
flag) exactly as the first call left it. -/
theorem AddRoom_idempotent (W : Level) (s s1 : CRender) (room : Nat) (ret : Nat)
    (h : AddRoom W s room = some (s1, ret)) : AddRoom W s1 room = some (s1, 0) :=
  AddRoom_of_flag W s1 room (AddRoom_flag_after W s s1 room ret h)

theorem AddRoom_idempotent_witness :
    ∃ s1, AddRoom lvl3 st3 1 = some (s1, 1) ∧ AddRoom lvl3 s1 1 = some (s1, 0) :=
  ⟨_, rfl, AddRoom_idempotent lvl3 st3 _ 1 1 rfl⟩

/-- C2: with a camera set, `AddRoom` on a room whose flag is clear while the list is not
full returns 1, writes `(room, active = 1)` at index `r_list_active_count`, raises the
active count by one and leaves every other entry as it was; in every other case it
returns 0 and the entries and the active count are unchanged. -/
theorem AddRoom_contract (W : Level) (s : CRender) (room : Nat)
    (hcam : s.m_camera ≠ none) :
    (s.room_is_in_r_list room = 0 ∧ s.r_list_active_count < s.r_list_size →
      ∃ s1, AddRoom W s room = some (s1, 1) ∧
        (s1.r_list s.r_list_active_count).room = some room ∧
        (s1.r_list s.r_list_active_count).active = 1 ∧
        s1.r_list_active_count = s.r_list_active_count + 1 ∧
        ∀ i, i ≠ s.r_list_active_count → s1.r_list i = s.r_list i) ∧
    (¬ (s.room_is_in_r_list room = 0 ∧ s.r_list_active_count < s.r_list_size) →
      ∃ s1, AddRoom W s room = some (s1, 0) ∧ s1.r_list = s.r_list ∧
        s1.r_list_active_count = s.r_list_active_count) := by
  obtain ⟨cam, hc⟩ := Option.ne_none_iff_exists'.mp hcam
  constructor
  · rintro ⟨hflag, hcap⟩
    refine ⟨_, AddRoom_new W s room cam hc hflag hcap, ?_, ?_, rfl, ?_⟩
    · simp
    · simp
    · intro i hi
      simp [hi]
  · intro hn
    by_cases hflag : s.room_is_in_r_list room = 0
    · have hcap : ¬ s.r_list_active_count < s.r_list_size := fun h => hn ⟨hflag, h⟩
      exact ⟨_, AddRoom_full W s room cam hc hflag hcap, rfl, rfl⟩
    · exact ⟨_, AddRoom_of_flag W s room hflag, rfl, rfl⟩

theorem AddRoom_contract_witness :
    (∃ s1, AddRoom lvl3 st3 1 = some (s1, 1) ∧ (s1.r_list 0).room = some 1 ∧
      s1.r_list_active_count = 1) ∧
    (∃ s1, AddRoom lvl3 stCam 1 = some (s1, 0) ∧ s1.r_list_active_count = 0) := by
  have h := AddRoom_contract lvl3 st3 1 st3_camera
  have h2 := AddRoom_contract lvl3 stCam 1 stCam_camera
  obtain ⟨s1, e1, r1, -, c1, -⟩ := h.1 ⟨rfl, by decide⟩
  obtain ⟨s2, e2, -, c2⟩ := h2.2 (by decide)
  exact ⟨⟨s1, e1, r1, c1⟩, ⟨s2, e2, c2⟩⟩

/-- C3 (counterexample): in the state `stCam` (a camera is stored, no level is loaded) the
list is full (`0 = 0`) and room 7 has a clear flag; `AddRoom` on it returns 0 but sets the
flag. -/
theorem AddRoom_full_sets_flag :
    stCam.r_list_active_count = stCam.r_list_size ∧ stCam.room_is_in_r_list 7 = 0 ∧
    ∃ s1, AddRoom lvl3 stCam 7 = some (s1, 0) ∧ s1.room_is_in_r_list 7 = 1 :=
  ⟨rfl, rfl, _, rfl, rfl⟩

/-- C3 (amended): when the list is full and a camera is set, `AddRoom` returns 0 and leaves
every entry (also those at `r_list_size` and beyond), the active count and `r_flags` as
they were; the flag of the room is 1 afterwards if it was clear and unchanged if it was
set, and no other room flag changes. -/
theorem AddRoom_at_capacity (W : Level) (s : CRender) (room : Nat)
    (hcam : s.m_camera ≠ none) (hfull : s.r_list_active_count = s.r_list_size) :
    ∃ s1, AddRoom W s room = some (s1, 0) ∧ s1.r_list = s.r_list ∧
      s1.r_list_active_count = s.r_list_active_count ∧ s1.r_list_size = s.r_list_size ∧
      s1.r_flags = s.r_flags ∧
      s1.room_is_in_r_list room = (if s.room_is_in_r_list room = 0 then 1
        else s.room_is_in_r_list room) ∧
      ∀ r, r ≠ room → s1.room_is_in_r_list r = s.room_is_in_r_list r := by
  obtain ⟨cam, hc⟩ := Option.ne_none_iff_exists'.mp hcam
  by_cases hflag : s.room_is_in_r_list room = 0
  · have hcap : ¬ s.r_list_active_count < s.r_list_size := by omega
    refine ⟨_, AddRoom_full W s room cam hc hflag hcap, rfl, rfl, rfl, rfl, ?_, ?_⟩
    · simp [hflag]
    · intro r hr
      simp [hr]
  · refine ⟨_, AddRoom_of_flag W s room hflag, rfl, rfl, rfl, rfl, ?_, fun _ _ => rfl⟩
    simp [hflag]

theorem AddRoom_at_capacity_witness :
    ∃ s1, AddRoom lvl3 stCam 7 = some (s1, 0) ∧ s1.r_list = stCam.r_list ∧
      s1.r_list_active_count = 0 := by
  obtain ⟨s1, e, l, c, -⟩ := AddRoom_at_capacity lvl3 stCam 7 stCam_camera rfl
  exact ⟨s1, e, l, c⟩

/-! ## Elementary steps of the pass: generic preservation -/

theorem forEach_preserves {α σ : Type} (body : σ → α → Option σ) (P : σ → Prop)
    (Q : α → Prop) (h : ∀ s a s1, Q a → P s → body s a = some s1 → P s1) :
    ∀ (l : List α) (s s1 : σ), (∀ a ∈ l, Q a) → P s → forEach body l s = some s1 → P s1 := by
  intro l
  induction l with
  | nil =>
    intro s s1 _ hP h1
    simp only [forEach, Option.some.injEq] at h1
    subst h1
    exact hP
  | cons a as ih =>
    intro s s1 hQ hP h1
    simp only [forEach] at h1
    split at h1
    · exact absurd h1 (by simp)
    · next s2 hb =>
      exact ih s2 s1 (fun x hx => hQ x (List.mem_cons_of_mem _ hx))
        (h s a s2 (hQ a (List.mem_cons_self _ _)) hP hb) h1

theorem PortalFrustumIntersect_camera (W : Level) (s : CRender) (p : portal_s) (e : Frustum)
    (cam : camera_s) : (PortalFrustumIntersect W s p e cam).1.m_camera = s.m_camera := by
  unfold PortalFrustumIntersect
  split <;> rfl

theorem AddRoom_camera (W : Level) (s s1 : CRender) (r : Nat) (n : Nat)
    (h : AddRoom W s r = some (s1, n)) : s1.m_camera = s.m_camera := by
  unfold AddRoom at h
  split at h
  · split at h
    · exact absurd h (by simp)
    · split at h <;>
      · simp only [Option.some.injEq, Prod.mk.injEq] at h
        obtain ⟨rfl, -⟩ := h
        rfl
  · simp only [Option.some.injEq, Prod.mk.injEq] at h
    obtain ⟨rfl, -⟩ := h
    rfl

theorem ProcessRoom_body_preserves (W : Level) (G : Nat → Prop) (P : CRender → Prop)
    (hP : StepInv W G P) (rec : CRender → portal_s → Frustum → Option (CRender × Nat))
    (hrec : ∀ s p f s1 n, G (W.real_room p.dest_room) → P s → rec s p f = some (s1, n) → P s1)
    (r : Nat) (hr : G r) (frus : Frustum) (acc acc1 : CRender × Nat) (p : portal_s)
    (hp : p ∈ W.portals r) (hG : G (W.real_room p.dest_room)) (hacc : P acc.1)
    (h : ProcessRoom_body W rec frus acc p = some acc1) : P acc1.1 := by
  unfold ProcessRoom_body at h
  split at h
  · exact absurd h (by simp)
  · next cam hcam =>
    have hl := hP.link acc.1 r p frus cam hr hp hcam hacc
    simp only at h
    split at h
    · next s1 hpf =>
      simp only [Option.some.injEq] at h
      subst h
      rw [hpf] at hl
      exact hl
    · next s1 g hpf =>
      rw [hpf] at hl
      split at h
      · exact absurd h (by simp)
      · next s2 n2 ha =>
        have h2 := hP.add s1 _ s2 n2 hG hl ha
        split at h
        · exact absurd h (by simp)
        · next s3 n3 hr3 =>
          simp only [Option.some.injEq] at h
          subst h
          exact hrec s2 p g s3 n3 hG h2 hr3

theorem ProcessRoom_preserves (W : Level) (G : Nat → Prop) (P : CRender → Prop)
    (hG : PortalClosed W G) (hP : StepInv W G P) :
    ∀ (fuel : Nat) (s : CRender) (p : portal_s) (f : Frustum) (s1 : CRender) (n : Nat),
      G (W.real_room p.dest_room) → P s → ProcessRoom W fuel s p f = some (s1, n) → P s1 := by
  intro fuel
  induction fuel with
  | zero =>
    intro s p f s1 n _ _ h
    simp [ProcessRoom] at h
  | succ fuel ih =>
    intro s p f s1 n hd hs h
    simp only [ProcessRoom] at h
    split at h
    · simp only [Option.some.injEq, Prod.mk.injEq] at h
      obtain ⟨rfl, -⟩ := h
      exact hs
    · exact forEach_preserves (ProcessRoom_body W (ProcessRoom W fuel) f) (fun acc => P acc.1)
        (fun q => q ∈ W.portals (W.real_room p.dest_room))
        (fun acc q acc1 hq hacc hb =>
          ProcessRoom_body_preserves W G P hP (ProcessRoom W fuel) ih _ hd f acc acc1 q hq
            (hG _ hd q hq) hacc hb)
        (W.portals (W.real_room p.dest_room)) (s, 0) (s1, n) (fun _ ha => ha) hs h

theorem StepInv_camera (W : Level) (G : Nat → Prop) (c : Option camera_s) :
    StepInv W G (fun s => s.m_camera = c) where
  add := fun s r s1 n _ hs h => (AddRoom_camera W s s1 r n h).trans hs
  link := fun s _ p e cam _ _ _ hs => (PortalFrustumIntersect_camera W s p e cam).trans hs
  null := fun _ _ _ hs => hs

theorem StepInv_and (W : Level) (G : Nat → Prop) (P Q : CRender → Prop)
    (hP : StepInv W G P) (hQ : StepInv W G Q) : StepInv W G (fun s => P s ∧ Q s) where
  add := fun s r s1 n hr hs h => ⟨hP.add s r s1 n hr hs.1 h, hQ.add s r s1 n hr hs.2 h⟩
  link := fun s r p e cam hr hp hc hs =>
    ⟨hP.link s r p e cam hr hp hc hs.1, hQ.link s r p e cam hr hp hc hs.2⟩
  null := fun s r hr hs => ⟨hP.null s r hr hs.1, hQ.null s r hr hs.2⟩

theorem GenWorldList_near_preserves (W : Level) (G : Nat → Prop) (P : CRender → Prop)
    (hG : PortalClosed W G) (hP : StepInv W G P) (cam : camera_s)
    (hPc : ∀ s, P s → s.m_camera = some cam) (fuel : Nat) (r : Nat) (hr : G r)
    (s s1 : CRender) (np : portal_s) (hnp : np ∈ W.portals r) (hs : P s)
    (h : GenWorldList_near W fuel cam s np = some s1) : P s1 := by
  unfold GenWorldList_near at h
  have hl := hP.link s r np cam.frustum cam hr hnp (hPc s hs) hs
  have hd := hG r hr np hnp
  simp only at h
  split at h
  · next s2 hpf =>
    simp only [Option.some.injEq] at h
    subst h
    rw [hpf] at hl
    exact hl
  · next s2 g hpf =>
    rw [hpf] at hl
    split at h
    · exact absurd h (by simp)
    · next s3 n3 ha =>
      have h3 := hP.add s2 _ s3 n3 hd hl ha
      split at h
      · exact absurd h (by simp)
      · next s4 n4 hr4 =>
        simp only [Option.some.injEq] at h
        subst h
        exact ProcessRoom_preserves W G P hG hP fuel s3 np g s4 n4 hd h3 hr4

theorem GenWorldList_portal_preserves (W : Level) (G : Nat → Prop) (P : CRender → Prop)
    (hG : PortalClosed W G) (hP : StepInv W G P) (cam : camera_s)
    (hPc : ∀ s, P s → s.m_camera = some cam) (fuel : Nat) (cr : Nat) (hr : G cr)
    (s s1 : CRender) (p : portal_s) (hp : p ∈ W.portals cr) (hs : P s)
    (h : GenWorldList_portal W fuel cam cr s p = some s1) : P s1 := by
  unfold GenWorldList_portal at h
  have hl := hP.link s cr p cam.frustum cam hr hp (hPc s hs) hs
  have hd := hG cr hr p hp
  simp only at h
  split at h
  · next s2 g hpf =>
    rw [hpf] at hl
    split at h
    · exact absurd h (by simp)
    · next s3 n3 ha =>
      have h3 := hP.add s2 _ s3 n3 hd hl ha
      split at h
      · exact absurd h (by simp)
      · next s4 n4 hr4 =>
        simp only [Option.some.injEq] at h
        subst h
        exact ProcessRoom_preserves W G P hG hP fuel s3 p g s4 n4 hd h3 hr4
  · next s2 hpf =>
    rw [hpf] at hl
    split at h
    · have hn := hP.null s2 _ hd hl
      split at h
      · exact absurd h (by simp)
      · next s3 ret ha =>
        have h3 := hP.add _ _ s3 ret hd hn ha
        split at h
        · exact forEach_preserves (GenWorldList_near W fuel cam) P
            (fun q => q ∈ W.portals (W.real_room p.dest_room))
            (fun a q a1 hq ha1 hb =>
              GenWorldList_near_preserves W G P hG hP cam hPc fuel _ hd a a1 q hq ha1 hb)
            _ s3 s1 (fun _ hq => hq) h3 h
        · simp only [Option.some.injEq] at h
          subst h
          exact h3
    · simp only [Option.some.injEq] at h
      subst h
      exact hl

theorem GenWorldList_all_preserves (W : Level) (G : Nat → Prop) (P : CRender → Prop)
    (hP : StepInv W G P) (cam : camera_s) (rooms : Nat) (s s1 : CRender) (i : Nat)
    (hi : G (W.real_room (rooms + i))) (hs : P s)
    (h : GenWorldList_all W cam rooms s i = some s1) : P s1 := by
  unfold GenWorldList_all at h
  simp only at h
  split at h
  · split at h
    · exact absurd h (by simp)
    · next s2 n2 ha =>
      simp only [Option.some.injEq] at h
      subst h
      exact hP.add s _ s2 n2 hi hs ha
  · simp only [Option.some.injEq] at h
    subst h
    exact hs

theorem GenWorldList_of_rooms (W : Level) (fuel : Nat) (s : CRender) (cam : camera_s)
    (rooms : Nat) (hb : s.m_rooms = some rooms) :
    GenWorldList W fuel s cam =
      match W.World_FindRoomByPosCogerrence cam.pos cam.current_room with
      | some cr =>
        match AddRoom W (setFrustumNull (passStart W s cam) cr) cr with
        | none => none
        | some (s4, _) =>
          forEach (GenWorldList_portal W fuel (camFound W cam) cr) (W.portals cr) s4
      | none =>
        forEach (GenWorldList_all W (camFound W cam) rooms) (List.range s.m_rooms_count)
          (passStart W s cam) := by
  have h1 : (CleanList W s).m_rooms = some rooms := hb
  unfold GenWorldList
  simp only [h1]
  rfl

theorem GenWorldList_of_null (W : Level) (fuel : Nat) (s : CRender) (cam : camera_s)
    (hb : s.m_rooms = none) :
    GenWorldList W fuel s cam = some { CleanList W s with m_camera := some cam } := by
  have h1 : (CleanList W s).m_rooms = none := hb
  unfold GenWorldList
  simp only [h1]


/-- Generic form of the invariants of a visibility pass on a level with a room array:
a property kept by the elementary steps and true once the list is cleaned, the camera
is stored and the chain of the camera room is reset, is true at the end of the pass. -/
theorem GenWorldList_preserves (W : Level) (G : Nat → Prop) (P : CRender → Prop)
    (hG : PortalClosed W G) (hP : StepInv W G P) (fuel : Nat) (s s1 : CRender)
    (cam : camera_s) (base : Nat) (hbase : s.m_rooms = some base)
    (hlook : ∀ cr, W.World_FindRoomByPosCogerrence cam.pos cam.current_room = some cr → G cr)
    (hall : ∀ i, i < s.m_rooms_count → G (W.real_room (base + i)))
    (hPc : ∀ s, P s → s.m_camera = some (camFound W cam))
    (hinit : P (passStart W s cam))
    (h : GenWorldList W fuel s cam = some s1) : P s1 := by
  rw [GenWorldList_of_rooms W fuel s cam base hbase] at h
  split at h
  · next cr hcr =>
    have hcrG := hlook cr hcr
    have hn := hP.null _ cr hcrG hinit
    split at h
    · exact absurd h (by simp)
    · next s4 n4 ha =>
      have h4 := hP.add _ cr s4 n4 hcrG hn ha
      exact forEach_preserves _ P (fun q => q ∈ W.portals cr)
        (fun a q a1 hq ha1 hb =>
          GenWorldList_portal_preserves W G P hG hP _ hPc fuel cr hcrG a a1 q hq ha1 hb)
        _ s4 s1 (fun _ hq => hq) h4 h
  · exact forEach_preserves _ P (fun i => i < s.m_rooms_count)
      (fun a i a1 hi ha1 hb =>
        GenWorldList_all_preserves W G P hP _ base a a1 i (hall i hi) ha1 hb)
      _ _ s1 (fun i hi => List.mem_range.mp hi) hinit h

/-! ## Capacity and absence of duplicates -/

theorem AddRoom_cases (W : Level) (s s1 : CRender) (room : Nat) (n : Nat)
    (h : AddRoom W s room = some (s1, n)) :
    (s.room_is_in_r_list room ≠ 0 ∧ s1 = s ∧ n = 0) ∨
    (∃ cam, s.m_camera = some cam ∧ s.room_is_in_r_list room = 0 ∧
      s.r_list_active_count < s.r_list_size ∧ n = 1 ∧
      s1 = { s with
        r_list := fun i =>
          if i = s.r_list_active_count then
            { room := some room, active := 1, dist := W.vec3_dist cam.pos (centre W room) }
          else s.r_list i
        r_list_active_count := s.r_list_active_count + 1
        r_flags :=
          if W.room_flags room &&& W.TR_ROOM_FLAG_SKYBOX ≠ 0 then s.r_flags ||| W.R_DRAW_SKYBOX
          else s.r_flags
        room_is_in_r_list := fun r => if r = room then 1 else s.room_is_in_r_list r }) ∨
    (s.room_is_in_r_list room = 0 ∧ ¬ s.r_list_active_count < s.r_list_size ∧ n = 0 ∧
      s1 = { s with
        room_is_in_r_list := fun r => if r = room then 1 else s.room_is_in_r_list r }) := by
  by_cases hflag : s.room_is_in_r_list room = 0
  · by_cases hc0 : s.m_camera = none
    · simp [AddRoom, hflag, hc0] at h
    · obtain ⟨cam, hc⟩ := Option.ne_none_iff_exists'.mp hc0
      by_cases hcap : s.r_list_active_count < s.r_list_size
      · rw [AddRoom_new W s room cam hc hflag hcap] at h
        simp only [Option.some.injEq, Prod.mk.injEq] at h
        exact Or.inr (Or.inl ⟨cam, hc, hflag, hcap, h.2.symm, h.1.symm⟩)
      · rw [AddRoom_full W s room cam hc hflag hcap] at h
        simp only [Option.some.injEq, Prod.mk.injEq] at h
        exact Or.inr (Or.inr ⟨hflag, hcap, h.2.symm, h.1.symm⟩)
  · rw [AddRoom_of_flag W s room hflag] at h
    simp only [Option.some.injEq, Prod.mk.injEq] at h
    exact Or.inl ⟨hflag, h.1.symm, h.2.symm⟩

theorem PortalFrustumIntersect_cases (W : Level) (s : CRender) (p : portal_s) (e : Frustum)
    (cam : camera_s) :
    (W.clip cam p e = none ∧ PortalFrustumIntersect W s p e cam = (s, none)) ∨
    (∃ f, W.clip cam p e = some f ∧
      PortalFrustumIntersect W s p e cam = (linkFrustum W s p f, some f)) := by
  unfold PortalFrustumIntersect
  cases h : W.clip cam p e with
  | none => exact Or.inl ⟨rfl, rfl⟩
  | some f => exact Or.inr ⟨f, rfl, rfl⟩

/-- A property that does not read `room_frustum` and is kept by `AddRoom` is kept by every
elementary step. -/
theorem StepInv_of_add (W : Level) (G : Nat → Prop) (P : CRender → Prop)
    (hfr : ∀ s c, P s → P { s with room_frustum := c })
    (hadd : ∀ s r s1 n, G r → P s → AddRoom W s r = some (s1, n) → P s1) : StepInv W G P where
  add := hadd
  link := by
    intro s r p e cam _ _ _ hs
    rcases PortalFrustumIntersect_cases W s p e cam with ⟨-, h⟩ | ⟨f, -, h⟩
    · rw [h]
      exact hs
    · rw [h]
      exact hfr s _ hs
  null := fun s r _ hs => hfr s _ hs

theorem StepInv_capacity (W : Level) :
    StepInv W (fun _ => True) (fun s => s.r_list_active_count ≤ s.r_list_size) := by
  refine StepInv_of_add W _ _ (fun s c hs => hs) ?_
  intro s r s1 n _ hs h
  rcases AddRoom_cases W s s1 r n h with ⟨-, rfl, -⟩ | ⟨cam, -, -, hcap, -, rfl⟩ | ⟨-, -, -, rfl⟩
  · exact hs
  · exact hcap
  · exact hs

theorem GenWorldList_capacity (W : Level) (fuel : Nat) (s s1 : CRender) (cam : camera_s)
    (h : GenWorldList W fuel s cam = some s1) : s1.r_list_active_count ≤ s1.r_list_size := by
  cases hb : s.m_rooms with
  | none =>
    rw [GenWorldList_of_null W fuel s cam hb] at h
    simp only [Option.some.injEq] at h
    subst h
    exact Nat.zero_le _
  | some base =>
    have key := GenWorldList_preserves W (fun _ => True)
      (fun s => s.r_list_active_count ≤ s.r_list_size ∧ s.m_camera = some (camFound W cam))
      (fun _ _ _ _ => trivial)
      (StepInv_and W _ _ _ (StepInv_capacity W) (StepInv_camera W _ _)) fuel s s1 cam base hb
      (fun _ _ => trivial) (fun _ _ => trivial) (fun _ hs => hs.2)
      ⟨Nat.zero_le _, rfl⟩ h
    exact key.1

theorem step_capacity (W : Level) (s s1 : CRender) (op : Op)
    (hs : s.r_list_active_count ≤ s.r_list_size) (h : step W s op = some s1) :
    s1.r_list_active_count ≤ s1.r_list_size := by
  cases op with
  | ResetWorld rooms n a c =>
    simp only [step, Option.some.injEq] at h
    subst h
    cases rooms with
    | none => exact Nat.zero_le _
    | some base => exact Nat.zero_le _
  | CleanList =>
    simp only [step, Option.some.injEq] at h
    subst h
    exact Nat.zero_le _
  | AddRoom room =>
    simp only [step] at h
    split at h
    · exact absurd h (by simp)
    · next s2 n2 ha =>
      simp only [Option.some.injEq] at h
      subst h
      exact (StepInv_capacity W).add s room s2 n2 trivial hs ha
  | GenWorldList fuel cam => exact GenWorldList_capacity W fuel s s1 cam h

theorem StepInv_nodup (W : Level) :
    StepInv W (fun _ => True) (fun s => ListedFlagged s ∧ NoDupActive s) := by
  refine StepInv_of_add W _ _ (fun s c hs => hs) ?_
  intro s r s1 n _ hs h
  rcases AddRoom_cases W s s1 r n h with ⟨-, rfl, -⟩ | ⟨cam, -, hflag, -, -, rfl⟩ | ⟨hflag, -, -, rfl⟩
  · exact hs
  · obtain ⟨hl, hd⟩ := hs
    constructor
    · intro i x hi hx
      simp only at hi hx ⊢
      by_cases hic : i = s.r_list_active_count
      · simp only [hic, if_true, Option.some.injEq] at hx
        simp [hx]
      · simp only [hic, if_false] at hx
        by_cases hxr : x = r
        · simp [hxr]
        · simp only [hxr, if_false]
          exact hl i x (by omega) hx
    · intro i j x hi hj hxi hxj
      simp only at hi hj hxi hxj
      by_cases hic : i = s.r_list_active_count
      · by_cases hjc : j = s.r_list_active_count
        · omega
        · simp only [hic, if_true, Option.some.injEq] at hxi
          simp only [hjc, if_false] at hxj
          exact absurd hflag (hxi ▸ hl j x (by omega) hxj)
      · by_cases hjc : j = s.r_list_active_count
        · simp only [hjc, if_true, Option.some.injEq] at hxj
          simp only [hic, if_false] at hxi
          exact absurd hflag (hxj ▸ hl i x (by omega) hxi)
        · simp only [hic, if_false] at hxi
          simp only [hjc, if_false] at hxj
          exact hd i j x (by omega) (by omega) hxi hxj
  · obtain ⟨hl, hd⟩ := hs
    refine ⟨?_, hd⟩
    intro i x hi hx
    simp only at hi hx ⊢
    by_cases hxr : x = r
    · simp [hxr]
    · simp only [hxr, if_false]
      exact hl i x hi hx

theorem CleanList_nodup (W : Level) (s : CRender) :
    ListedFlagged (CleanList W s) ∧ NoDupActive (CleanList W s) :=
  ⟨fun i _ hi _ => absurd hi (Nat.not_lt_zero i), fun i _ _ hi _ _ _ => absurd hi (Nat.not_lt_zero i)⟩

theorem GenWorldList_nodup (W : Level) (fuel : Nat) (s s1 : CRender) (cam : camera_s)
    (h : GenWorldList W fuel s cam = some s1) : NoDupActive s1 := by
  cases hb : s.m_rooms with
  | none =>
    rw [GenWorldList_of_null W fuel s cam hb] at h
    simp only [Option.some.injEq] at h
    subst h
    exact fun i _ _ hi _ _ _ => absurd hi (Nat.not_lt_zero i)
  | some base =>
    have key := GenWorldList_preserves W (fun _ => True)
      (fun s => (ListedFlagged s ∧ NoDupActive s) ∧ s.m_camera = some (camFound W cam))
      (fun _ _ _ _ => trivial)
      (StepInv_and W _ _ _ (StepInv_nodup W) (StepInv_camera W _ _)) fuel s s1 cam base hb
      (fun _ _ => trivial) (fun _ _ => trivial) (fun _ hs => hs.2)
      ⟨CleanList_nodup W s, rfl⟩ h
    exact key.1.2

theorem addRooms_nodup (W : Level) (s s1 : CRender) (rooms : List Nat)
    (h : run W (CleanList W s) (rooms.map Op.AddRoom) = some s1) : NoDupActive s1 := by
  have key := forEach_preserves (step W) (fun s => ListedFlagged s ∧ NoDupActive s)
    (fun op => ∃ r, op = Op.AddRoom r)
    (fun a op a1 hop ha hb => by
      obtain ⟨r, rfl⟩ := hop
      simp only [step] at hb
      split at hb
      · exact absurd hb (by simp)
      · next s2 n2 hadd =>
        simp only [Option.some.injEq] at hb
        subst hb
        exact (StepInv_nodup W).add a r s2 n2 trivial ha hadd)
    (rooms.map Op.AddRoom) (CleanList W s) s1
    (fun op hop => by
      obtain ⟨r, -, hr⟩ := List.mem_map.mp hop
      exact ⟨r, hr.symm⟩)
    (CleanList_nodup W s) h
  exact key.2

/-! ## The flag `is_in_r_list` and the entries of the list -/

theorem ListInv_room_left (b n : Nat) (s : CRender) (r : Nat) (h : ListInv b n s)
    (hr : inLevel b n r) (hflag : s.room_is_in_r_list r = 0) : s.r_list_active_count < n := by
  obtain ⟨-, -, -, hent, hnd, -⟩ := h
  have hle : (Finset.range s.r_list_active_count).card ≤
      ((Finset.range n).erase (r - b)).card := by
    apply Finset.card_le_card_of_injOn (fun i => ((s.r_list i).room.getD 0) - b)
    · intro i hi
      obtain ⟨x, hx, hxl, hxf⟩ := hent i (Finset.mem_range.mp hi)
      simp only [hx, Option.getD_some, Finset.mem_erase, Finset.mem_range]
      unfold inLevel at hxl hr
      constructor
      · intro hxr
        have hxe : x = r := by omega
        subst hxe
        exact hxf hflag
      · omega
    · intro i hi j hj hij
      have hi1 : i < s.r_list_active_count := by simpa using hi
      have hj1 : j < s.r_list_active_count := by simpa using hj
      obtain ⟨x, hx, hxl, -⟩ := hent i hi1
      obtain ⟨y, hy, hyl, -⟩ := hent j hj1
      simp only [hx, hy, Option.getD_some] at hij
      unfold inLevel at hxl hyl
      have hxy : x = y := by omega
      exact hnd i j x hi1 hj1 hx (hxy ▸ hy)
  have hmem : r - b ∈ Finset.range n := by
    unfold inLevel at hr
    simp only [Finset.mem_range]
    omega
  rw [Finset.card_range, Finset.card_erase_of_mem hmem, Finset.card_range] at hle
  unfold inLevel at hr
  omega

theorem StepInv_ListInv (W : Level) (b n : Nat) : StepInv W (inLevel b n) (ListInv b n) := by
  refine StepInv_of_add W _ _ (fun s c hs => hs) ?_
  intro s r s1 m hr hs h
  have hnd : NoDupActive s1 := ((StepInv_nodup W).add s r s1 m trivial
      ⟨fun i x hi hx => by
        obtain ⟨y, hy, -, hyf⟩ := hs.2.2.2.1 i hi
        rw [hx] at hy
        exact (Option.some.inj hy) ▸ hyf, hs.2.2.2.2.1⟩ h).2
  rcases AddRoom_cases W s s1 r m h with ⟨-, rfl, -⟩ | ⟨cam, -, hflag, -, -, rfl⟩ | ⟨hflag, hcap, -, rfl⟩
  · exact hs
  · obtain ⟨hb, hn, hsz, hent, -, hfl⟩ := hs
    refine ⟨hb, hn, hsz, ?_, ?_, ?_⟩
    · intro i hi
      simp only at hi ⊢
      by_cases hic : i = s.r_list_active_count
      · exact ⟨r, by simp [hic], hr, by simp⟩
      · obtain ⟨x, hx, hxl, hxf⟩ := hent i (by omega)
        refine ⟨x, by simp [hic, hx], hxl, ?_⟩
        by_cases hxr : x = r
        · simp [hxr]
        · simpa [hxr] using hxf
    · exact hnd
    · intro x hxl hxf
      simp only at hxf
      by_cases hxr : x = r
      · exact ⟨s.r_list_active_count, by simp, by simp [hxr]⟩
      · simp only [hxr, if_false] at hxf
        obtain ⟨i, hi, hx⟩ := hfl x hxl hxf
        have hic : i ≠ s.r_list_active_count := by omega
        exact ⟨i, by simp only; omega, by simp [hic, hx]⟩
  · have hlt := ListInv_room_left b n s r hs hr hflag
    have hsz := hs.2.2.1
    omega

theorem isLevelRoom_iff (s : CRender) (b : Nat) (r : Nat) (hb : s.m_rooms = some b) :
    isLevelRoom s r = true ↔ inLevel b s.m_rooms_count r := by
  simp [isLevelRoom, hb, inLevel]

theorem CleanList_ListInv (W : Level) (b n : Nat) (s : CRender) (hb : s.m_rooms = some b)
    (hn : s.m_rooms_count = n) (hsz : n ≤ s.r_list_size) : ListInv b n (CleanList W s) := by
  refine ⟨hb, hn, hsz, fun i hi => absurd hi (Nat.not_lt_zero i),
    fun i _ _ hi _ _ _ => absurd hi (Nat.not_lt_zero i), ?_⟩
  intro r hr hf
  have hl : isLevelRoom s r = true := (isLevelRoom_iff s b r hb).mpr (hn ▸ hr)
  simp [CleanList, hl] at hf

theorem ResetWorld_ListInv (W : Level) (b n : Nat) (s : CRender) (a : Option Nat) (c : Nat)
    (hn : n + 128 < 2 ^ 32) : ListInv b n (ResetWorld W s (some b) n a c) := by
  refine ⟨rfl, rfl, ?_, fun i hi => absurd hi (Nat.not_lt_zero i),
    fun i _ _ hi _ _ _ => absurd hi (Nat.not_lt_zero i), ?_⟩
  · show n ≤ (n + 128) % 2 ^ 32
    rw [Nat.mod_eq_of_lt hn]
    omega
  · intro r hr hf
    unfold inLevel at hr
    simp [ResetWorld, hr] at hf

theorem GenWorldList_ListInv (W : Level) (b n : Nat) (hW : LevelClosed W b n) (fuel : Nat)
    (s s1 : CRender) (cam : camera_s) (hs : ListInv b n s)
    (h : GenWorldList W fuel s cam = some s1) : ListInv b n s1 := by
  obtain ⟨hclosed, hreal, hlook⟩ := hW
  have key := GenWorldList_preserves W (inLevel b n)
    (fun s => ListInv b n s ∧ s.m_camera = some (camFound W cam)) hclosed
    (StepInv_and W _ _ _ (StepInv_ListInv W b n) (StepInv_camera W _ _)) fuel s s1 cam b hs.1
    (fun cr hcr => hlook _ _ cr hcr)
    (fun i hi => hreal _ ⟨Nat.le_add_right b i, by rw [hs.2.1] at hi; omega⟩)
    (fun _ hs => hs.2)
    ⟨CleanList_ListInv W b n s hs.1 hs.2.1 hs.2.2.1, rfl⟩ h
  exact key.1

theorem step_ListInv (W : Level) (b n : Nat) (hW : LevelClosed W b n) (s s1 : CRender) (op : Op)
    (hop : LevelOp b n op) (hs : ListInv b n s) (h : step W s op = some s1) :
    ListInv b n s1 := by
  cases op with
  | ResetWorld rooms m a c => exact absurd hop (by simp [LevelOp])
  | CleanList =>
    simp only [step, Option.some.injEq] at h
    subst h
    exact CleanList_ListInv W b n s hs.1 hs.2.1 hs.2.2.1
  | AddRoom room =>
    simp only [step] at h
    split at h
    · exact absurd h (by simp)
    · next s2 n2 ha =>
      simp only [Option.some.injEq] at h
      subst h
      exact (StepInv_ListInv W b n).add s room s2 n2 hop hs ha
  | GenWorldList fuel cam => exact GenWorldList_ListInv W b n hW fuel s s1 cam hs h

theorem ListInv_iff (b n : Nat) (s : CRender) (hs : ListInv b n s) (r : Nat)
    (hr : inLevel b n r) : s.room_is_in_r_list r ≠ 0 ↔ inList s r := by
  constructor
  · exact hs.2.2.2.2.2 r hr
  · rintro ⟨i, hi, hx⟩
    obtain ⟨y, hy, -, hyf⟩ := hs.2.2.2.1 i hi
    rw [hx] at hy
    exact (Option.some.inj hy) ▸ hyf

theorem lvl3_closed : LevelClosed lvl3 0 3 := by
  refine ⟨?_, ?_, ?_⟩
  · intro r hr p hp
    unfold inLevel at hr
    have h3 : r = 0 ∨ r = 1 ∨ r = 2 := by omega
    rcases h3 with rfl | rfl | rfl <;> simp [lvl3] at hp <;> rcases hp with rfl | rfl <;>
      simp [lvl3, inLevel]
  · intro r hr
    exact hr
  · intro pos hint cr h
    simp only [lvl3, Option.some.injEq] at h
    subst h
    simp [inLevel]

set_option maxRecDepth 100000 in
theorem run_fillOps :
    ∃ s, run lvl3 st1 fillOps = some s ∧ isLevelRoom s 0 = true ∧
      s.room_is_in_r_list 0 ≠ 0 ∧ s.r_list_active_count = 129 ∧
      ∀ i, i < 129 → (s.r_list i).room ≠ some 0 :=
  ⟨_, rfl, rfl, by decide, rfl, by decide⟩

/-- C4 (counterexample): after `ResetWorld` on a one-room level (capacity 129), the calls
`AddRoom(1)`, ..., `AddRoom(129)`, `AddRoom(0)` leave room 0 of the level with its flag
set although no active entry refers to it. -/
theorem flag_set_without_entry :
    ∃ s, run lvl3 st1 fillOps = some s ∧ isLevelRoom s 0 = true ∧
      s.room_is_in_r_list 0 ≠ 0 ∧ ¬ inList s 0 := by
  obtain ⟨s, hrun, hl, hf, hc, hne⟩ := run_fillOps
  refine ⟨s, hrun, hl, hf, ?_⟩
  rintro ⟨i, hi, hx⟩
  exact hne i (hc ▸ hi) hx

/-- C4 (amended): on a level of `n` rooms at `b` with `n + 128 < 2 ^ 32` whose references
(`real_room`, portal destinations, lookup results) all lead to rooms of the level, in every
state reached from `ResetWorld` by `CleanList`, `GenWorldList` and `AddRoom` on rooms of the
level, a room of the level has its flag set if and only if an active entry refers to it. -/
theorem flag_iff_listed (W : Level) (b n : Nat) (hn : n + 128 < 2 ^ 32)
    (hW : LevelClosed W b n) (s0 : CRender) (a : Option Nat) (c : Nat) (ops : List Op)
    (hops : ∀ op ∈ ops, LevelOp b n op) (s : CRender)
    (h : run W (ResetWorld W s0 (some b) n a c) ops = some s) (r : Nat)
    (hr : inLevel b n r) : s.room_is_in_r_list r ≠ 0 ↔ inList s r :=
  ListInv_iff b n s
    (forEach_preserves (step W) (ListInv b n) (LevelOp b n)
      (fun x op x1 hop hx hstep => step_ListInv W b n hW x x1 op hop hx hstep)
      ops _ s hops (ResetWorld_ListInv W b n s0 a c hn) h) r hr

theorem flag_iff_listed_witness :
    ∃ s, run lvl3 (ResetWorld lvl3 st0 (some 0) 3 none 0)
        [Op.GenWorldList 5 cam0, Op.CleanList, Op.GenWorldList 5 cam0, Op.AddRoom 1] = some s ∧
      (s.room_is_in_r_list 2 ≠ 0 ↔ inList s 2) :=
  ⟨_, rfl, flag_iff_listed lvl3 0 3 (by decide) lvl3_closed st0 none 0
    [Op.GenWorldList 5 cam0, Op.CleanList, Op.GenWorldList 5 cam0, Op.AddRoom 1]
    (by simp [LevelOp, inLevel]) _ rfl 2 (by decide)⟩

/-- C5: `r_list_active_count <= r_list_size` holds in the state built by the constructor
and is kept by every call of `ResetWorld`, `CleanList`, `AddRoom` and `GenWorldList`
that returns. -/
theorem active_count_le_size (W : Level) :
    (∀ flags chains mem,
      (CRender.init flags chains mem).r_list_active_count ≤
        (CRender.init flags chains mem).r_list_size) ∧
    ∀ s op s1, s.r_list_active_count ≤ s.r_list_size → step W s op = some s1 →
      s1.r_list_active_count ≤ s1.r_list_size :=
  ⟨fun _ _ _ => Nat.le_refl 0, fun s op s1 hs h => step_capacity W s s1 op hs h⟩

theorem active_count_le_size_witness :
    ∃ s1, step lvl3 st3 (Op.GenWorldList 5 cam0) = some s1 ∧
      s1.r_list_active_count = 3 ∧ s1.r_list_active_count ≤ s1.r_list_size :=
  ⟨_, rfl, rfl, (active_count_le_size lvl3).2 st3 (Op.GenWorldList 5 cam0) _ (by decide) rfl⟩

/-- C8: after `GenWorldList`, and after any sequence of `AddRoom` calls that follows a
`CleanList`, no room is referred to by two different active entries of the render list. -/
theorem listed_once (W : Level) :
    (∀ fuel s cam s1, GenWorldList W fuel s cam = some s1 → NoDupActive s1) ∧
    ∀ s (rooms : List Nat) s1,
      run W (CleanList W s) (rooms.map Op.AddRoom) = some s1 → NoDupActive s1 :=
  ⟨fun fuel s cam s1 h => GenWorldList_nodup W fuel s s1 cam h,
    fun s rooms s1 h => addRooms_nodup W s s1 rooms h⟩

theorem listed_once_witness :
    (∃ s1, GenWorldList lvl3 5 st3 cam0 = some s1 ∧ NoDupActive s1) ∧
    ∃ s1, run lvl3 (CleanList lvl3 st3) ([1, 2, 1, 0, 2].map Op.AddRoom) = some s1 ∧
      s1.r_list_active_count = 3 ∧ NoDupActive s1 :=
  ⟨⟨_, rfl, (listed_once lvl3).1 5 st3 cam0 _ rfl⟩,
    ⟨_, rfl, rfl, (listed_once lvl3).2 st3 [1, 2, 1, 0, 2] _ rfl⟩⟩

/-! ## The room of the camera -/

theorem AddRoom_frustum (W : Level) (s s1 : CRender) (r : Nat) (n : Nat)
    (h : AddRoom W s r = some (s1, n)) : s1.room_frustum = s.room_frustum := by
  rcases AddRoom_cases W s s1 r n h with ⟨-, rfl, -⟩ | ⟨cam, -, -, -, -, rfl⟩ | ⟨-, -, -, rfl⟩ <;> rfl

/-- The filter of the portals that lead back into the room of the camera is what keeps
its chain null: in the two-room level `lvlBack` the lookup finds room 0, the clip lets the
portal from room 1 back into room 0 through, and the pass ends with room 0 first in the
list but with the frustum `2` in its chain. -/
theorem camera_room_chain_not_null :
    stBack.m_rooms = some 0 ∧
    lvlBack.World_FindRoomByPosCogerrence camEdge.pos camEdge.current_room = some 0 ∧
    ∃ s1, GenWorldList lvlBack 3 stBack camEdge = some s1 ∧ (s1.r_list 0).room = some 0 ∧
      s1.room_frustum 0 = [2] :=
  ⟨rfl, rfl, _, rfl, rfl, rfl⟩

theorem PortalFrustumIntersect_none (W : Level) (s : CRender) (p : portal_s) (e : Frustum)
    (cam : camera_s) (h : W.clip cam p e = none) :
    PortalFrustumIntersect W s p e cam = (s, none) := by
  simp [PortalFrustumIntersect, h]

theorem PortalFrustumIntersect_some (W : Level) (s : CRender) (p : portal_s) (e g : Frustum)
    (cam : camera_s) (h : W.clip cam p e = some g) :
    PortalFrustumIntersect W s p e cam = (linkFrustum W s p g, some g) := by
  simp [PortalFrustumIntersect, h]

theorem ProcessRoom_body_fail (W : Level)
    (rec : CRender → portal_s → Frustum → Option (CRender × Nat)) (frus : Frustum)
    (acc : CRender × Nat) (p : portal_s) (cam : camera_s) (hc : acc.1.m_camera = some cam)
    (h : W.clip cam p frus = none) : ProcessRoom_body W rec frus acc p = some acc := by
  unfold ProcessRoom_body
  rw [hc]
  simp only [PortalFrustumIntersect_none W acc.1 p frus cam h]

theorem ProcessRoom_body_ok (W : Level)
    (rec : CRender → portal_s → Frustum → Option (CRender × Nat)) (frus g : Frustum)
    (acc : CRender × Nat) (p : portal_s) (cam : camera_s) (hc : acc.1.m_camera = some cam)
    (h : W.clip cam p frus = some g) :
    ProcessRoom_body W rec frus acc p =
      (AddRoom W (linkFrustum W acc.1 p g) (W.real_room p.dest_room)).bind fun r2 =>
        (rec r2.1 p g).bind fun r3 => some (r3.1, acc.2 + 1) := by
  unfold ProcessRoom_body
  rw [hc]
  simp only [PortalFrustumIntersect_some W acc.1 p frus g cam h]
  cases AddRoom W (linkFrustum W acc.1 p g) (W.real_room p.dest_room) with
  | none => rfl
  | some r2 =>
    simp only [Option.some_bind]
    cases rec r2.1 p g with
    | none => rfl
    | some r3 => rfl

theorem GenWorldList_near_fail (W : Level) (fuel : Nat) (cam : camera_s) (s : CRender)
    (np : portal_s) (h : W.clip cam np cam.frustum = none) :
    GenWorldList_near W fuel cam s np = some s := by
  unfold GenWorldList_near
  simp only [PortalFrustumIntersect_none W s np cam.frustum cam h]

theorem GenWorldList_near_ok (W : Level) (fuel : Nat) (cam : camera_s) (s : CRender)
    (np : portal_s) (g : Frustum) (h : W.clip cam np cam.frustum = some g) :
    GenWorldList_near W fuel cam s np =
      (AddRoom W (linkFrustum W s np g) (W.real_room np.dest_room)).bind fun r2 =>
        (ProcessRoom W fuel r2.1 np g).bind fun r3 => some r3.1 := by
  unfold GenWorldList_near
  simp only [PortalFrustumIntersect_some W s np cam.frustum g cam h]
  cases AddRoom W (linkFrustum W s np g) (W.real_room np.dest_room) with
  | none => rfl
  | some r2 =>
    simp only [Option.some_bind]
    cases ProcessRoom W fuel r2.1 np g with
    | none => rfl
    | some r3 => rfl

theorem GenWorldList_portal_ok (W : Level) (fuel : Nat) (cam : camera_s) (cr : Nat)
    (s : CRender) (p : portal_s) (g : Frustum) (h : W.clip cam p cam.frustum = some g) :
    GenWorldList_portal W fuel cam cr s p =
      (AddRoom W (linkFrustum W s p g) (W.real_room p.dest_room)).bind fun r2 =>
        (ProcessRoom W fuel r2.1 p g).bind fun r3 => some r3.1 := by
  unfold GenWorldList_portal
  simp only [PortalFrustumIntersect_some W s p cam.frustum g cam h]
  cases AddRoom W (linkFrustum W s p g) (W.real_room p.dest_room) with
  | none => rfl
  | some r2 =>
    simp only [Option.some_bind]
    cases ProcessRoom W fuel r2.1 p g with
    | none => rfl
    | some r3 => rfl

theorem GenWorldList_portal_fail (W : Level) (fuel : Nat) (cam : camera_s) (cr : Nat)
    (s : CRender) (p : portal_s) (h : W.clip cam p cam.frustum = none) :
    GenWorldList_portal W fuel cam cr s p =
      if nearTest W cam cr (W.real_room p.dest_room) then
        (AddRoom W (setFrustumNull s (W.real_room p.dest_room)) (W.real_room p.dest_room)).bind
          fun r3 =>
            if r3.2 ≠ 0 then
              forEach (GenWorldList_near W fuel cam) (W.portals (W.real_room p.dest_room)) r3.1
            else some r3.1
      else some s := by
  unfold GenWorldList_portal
  simp only [PortalFrustumIntersect_none W s p cam.frustum cam h]
  split
  · cases AddRoom W (setFrustumNull s (W.real_room p.dest_room)) (W.real_room p.dest_room) with
    | none => rfl
    | some r3 => rfl
  · rfl

/-! ## Termination when successful clips cannot cycle -/

theorem forEach_total {α σ : Type} (body : σ → α → Option σ) (P : σ → Prop) (Q : α → Prop)
    (h : ∀ s a, Q a → P s → ∃ s1, body s a = some s1 ∧ P s1) :
    ∀ (l : List α) (s : σ), (∀ a ∈ l, Q a) → P s → ∃ s1, forEach body l s = some s1 ∧ P s1 := by
  intro l
  induction l with
  | nil => exact fun s _ hs => ⟨s, rfl, hs⟩
  | cons x xs ih =>
    intro s hQ hs
    obtain ⟨s2, hb, hs2⟩ := h s x (hQ x (List.mem_cons_self _ _)) hs
    obtain ⟨s1, hf, hs1⟩ := ih s2 (fun c hc => hQ c (List.mem_cons_of_mem _ hc)) hs2
    exact ⟨s1, by simp only [forEach, hb, hf], hs1⟩

theorem AddRoom_total (W : Level) (s : CRender) (r : Nat) (cam : camera_s)
    (hc : s.m_camera = some cam) :
    ∃ s1 n, AddRoom W s r = some (s1, n) ∧ s1.m_camera = some cam := by
  by_cases hflag : s.room_is_in_r_list r = 0
  · by_cases hcap : s.r_list_active_count < s.r_list_size
    · exact ⟨_, _, AddRoom_new W s r cam hc hflag hcap, hc⟩
    · exact ⟨_, _, AddRoom_full W s r cam hc hflag hcap, hc⟩
  · exact ⟨_, _, AddRoom_of_flag W s r hflag, hc⟩

/-- The rank of a room decreases along every portal of a room of `G` whose clip can
succeed for the camera. -/
theorem ProcessRoom_total (W : Level) (G : Nat → Prop) (hG : PortalClosed W G) (cam : camera_s)
    (rank : Nat → Nat)
    (hrank : ∀ r, G r → ∀ p ∈ W.portals r, ∀ f g, W.clip cam p f = some g →
      rank (W.real_room p.dest_room) < rank r) :
    ∀ (fuel : Nat) (s : CRender) (p : portal_s) (f : Frustum), s.m_camera = some cam →
      G (W.real_room p.dest_room) → rank (W.real_room p.dest_room) < fuel →
      ∃ r, ProcessRoom W fuel s p f = some r ∧ r.1.m_camera = some cam := by
  intro fuel
  induction fuel with
  | zero => exact fun s p f _ _ h => absurd h (Nat.not_lt_zero _)
  | succ fuel ih =>
    intro s p f hc hd hlt
    simp only [ProcessRoom]
    split
    · exact ⟨(s, 0), rfl, hc⟩
    · refine forEach_total (ProcessRoom_body W (ProcessRoom W fuel) f)
        (fun acc => acc.1.m_camera = some cam)
        (fun x => x ∈ W.portals (W.real_room p.dest_room)) ?_ _ (s, 0) (fun _ hx => hx) hc
      intro acc x hx hacc
      cases hclip : W.clip cam x f with
      | none => exact ⟨acc, ProcessRoom_body_fail W _ f acc x cam hacc hclip, hacc⟩
      | some g =>
        rw [ProcessRoom_body_ok W _ f g acc x cam hacc hclip]
        obtain ⟨s2, n2, ha, hc2⟩ := AddRoom_total W (linkFrustum W acc.1 x g)
          (W.real_room x.dest_room) cam hacc
        have hr := hrank _ hd x hx f g hclip
        obtain ⟨r3, hp3, hc3⟩ := ih s2 x g hc2 (hG _ hd x hx) (by omega)
        exact ⟨(r3.1, acc.2 + 1), by simp [ha, hp3], hc3⟩

/-! ## Rooms seen through chains of portals -/

theorem StepInv_mono (W : Level) (G H : Nat → Prop) (P : CRender → Prop)
    (hGH : ∀ r, H r → G r) (hP : StepInv W G P) : StepInv W H P where
  add := fun s r s1 n hr hs h => hP.add s r s1 n (hGH r hr) hs h
  link := fun s r p e cam hr hp hc hs => hP.link s r p e cam (hGH r hr) hp hc hs
  null := fun s r hr hs => hP.null s r (hGH r hr) hs

theorem StepInv_inList (W : Level) (d : Nat) : StepInv W (fun _ => True) (fun s => inList s d) := by
  refine StepInv_of_add W _ _ (fun s c hs => hs) ?_
  intro s r s1 n _ hs h
  rcases AddRoom_cases W s s1 r n h with ⟨-, rfl, -⟩ | ⟨cam, -, -, -, -, rfl⟩ | ⟨-, -, -, rfl⟩
  · exact hs
  · obtain ⟨i, hi, hx⟩ := hs
    have hne : i ≠ s.r_list_active_count := by omega
    exact ⟨i, Nat.lt_succ_of_lt hi, by simp [hne, hx]⟩
  · exact hs

theorem forEach_visits {α σ : Type} (body : σ → α → Option σ) (P : σ → Prop) (Q : α → Prop)
    (Good : α → σ → Prop) (hP : ∀ s a s1, Q a → P s → body s a = some s1 → P s1)
    (hmono : ∀ s a c s1, Q c → P s → Good a s → body s c = some s1 → Good a s1)
    (hgood : ∀ s a s1, Q a → P s → body s a = some s1 → Good a s1) :
    ∀ (l : List α) (s s1 : σ), (∀ a ∈ l, Q a) → P s → forEach body l s = some s1 →
      ∀ a ∈ l, Good a s1 := by
  intro l
  induction l with
  | nil =>
    intro s s1 _ _ _ a ha
    exact absurd ha (List.not_mem_nil a)
  | cons x xs ih =>
    intro s s1 hQ hs h a ha
    simp only [forEach] at h
    split at h
    · exact absurd h (by simp)
    · next s2 hb =>
      have hx := hQ x (List.mem_cons_self _ _)
      have hQ2 : ∀ c ∈ xs, Q c := fun c hc => hQ c (List.mem_cons_of_mem _ hc)
      have hs2 := hP s x s2 hx hs hb
      rcases List.mem_cons.mp ha with rfl | hmem
      · have hg := hgood s a s2 hx hs hb
        have key := forEach_preserves body (fun t => P t ∧ Good a t) Q
          (fun t c t1 hc ht hbc => ⟨hP t c t1 hc ht.1 hbc, hmono t a c t1 hc ht.1 ht.2 hbc⟩)
          xs s2 s1 hQ2 ⟨hs2, hg⟩ h
        exact key.2
      · exact ih s2 s1 hQ2 hs2 h a hmem

theorem ListInv_listed_of_add (W : Level) (b n : Nat) (s s1 : CRender) (r m : Nat)
    (hs : ListInv b n s) (hr : inLevel b n r) (h : AddRoom W s r = some (s1, m)) :
    ListInv b n s1 ∧ inList s1 r :=
  have h1 := (StepInv_ListInv W b n).add s r s1 m hr hs h
  ⟨h1, (ListInv_iff b n s1 h1 r hr).mp (AddRoom_flag_after W s s1 r m h)⟩

/-- What one successful clip followed by `AddRoom` and `ProcessRoom` achieves, given what
`ProcessRoom` achieves at this recursion bound. -/
theorem visit_reach (W : Level) (b n : Nat) (cam : camera_s) (fuel : Nat)
    (ih : ∀ s p f s1 m, ListInv b n s → s.m_camera = some cam →
      inLevel b n (W.real_room p.dest_room) → s.room_frustum (W.real_room p.dest_room) ≠ [] →
      ProcessRoom W fuel s p f = some (s1, m) →
      ∀ ps d, ps ≠ [] → chainEnd W cam (W.real_room p.dest_room) f ps = some d → inList s1 d)
    (s : CRender) (r2 r3 : CRender × Nat) (q : portal_s) (g : Frustum) (hs : ListInv b n s)
    (hc : s.m_camera = some cam) (hd : inLevel b n (W.real_room q.dest_room))
    (ha : AddRoom W (linkFrustum W s q g) (W.real_room q.dest_room) = some r2)
    (hp : ProcessRoom W fuel r2.1 q g = some r3) :
    ∀ ps d, chainEnd W cam (W.real_room q.dest_room) g ps = some d → inList r3.1 d := by
  have hfl : (linkFrustum W s q g).room_frustum (W.real_room q.dest_room) ≠ [] := by
    simp [linkFrustum]
  have h2 := ListInv_listed_of_add W b n (linkFrustum W s q g) r2.1 _ r2.2 hs hd ha
  have hc2 : r2.1.m_camera = some cam := (AddRoom_camera W _ r2.1 _ r2.2 ha).trans hc
  have hf2 : r2.1.room_frustum (W.real_room q.dest_room) ≠ [] := by
    rw [AddRoom_frustum W _ r2.1 _ r2.2 ha]
    exact hfl
  intro ps d hch
  cases ps with
  | nil =>
    simp only [chainEnd, Option.some.injEq] at hch
    subst hch
    exact ProcessRoom_preserves W (fun _ => True) (fun t => inList t (W.real_room q.dest_room))
      (fun _ _ _ _ => trivial) (StepInv_inList W _) fuel r2.1 q g r3.1 r3.2 trivial h2.2 hp
  | cons x xs => exact ih r2.1 q g r3.1 r3.2 h2.1 hc2 hd hf2 hp (x :: xs) d (by simp) hch

theorem StepInv_level_cam_listed (W : Level) (b n : Nat) (cam : camera_s) (d : Nat) :
    StepInv W (inLevel b n)
      (fun s => (ListInv b n s ∧ s.m_camera = some cam) ∧ inList s d) :=
  StepInv_and W _ _ _
    (StepInv_and W _ _ _ (StepInv_ListInv W b n) (StepInv_camera W _ _))
    (StepInv_mono W _ _ _ (fun _ _ => trivial) (StepInv_inList W d))

theorem ProcessRoom_reach (W : Level) (b n : Nat) (hW : LevelClosed W b n) (cam : camera_s) :
    ∀ (fuel : Nat) (s : CRender) (p : portal_s) (f : Frustum) (s1 : CRender) (m : Nat),
      ListInv b n s → s.m_camera = some cam →
      inLevel b n (W.real_room p.dest_room) → s.room_frustum (W.real_room p.dest_room) ≠ [] →
      ProcessRoom W fuel s p f = some (s1, m) →
      ∀ ps d, ps ≠ [] → chainEnd W cam (W.real_room p.dest_room) f ps = some d → inList s1 d := by
  intro fuel
  induction fuel with
  | zero =>
    intro s p f s1 m _ _ _ _ h
    simp [ProcessRoom] at h
  | succ fuel ih =>
    intro s p f s1 m hs hc hd hfr h ps d hps hch
    simp only [ProcessRoom] at h
    rw [if_neg (fun hcon => hfr hcon.2)] at h
    cases ps with
    | nil => exact absurd rfl hps
    | cons q qs =>
      simp only [chainEnd] at hch
      split at hch
      · next hq =>
        split at hch
        · exact absurd hch (by simp)
        · next g hclip =>
          have key := forEach_visits (ProcessRoom_body W (ProcessRoom W fuel) f)
            (fun acc => ListInv b n acc.1 ∧ acc.1.m_camera = some cam)
            (fun x => x ∈ W.portals (W.real_room p.dest_room))
            (fun x acc => ∀ g, W.clip cam x f = some g →
              ∀ ps d, chainEnd W cam (W.real_room x.dest_room) g ps = some d → inList acc.1 d)
            (fun acc x acc1 hx hacc hb =>
              ProcessRoom_body_preserves W (inLevel b n) _
                (StepInv_and W _ _ _ (StepInv_ListInv W b n) (StepInv_camera W _ _))
                (ProcessRoom W fuel)
                (ProcessRoom_preserves W (inLevel b n) _ hW.1
                  (StepInv_and W _ _ _ (StepInv_ListInv W b n) (StepInv_camera W _ _)) fuel)
                _ hd f acc acc1 x hx (hW.1 _ hd x hx) hacc hb)
            (fun acc x c acc1 hcq hacc hgood hb g1 hg1 ps1 d1 hch1 =>
              (ProcessRoom_body_preserves W (inLevel b n) _
                (StepInv_level_cam_listed W b n cam d1) (ProcessRoom W fuel)
                (ProcessRoom_preserves W (inLevel b n) _ hW.1
                  (StepInv_level_cam_listed W b n cam d1) fuel)
                _ hd f acc acc1 c hcq (hW.1 _ hd c hcq) ⟨hacc, hgood g1 hg1 ps1 d1 hch1⟩ hb).2)
            (fun acc x acc1 hx hacc hb g1 hg1 => by
              rw [ProcessRoom_body_ok W _ f g1 acc x cam hacc.2 hg1] at hb
              obtain ⟨r2, ha, hb2⟩ := Option.bind_eq_some.mp hb
              obtain ⟨r3, hp3, hb3⟩ := Option.bind_eq_some.mp hb2
              simp only [Option.some.injEq] at hb3
              subst hb3
              exact visit_reach W b n cam fuel ih acc.1 r2 r3 x g1 hacc.1 hacc.2
                (hW.1 _ hd x hx) ha hp3)
            (W.portals (W.real_room p.dest_room)) (s, 0) (s1, m) (fun _ hx => hx) ⟨hs, hc⟩ h
          exact key q hq g hclip qs d hch
      · exact absurd hch (by simp)

theorem GenWorldList_reach (W : Level) (b n : Nat) (hW : LevelClosed W b n) (fuel : Nat)
    (s s1 : CRender) (cam : camera_s) (cr : Nat) (hb : s.m_rooms = some b)
    (hn : s.m_rooms_count = n) (hsz : n ≤ s.r_list_size)
    (hl : W.World_FindRoomByPosCogerrence cam.pos cam.current_room = some cr)
    (h : GenWorldList W fuel s cam = some s1) :
    ∀ ps d, ps ≠ [] → chainEnd W (camFound W cam) cr cam.frustum ps = some d → inList s1 d := by
  have hcr : inLevel b n cr := hW.2.2 _ _ cr hl
  rw [GenWorldList_of_rooms W fuel s cam b hb, hl] at h
  simp only at h
  split at h
  · exact absurd h (by simp)
  · next s4 n4 ha =>
    have h0 : ListInv b n (setFrustumNull (passStart W s cam) cr) :=
      (StepInv_ListInv W b n).null _ cr hcr (CleanList_ListInv W b n s hb hn hsz)
    have h4 : ListInv b n s4 ∧ s4.m_camera = some (camFound W cam) :=
      ⟨(StepInv_ListInv W b n).add _ cr s4 n4 hcr h0 ha, AddRoom_camera W _ s4 cr n4 ha⟩
    intro ps d hps hch
    cases ps with
    | nil => exact absurd rfl hps
    | cons q qs =>
      simp only [chainEnd] at hch
      split at hch
      · next hq =>
        split at hch
        · exact absurd hch (by simp)
        · next g hclip =>
          have key := forEach_visits (GenWorldList_portal W fuel (camFound W cam) cr)
            (fun t => ListInv b n t ∧ t.m_camera = some (camFound W cam))
            (fun x => x ∈ W.portals cr)
            (fun x t => ∀ g, W.clip (camFound W cam) x cam.frustum = some g →
              ∀ ps d, chainEnd W (camFound W cam) (W.real_room x.dest_room) g ps = some d →
                inList t d)
            (fun t x t1 hx ht hbody =>
              GenWorldList_portal_preserves W (inLevel b n) _ hW.1
                (StepInv_and W _ _ _ (StepInv_ListInv W b n) (StepInv_camera W _ _))
                (camFound W cam) (fun _ hu => hu.2) fuel cr hcr t t1 x hx ht hbody)
            (fun t x c t1 hcq ht hgood hbody g1 hg1 ps1 d1 hch1 =>
              (GenWorldList_portal_preserves W (inLevel b n) _ hW.1
                (StepInv_level_cam_listed W b n (camFound W cam) d1)
                (camFound W cam) (fun _ hu => hu.1.2) fuel cr hcr t t1 c hcq
                ⟨ht, hgood g1 hg1 ps1 d1 hch1⟩ hbody).2)
            (fun t x t1 hx ht hbody g1 hg1 => by
              rw [GenWorldList_portal_ok W fuel (camFound W cam) cr t x g1 hg1] at hbody
              obtain ⟨r2, ha2, hb2⟩ := Option.bind_eq_some.mp hbody
              obtain ⟨r3, hp3, hb3⟩ := Option.bind_eq_some.mp hb2
              simp only [Option.some.injEq] at hb3
              subst hb3
              exact visit_reach W b n (camFound W cam) fuel
                (ProcessRoom_reach W b n hW (camFound W cam) fuel) t r2 r3 x g1 ht.1 ht.2
                (hW.1 _ hcr x hx) ha2 hp3)
            (W.portals cr) s4 s1 (fun _ hx => hx) h4 h
          exact key q hq g hclip qs d hch
      · exact absurd hch (by simp)

theorem GenWorldList_total (W : Level) (G : Nat → Prop) (hG : PortalClosed W G) (fuel : Nat)
    (s : CRender) (cam : camera_s) (b cr : Nat) (hb : s.m_rooms = some b)
    (hl : W.World_FindRoomByPosCogerrence cam.pos cam.current_room = some cr) (hcr : G cr)
    (rank : Nat → Nat)
    (hrank : ∀ r, G r → ∀ p ∈ W.portals r, ∀ f g, W.clip (camFound W cam) p f = some g →
      rank (W.real_room p.dest_room) < rank r)
    (hfuel : ∀ r, G r → rank r ≤ fuel) : ∃ s1, GenWorldList W fuel s cam = some s1 := by
  rw [GenWorldList_of_rooms W fuel s cam b hb, hl]
  simp only
  obtain ⟨s4, n4, ha, hc4⟩ := AddRoom_total W (setFrustumNull (passStart W s cam) cr) cr
    (camFound W cam) rfl
  rw [ha]
  simp only
  have visit : ∀ (r : Nat) (t : CRender) (x : portal_s) (g : Frustum), G r → x ∈ W.portals r →
      t.m_camera = some (camFound W cam) →
      W.clip (camFound W cam) x (camFound W cam).frustum = some g →
      ∃ t1, ((AddRoom W (linkFrustum W t x g) (W.real_room x.dest_room)).bind fun r2 =>
        (ProcessRoom W fuel r2.1 x g).bind fun r3 => some r3.1) = some t1 ∧
        t1.m_camera = some (camFound W cam) := by
    intro r t x g hr hx ht hclip
    obtain ⟨s2, n2, ha2, hc2⟩ := AddRoom_total W (linkFrustum W t x g)
      (W.real_room x.dest_room) (camFound W cam) ht
    have hlt := hrank r hr x hx _ g hclip
    have hle := hfuel r hr
    obtain ⟨r3, hp3, hc3⟩ := ProcessRoom_total W G hG (camFound W cam) rank hrank fuel s2 x g hc2
      (hG r hr x hx) (by omega)
    exact ⟨r3.1, by simp [ha2, hp3], hc3⟩
  have key := forEach_total (GenWorldList_portal W fuel (camFound W cam) cr)
    (fun t => t.m_camera = some (camFound W cam)) (fun x => x ∈ W.portals cr)
    (fun t x hx ht => by
      cases hclip : W.clip (camFound W cam) x (camFound W cam).frustum with
      | some g =>
        rw [GenWorldList_portal_ok W fuel (camFound W cam) cr t x g hclip]
        exact visit cr t x g hcr hx ht hclip
      | none =>
        rw [GenWorldList_portal_fail W fuel (camFound W cam) cr t x hclip]
        split
        · obtain ⟨s3, n3, ha3, hc3⟩ := AddRoom_total W
            (setFrustumNull t (W.real_room x.dest_room)) (W.real_room x.dest_room)
            (camFound W cam) ht
          rw [ha3]
          simp only [Option.some_bind]
          split
          · exact forEach_total (GenWorldList_near W fuel (camFound W cam))
              (fun u => u.m_camera = some (camFound W cam))
              (fun y => y ∈ W.portals (W.real_room x.dest_room))
              (fun u y hy hu => by
                cases hclip2 : W.clip (camFound W cam) y (camFound W cam).frustum with
                | none => exact ⟨u, GenWorldList_near_fail W fuel _ u y hclip2, hu⟩
                | some g2 =>
                  rw [GenWorldList_near_ok W fuel _ u y g2 hclip2]
                  exact visit _ u y g2 (hG cr hcr x hx) hy hu hclip2)
              _ s3 (fun _ hy => hy) hc3
          · exact ⟨s3, rfl, hc3⟩
        · exact ⟨t, rfl, ht⟩)
    (W.portals cr) s4 (fun _ hx => hx) hc4
  exact ⟨key.choose, key.choose_spec.1⟩

theorem lvlOneWay_closed : LevelClosed lvlOneWay 0 3 := by
  refine ⟨?_, fun r hr => hr, ?_⟩
  · intro r hr p hp
    unfold inLevel at hr
    have h3 : r = 0 ∨ r = 1 ∨ r = 2 := by omega
    rcases h3 with rfl | rfl | rfl <;> simp [lvlOneWay] at hp <;> subst hp <;>
      simp [lvlOneWay, lvl3, inLevel]
  · intro pos hint cr h
    simp only [lvlOneWay, lvl3, Option.some.injEq] at h
    subst h
    simp [inLevel]

theorem lvlOneWay_rank (r : Nat) (p : portal_s) (hp : p ∈ lvlOneWay.portals r) :
    3 - lvlOneWay.real_room p.dest_room < 3 - r := by
  by_cases h0 : r = 0
  · subst h0
    simp [lvlOneWay] at hp
    subst hp
    simp [lvlOneWay, lvl3]
  · by_cases h1 : r = 1
    · subst h1
      simp [lvlOneWay] at hp
      subst hp
      simp [lvlOneWay, lvl3]
    · simp [lvlOneWay, h0, h1] at hp

/-- C7: on a level of `n` rooms whose references all lead to rooms of the level, with a
render list of capacity at least `n` and a portal graph without cycle (a rank decreases
along every portal), a pass with a camera inside a room returns, given a recursion bound
above the ranks, and the list then holds the room at the end of every non-empty chain of
portals that starts at the room of the camera and in which every clip, against the
frustum produced by the previous portal (the camera frustum for the first), succeeds. -/
theorem chain_rooms_listed (W : Level) (b n : Nat) (hW : LevelClosed W b n) (rank : Nat → Nat)
    (hacyclic : ∀ r, inLevel b n r → ∀ p ∈ W.portals r, rank (W.real_room p.dest_room) < rank r)
    (fuel : Nat) (hfuel : ∀ r, inLevel b n r → rank r ≤ fuel) (s : CRender) (cam : camera_s)
    (cr : Nat) (hb : s.m_rooms = some b) (hn : s.m_rooms_count = n) (hsz : n ≤ s.r_list_size)
    (hl : W.World_FindRoomByPosCogerrence cam.pos cam.current_room = some cr) :
    ∃ s1, GenWorldList W fuel s cam = some s1 ∧
      ∀ ps d, ps ≠ [] → chainEnd W (camFound W cam) cr cam.frustum ps = some d → inList s1 d := by
  obtain ⟨s1, h⟩ := GenWorldList_total W (inLevel b n) hW.1 fuel s cam b cr hb hl
    (hW.2.2 _ _ cr hl) rank (fun r hr p hp _ _ _ => hacyclic r hr p hp) hfuel
  exact ⟨s1, h, GenWorldList_reach W b n hW fuel s s1 cam cr hb hn hsz hl h⟩

theorem chain_rooms_listed_witness :
    ∃ s1, GenWorldList lvlOneWay 3 st3 cam0 = some s1 ∧ inList s1 2 := by
  obtain ⟨s1, h, hall⟩ := chain_rooms_listed lvlOneWay 0 3 lvlOneWay_closed (fun r => 3 - r)
    (fun r _ p hp => lvlOneWay_rank r p hp) 3 (fun r _ => Nat.sub_le 3 r) st3 cam0 0 rfl rfl
    (by decide) rfl
  exact ⟨s1, h, hall [{ id := 0, dest_room := 1 }, { id := 2, dest_room := 2 }] 2 (by simp)
    (by decide)⟩

/-! ## Three rooms in a row -/

theorem AddRoom_fresh (W : Level) (s : CRender) (r : Nat) (cam : camera_s)
    (hc : s.m_camera = some cam) (hflag : s.room_is_in_r_list r = 0)
    (hcap : s.r_list_active_count < s.r_list_size) :
    ∃ s1, AddRoom W s r = some (s1, 1) ∧ activeRooms s1 = activeRooms s ++ [some r] ∧
      s1.r_list_active_count = s.r_list_active_count + 1 ∧ s1.r_list_size = s.r_list_size ∧
      s1.m_camera = some cam ∧ s1.room_frustum = s.room_frustum ∧
      ∀ x, s1.room_is_in_r_list x = if x = r then 1 else s.room_is_in_r_list x := by
  refine ⟨_, AddRoom_new W s r cam hc hflag hcap, ?_, rfl, rfl, hc, rfl, fun _ => rfl⟩
  unfold activeRooms
  simp only [List.range_succ, List.map_append, List.map_cons, List.map_nil, if_true]
  congr 1
  apply List.map_congr_left
  intro i hi
  have hne : i ≠ s.r_list_active_count := Nat.ne_of_lt (List.mem_range.mp hi)
  simp [hne]

theorem passStart_fields (W : Level) (s : CRender) (cam : camera_s) (b r x : Nat)
    (hb : s.m_rooms = some b) (hx : inLevel b s.m_rooms_count x) :
    (setFrustumNull (passStart W s cam) r).m_camera = some (camFound W cam) ∧
    (setFrustumNull (passStart W s cam) r).room_is_in_r_list x = 0 ∧
    (setFrustumNull (passStart W s cam) r).r_list_active_count = 0 ∧
    (setFrustumNull (passStart W s cam) r).r_list_size = s.r_list_size ∧
    activeRooms (setFrustumNull (passStart W s cam) r) = [] := by
  have hl : isLevelRoom s x = true := (isLevelRoom_iff s b x hb).mpr hx
  refine ⟨rfl, ?_, rfl, rfl, rfl⟩
  simp [setFrustumNull, passStart, CleanList, hl]

theorem ProcessRoom_succ (W : Level) (fuel : Nat) (s : CRender) (p : portal_s) (f : Frustum) :
    ProcessRoom W (fuel + 1) s p f =
      if s.room_is_in_r_list (W.real_room p.dest_room) ≠ 0 ∧
          s.room_frustum (W.real_room p.dest_room) = [] then some (s, 0)
      else forEach (ProcessRoom_body W (ProcessRoom W fuel) f)
        (W.portals (W.real_room p.dest_room)) (s, 0) := rfl

/-- Run of `ProcessRoom` on a room whose chain is not empty and whose portals all fail to
clip against the given frustum: nothing changes and 0 is returned. -/
theorem ProcessRoom_all_fail (W : Level) (fuel : Nat) (s : CRender) (p : portal_s)
    (f : Frustum) (cam : camera_s) (hc : s.m_camera = some cam)
    (hfail : ∀ q ∈ W.portals (W.real_room p.dest_room), W.clip cam q f = none) :
    ProcessRoom W (fuel + 1) s p f = some (s, 0) := by
  simp only [ProcessRoom]
  split
  · rfl
  · have key : ∀ l : List portal_s, (∀ q ∈ l, W.clip cam q f = none) →
        forEach (ProcessRoom_body W (ProcessRoom W fuel) f) l (s, 0) = some (s, 0) := by
      intro l
      induction l with
      | nil => exact fun _ => rfl
      | cons q qs ih =>
        intro hq
        simp only [forEach]
        rw [ProcessRoom_body_fail W _ f (s, 0) q cam hc (hq q (List.mem_cons_self _ _))]
        exact ih (fun x hx => hq x (List.mem_cons_of_mem _ hx))
    exact key _ hfail

/-- C10: rooms A, B, C of the level, A with the single portal to B, B with a portal back
and the portal to C (in either order), C with a single portal back; the camera is found
in A, the clip of A to B against the camera frustum gives `f1`, the clip of B to C against
`f1` gives `f2`, and the back portals fail against `f1` and `f2`. Then, with a list of
capacity 3 or more and a recursion bound of 2 or more, `GenWorldList` returns and the
active render list is `[A, B, C]`. -/
theorem three_rooms_in_row (W : Level) (fuel : Nat) (s : CRender) (cam : camera_s)
    (b A B C : Nat) (pAB pBA pBC pCB : portal_s) (f1 f2 : Frustum)
    (hb : s.m_rooms = some b) (hA : inLevel b s.m_rooms_count A)
    (hB : inLevel b s.m_rooms_count B) (hC : inLevel b s.m_rooms_count C)
    (hAB : A ≠ B) (hAC : A ≠ C) (hBC : B ≠ C) (hsz : 3 ≤ s.r_list_size)
    (hl : W.World_FindRoomByPosCogerrence cam.pos cam.current_room = some A)
    (hpA : W.portals A = [pAB])
    (hpB : W.portals B = [pBA, pBC] ∨ W.portals B = [pBC, pBA])
    (hpC : W.portals C = [pCB])
    (hdAB : W.real_room pAB.dest_room = B) (hdBC : W.real_room pBC.dest_room = C)
    (c1 : W.clip (camFound W cam) pAB cam.frustum = some f1)
    (c2 : W.clip (camFound W cam) pBC f1 = some f2)
    (c3 : W.clip (camFound W cam) pBA f1 = none)
    (c4 : W.clip (camFound W cam) pCB f2 = none) (hfuel : 2 ≤ fuel) :
    ∃ s1, GenWorldList W fuel s cam = some s1 ∧ activeRooms s1 = [some A, some B, some C] := by
  obtain ⟨k, rfl⟩ : ∃ k, fuel = k + 2 := ⟨fuel - 2, by omega⟩
  obtain ⟨hcam0, hfA0, hcnt0, hsz0, hact0⟩ := passStart_fields W s cam b A A hb hA
  have hfB0 := (passStart_fields W s cam b A B hb hB).2.1
  have hfC0 := (passStart_fields W s cam b A C hb hC).2.1
  -- the room of the camera
  obtain ⟨sA, eA, actA, cntA, szA, camA, frA, flA⟩ :=
    AddRoom_fresh W _ A (camFound W cam) hcam0 hfA0 (by rw [hcnt0, hsz0]; omega)
  -- room B, seen through the portal of A
  have hfB : (linkFrustum W sA pAB f1).room_is_in_r_list B = 0 := by
    show sA.room_is_in_r_list B = 0
    rw [flA B, if_neg (Ne.symm hAB)]
    exact hfB0
  obtain ⟨sB, eB, actB, cntB, szB, camB, frB, flB⟩ :=
    AddRoom_fresh W (linkFrustum W sA pAB f1) B (camFound W cam) camA hfB (by
      show sA.r_list_active_count < sA.r_list_size
      rw [cntA, szA, hcnt0, hsz0]
      omega)
  -- room C, seen through the portal of B
  have hfC : (linkFrustum W sB pBC f2).room_is_in_r_list C = 0 := by
    show sB.room_is_in_r_list C = 0
    rw [flB C, if_neg (Ne.symm hBC)]
    show sA.room_is_in_r_list C = 0
    rw [flA C, if_neg (Ne.symm hAC)]
    exact hfC0
  obtain ⟨sC, eC, actC, cntC, szC, camC, frC, flC⟩ :=
    AddRoom_fresh W (linkFrustum W sB pBC f2) C (camFound W cam) camB hfC (by
      show sB.r_list_active_count < sB.r_list_size
      rw [cntB, szB]
      show sA.r_list_active_count + 1 < sA.r_list_size
      rw [cntA, szA, hcnt0, hsz0]
      omega)
  have hPC : ProcessRoom W (k + 1) sC pBC f2 = some (sC, 0) :=
    ProcessRoom_all_fail W k sC pBC f2 (camFound W cam) camC (by
      rw [hdBC, hpC]
      intro q hq
      rw [List.mem_singleton.mp hq]
      exact c4)
  have hBC1 : ∀ m, ProcessRoom_body W (ProcessRoom W (k + 1)) f1 (sB, m) pBC =
      some (sC, m + 1) := by
    intro m
    rw [ProcessRoom_body_ok W _ f1 f2 (sB, m) pBC (camFound W cam) camB c2, hdBC]
    show (AddRoom W (linkFrustum W sB pBC f2) C).bind _ = _
    rw [eC]
    simp only [Option.some_bind, hPC]
  have hBA1 : ∀ (u : CRender) (m : Nat), u.m_camera = some (camFound W cam) →
      ProcessRoom_body W (ProcessRoom W (k + 1)) f1 (u, m) pBA = some (u, m) :=
    fun u m hu => ProcessRoom_body_fail W _ f1 (u, m) pBA (camFound W cam) hu c3
  have hPB : ProcessRoom W (k + 2) sB pAB f1 = some (sC, 1) := by
    have hchain : ¬ (sB.room_is_in_r_list B ≠ 0 ∧ sB.room_frustum B = []) := by
      rintro ⟨-, hnil⟩
      rw [frB] at hnil
      simp [linkFrustum, hdAB] at hnil
    rw [ProcessRoom_succ, hdAB, if_neg hchain]
    rcases hpB with h | h
    · rw [h]
      simp only [forEach, hBA1 sB 0 camB, hBC1 0]
    · rw [h]
      simp only [forEach, hBC1 0, hBA1 sC (0 + 1) camC]
  refine ⟨sC, ?_, ?_⟩
  · rw [GenWorldList_of_rooms W _ s cam b hb, hl]
    simp only
    rw [eA]
    simp only [hpA, forEach]
    rw [GenWorldList_portal_ok W _ (camFound W cam) A sA pAB f1 c1, hdAB, eB]
    simp only [Option.some_bind, hPB]
  · rw [actC]
    show activeRooms sB ++ [some C] = _
    rw [actB]
    show activeRooms sA ++ [some B] ++ [some C] = _
    rw [actA, hact0]
    rfl

theorem three_rooms_in_row_witness :
    ∃ s1, GenWorldList lvl3 2 st3 cam0 = some s1 ∧ activeRooms s1 = [some 0, some 1, some 2] :=
  three_rooms_in_row lvl3 2 st3 cam0 0 0 1 2 { id := 0, dest_room := 1 }
    { id := 1, dest_room := 0 } { id := 2, dest_room := 2 } { id := 3, dest_room := 1 } 1 2
    rfl (by decide) (by decide) (by decide) (by decide) (by decide) (by decide) (by decide)
    rfl rfl (Or.inl rfl) rfl rfl rfl rfl rfl rfl rfl (by decide)

/-! ## Two passes in succession -/

theorem AddRoom_camera_of_clear (W : Level) (s s1 : CRender) (r n : Nat)
    (h : AddRoom W s r = some (s1, n)) (hflag : s.room_is_in_r_list r = 0) :
    ∃ cam, s.m_camera = some cam := by
  by_cases hc0 : s.m_camera = none
  · simp [AddRoom, hflag, hc0] at h
  · exact Option.ne_none_iff_exists'.mp hc0

theorem AddRoom_sim (W : Level) (G : Nat → Prop) (s t s1 : CRender) (r n : Nat)
    (hst : SameView G s t) (hr : G r) (h : AddRoom W s r = some (s1, n)) :
    ∃ t1, AddRoom W t r = some (t1, n) ∧ SameView G s1 t1 := by
  obtain ⟨hcam, hsize, hcount, hent, hroom⟩ := hst
  have hfl := (hroom r hr).1
  by_cases hflag : s.room_is_in_r_list r = 0
  · obtain ⟨cam, hc⟩ := AddRoom_camera_of_clear W s s1 r n h hflag
    have hflagt : t.room_is_in_r_list r = 0 := hfl ▸ hflag
    have hct : t.m_camera = some cam := hcam ▸ hc
    have hflags : ∀ x, G x →
        (if x = r then 1 else s.room_is_in_r_list x) =
          (if x = r then 1 else t.room_is_in_r_list x) := by
      intro x hx
      by_cases hxr : x = r
      · simp [hxr]
      · simp only [hxr, if_false]
        exact (hroom x hx).1
    by_cases hcap : s.r_list_active_count < s.r_list_size
    · have hcapt : t.r_list_active_count < t.r_list_size := hsize ▸ hcount ▸ hcap
      rw [AddRoom_new W s r cam hc hflag hcap] at h
      simp only [Option.some.injEq, Prod.mk.injEq] at h
      obtain ⟨rfl, rfl⟩ := h
      refine ⟨_, AddRoom_new W t r cam hct hflagt hcapt, hcam, hsize,
        congrArg (· + 1) hcount, ?_, fun x hx => ⟨hflags x hx, (hroom x hx).2⟩⟩
      intro i hi
      have hi1 : i < s.r_list_active_count + 1 := hi
      show (if i = s.r_list_active_count then _ else s.r_list i) =
        (if i = t.r_list_active_count then _ else t.r_list i)
      rw [← hcount]
      by_cases hic : i = s.r_list_active_count
      · simp only [hic, if_true]
      · simp only [hic, if_false]
        exact hent i (by omega)
    · have hcapt : ¬ t.r_list_active_count < t.r_list_size := hsize ▸ hcount ▸ hcap
      rw [AddRoom_full W s r cam hc hflag hcap] at h
      simp only [Option.some.injEq, Prod.mk.injEq] at h
      obtain ⟨rfl, rfl⟩ := h
      exact ⟨_, AddRoom_full W t r cam hct hflagt hcapt, hcam, hsize, hcount, hent,
        fun x hx => ⟨hflags x hx, (hroom x hx).2⟩⟩
  · rw [AddRoom_of_flag W s r hflag] at h
    simp only [Option.some.injEq, Prod.mk.injEq] at h
    obtain ⟨rfl, rfl⟩ := h
    exact ⟨t, AddRoom_of_flag W t r (hfl ▸ hflag), hcam, hsize, hcount, hent, hroom⟩

theorem linkFrustum_sim (W : Level) (G : Nat → Prop) (s t : CRender) (p : portal_s)
    (g : Frustum) (hst : SameView G s t) :
    SameView G (linkFrustum W s p g) (linkFrustum W t p g) := by
  obtain ⟨hcam, hsize, hcount, hent, hroom⟩ := hst
  refine ⟨hcam, hsize, hcount, hent, fun x hx => ⟨(hroom x hx).1, ?_⟩⟩
  show (if x = W.real_room p.dest_room then s.room_frustum x ++ [g] else s.room_frustum x) =
    (if x = W.real_room p.dest_room then t.room_frustum x ++ [g] else t.room_frustum x)
  rw [(hroom x hx).2]

theorem setFrustumNull_sim (G : Nat → Prop) (s t : CRender) (r : Nat) (hst : SameView G s t) :
    SameView G (setFrustumNull s r) (setFrustumNull t r) := by
  obtain ⟨hcam, hsize, hcount, hent, hroom⟩ := hst
  refine ⟨hcam, hsize, hcount, hent, fun x hx => ⟨(hroom x hx).1, ?_⟩⟩
  show (if x = r then [] else s.room_frustum x) = (if x = r then [] else t.room_frustum x)
  rw [(hroom x hx).2]

theorem forEach_sim {α σ : Type} (body : σ → α → Option σ) (R : σ → σ → Prop) (Q : α → Prop)
    (h : ∀ s t a s1, Q a → R s t → body s a = some s1 → ∃ t1, body t a = some t1 ∧ R s1 t1) :
    ∀ (l : List α) (s t s1 : σ), (∀ a ∈ l, Q a) → R s t → forEach body l s = some s1 →
      ∃ t1, forEach body l t = some t1 ∧ R s1 t1 := by
  intro l
  induction l with
  | nil =>
    intro s t s1 _ hR hs
    simp only [forEach, Option.some.injEq] at hs
    subst hs
    exact ⟨t, rfl, hR⟩
  | cons x xs ih =>
    intro s t s1 hQ hR hs
    simp only [forEach] at hs
    split at hs
    · exact absurd hs (by simp)
    · next s2 hb =>
      obtain ⟨t2, hbt, hR2⟩ := h s t x s2 (hQ x (List.mem_cons_self _ _)) hR hb
      obtain ⟨t1, hft, hR1⟩ := ih s2 t2 s1 (fun c hc => hQ c (List.mem_cons_of_mem _ hc)) hR2 hs
      exact ⟨t1, by simp only [forEach, hbt, hft], hR1⟩

/-- One successful clip followed by `AddRoom` and a recursive call, on two states with the
same view. -/
theorem visit_sim {β : Type} (W : Level) (G : Nat → Prop)
    (rec : CRender → portal_s → Frustum → Option (CRender × Nat))
    (hrec : ∀ s t p f r1, SameView G s t → G (W.real_room p.dest_room) → rec s p f = some r1 →
      ∃ r2, rec t p f = some r2 ∧ SameView G r1.1 r2.1 ∧ r1.2 = r2.2)
    (s t : CRender) (p : portal_s) (g : Frustum) (k : CRender × Nat → β) (R : β → β → Prop)
    (r : β) (hst : SameView G s t) (hd : G (W.real_room p.dest_room))
    (hk : ∀ a c, SameView G a.1 c.1 → a.2 = c.2 → R (k a) (k c))
    (h : ((AddRoom W (linkFrustum W s p g) (W.real_room p.dest_room)).bind fun r2 =>
      (rec r2.1 p g).bind fun r3 => some (k r3)) = some r) :
    ∃ r1, ((AddRoom W (linkFrustum W t p g) (W.real_room p.dest_room)).bind fun r2 =>
      (rec r2.1 p g).bind fun r3 => some (k r3)) = some r1 ∧ R r r1 := by
  obtain ⟨a2, ha, h2⟩ := Option.bind_eq_some.mp h
  obtain ⟨a3, hp, h3⟩ := Option.bind_eq_some.mp h2
  simp only [Option.some.injEq] at h3
  subst h3
  obtain ⟨c2, hac, hv2⟩ := AddRoom_sim W G _ _ a2.1 _ a2.2 (linkFrustum_sim W G s t p g hst) hd ha
  obtain ⟨c3, hpc, hv3, hn3⟩ := hrec a2.1 c2 p g a3 hv2 hd hp
  exact ⟨k c3, by simp [hac, hpc], hk a3 c3 hv3 hn3⟩

theorem ProcessRoom_sim (W : Level) (G : Nat → Prop) (hG : PortalClosed W G) :
    ∀ (fuel : Nat) (s t : CRender) (p : portal_s) (f : Frustum) (r1 : CRender × Nat),
      SameView G s t → G (W.real_room p.dest_room) → ProcessRoom W fuel s p f = some r1 →
      ∃ r2, ProcessRoom W fuel t p f = some r2 ∧ SameView G r1.1 r2.1 ∧ r1.2 = r2.2 := by
  intro fuel
  induction fuel with
  | zero =>
    intro s t p f r1 _ _ h
    simp [ProcessRoom] at h
  | succ fuel ih =>
    intro s t p f r1 hst hd h
    rw [ProcessRoom_succ] at h ⊢
    have hroom := hst.2.2.2.2 _ hd
    by_cases hprune : s.room_is_in_r_list (W.real_room p.dest_room) ≠ 0 ∧
        s.room_frustum (W.real_room p.dest_room) = []
    · have hprune2 : t.room_is_in_r_list (W.real_room p.dest_room) ≠ 0 ∧
          t.room_frustum (W.real_room p.dest_room) = [] := by
        rw [← hroom.1, ← hroom.2]
        exact hprune
      rw [if_pos hprune] at h
      rw [if_pos hprune2]
      simp only [Option.some.injEq] at h
      subst h
      exact ⟨(t, 0), rfl, hst, rfl⟩
    · have hprune2 : ¬ (t.room_is_in_r_list (W.real_room p.dest_room) ≠ 0 ∧
          t.room_frustum (W.real_room p.dest_room) = []) := by
        rw [← hroom.1, ← hroom.2]
        exact hprune
      rw [if_neg hprune] at h
      rw [if_neg hprune2]
      exact forEach_sim (ProcessRoom_body W (ProcessRoom W fuel) f)
        (fun a c => SameView G a.1 c.1 ∧ a.2 = c.2)
        (fun x => x ∈ W.portals (W.real_room p.dest_room))
        (fun a c x a1 hx hac hb => by
          have hcam : ∃ cam, a.1.m_camera = some cam := by
            by_cases hc0 : a.1.m_camera = none
            · unfold ProcessRoom_body at hb
              rw [hc0] at hb
              exact absurd hb (by simp)
            · exact Option.ne_none_iff_exists'.mp hc0
          obtain ⟨cam, hca⟩ := hcam
          have hcc : c.1.m_camera = some cam := hac.1.1 ▸ hca
          cases hclip : W.clip cam x f with
          | none =>
            rw [ProcessRoom_body_fail W _ f a x cam hca hclip] at hb
            simp only [Option.some.injEq] at hb
            subst hb
            exact ⟨c, ProcessRoom_body_fail W _ f c x cam hcc hclip, hac⟩
          | some g =>
            rw [ProcessRoom_body_ok W _ f g a x cam hca hclip] at hb
            rw [ProcessRoom_body_ok W _ f g c x cam hcc hclip, ← hac.2]
            exact visit_sim W G (ProcessRoom W fuel) ih a.1 c.1 x g (fun r3 => (r3.1, a.2 + 1))
              (fun a c => SameView G a.1 c.1 ∧ a.2 = c.2) a1 hac.1 (hG _ hd x hx)
              (fun _ _ hv _ => ⟨hv, rfl⟩) hb)
        _ (s, 0) (t, 0) r1 (fun _ hx => hx) ⟨hst, rfl⟩ h

theorem GenWorldList_near_sim (W : Level) (G : Nat → Prop) (hG : PortalClosed W G) (fuel : Nat)
    (cam : camera_s) (s t s1 : CRender) (np : portal_s) (hst : SameView G s t)
    (hd : G (W.real_room np.dest_room)) (h : GenWorldList_near W fuel cam s np = some s1) :
    ∃ t1, GenWorldList_near W fuel cam t np = some t1 ∧ SameView G s1 t1 := by
  cases hclip : W.clip cam np cam.frustum with
  | none =>
    rw [GenWorldList_near_fail W fuel cam s np hclip] at h
    simp only [Option.some.injEq] at h
    subst h
    exact ⟨t, GenWorldList_near_fail W fuel cam t np hclip, hst⟩
  | some g =>
    rw [GenWorldList_near_ok W fuel cam s np g hclip] at h
    rw [GenWorldList_near_ok W fuel cam t np g hclip]
    exact visit_sim W G (ProcessRoom W fuel) (ProcessRoom_sim W G hG fuel) s t np g Prod.fst
      (SameView G) s1 hst hd (fun _ _ hv _ => hv) h

theorem GenWorldList_portal_sim (W : Level) (G : Nat → Prop) (hG : PortalClosed W G)
    (fuel : Nat) (cam : camera_s) (cr : Nat) (s t s1 : CRender) (p : portal_s)
    (hst : SameView G s t) (hd : G (W.real_room p.dest_room))
    (h : GenWorldList_portal W fuel cam cr s p = some s1) :
    ∃ t1, GenWorldList_portal W fuel cam cr t p = some t1 ∧ SameView G s1 t1 := by
  cases hclip : W.clip cam p cam.frustum with
  | some g =>
    rw [GenWorldList_portal_ok W fuel cam cr s p g hclip] at h
    rw [GenWorldList_portal_ok W fuel cam cr t p g hclip]
    exact visit_sim W G (ProcessRoom W fuel) (ProcessRoom_sim W G hG fuel) s t p g Prod.fst
      (SameView G) s1 hst hd (fun _ _ hv _ => hv) h
  | none =>
    rw [GenWorldList_portal_fail W fuel cam cr s p hclip] at h
    rw [GenWorldList_portal_fail W fuel cam cr t p hclip]
    by_cases hnear : nearTest W cam cr (W.real_room p.dest_room) = true
    · rw [if_pos hnear] at h ⊢
      obtain ⟨a3, ha, h3⟩ := Option.bind_eq_some.mp h
      obtain ⟨c3, hac, hv3⟩ := AddRoom_sim W G _ _ a3.1 _ a3.2
        (setFrustumNull_sim G s t (W.real_room p.dest_room) hst) hd ha
      rw [hac]
      simp only [Option.some_bind]
      by_cases hret : a3.2 ≠ 0
      · rw [if_pos hret] at h3 ⊢
        exact forEach_sim (GenWorldList_near W fuel cam) (SameView G)
          (fun y => y ∈ W.portals (W.real_room p.dest_room))
          (fun a c y a1 hy hac2 hb =>
            GenWorldList_near_sim W G hG fuel cam a c a1 y hac2 (hG _ hd y hy) hb)
          _ a3.1 c3 s1 (fun _ hy => hy) hv3 h3
      · rw [if_neg hret] at h3 ⊢
        simp only [Option.some.injEq] at h3
        subst h3
        exact ⟨c3, rfl, hv3⟩
    · rw [if_neg hnear] at h ⊢
      simp only [Option.some.injEq] at h
      subst h
      exact ⟨t, rfl, hst⟩

theorem GenWorldList_all_sim (W : Level) (G : Nat → Prop) (cam : camera_s) (rooms : Nat)
    (s t s1 : CRender) (i : Nat) (hst : SameView G s t) (hd : G (W.real_room (rooms + i)))
    (h : GenWorldList_all W cam rooms s i = some s1) :
    ∃ t1, GenWorldList_all W cam rooms t i = some t1 ∧ SameView G s1 t1 := by
  unfold GenWorldList_all at h ⊢
  simp only at h ⊢
  by_cases hvis : W.Frustum_IsAABBVisible (W.bb_min (rooms + i)) (W.bb_max (rooms + i))
      cam.frustum = true
  · rw [if_pos hvis] at h ⊢
    split at h
    · exact absurd h (by simp)
    · next s2 n2 ha =>
      simp only [Option.some.injEq] at h
      subst h
      obtain ⟨c2, hac, hv⟩ := AddRoom_sim W G s t s2 _ n2 hst hd ha
      exact ⟨c2, by simp only [hac], hv⟩
  · rw [if_neg hvis] at h ⊢
    simp only [Option.some.injEq] at h
    subst h
    exact ⟨t, rfl, hst⟩

theorem passStart_sim (W : Level) (b n : Nat) (s t : CRender) (cam cam2 : camera_s)
    (hsb : s.m_rooms = some b) (htb : t.m_rooms = some b) (hsn : s.m_rooms_count = n)
    (htn : t.m_rooms_count = n) (hsize : s.r_list_size = t.r_list_size)
    (hcam : camFound W cam2 = camFound W cam) :
    SameView (inLevel b n) (passStart W s cam) (passStart W t cam2) := by
  refine ⟨?_, hsize, rfl, fun i hi => absurd hi (Nat.not_lt_zero i), ?_⟩
  · show some (camFound W cam) = some (camFound W cam2)
    rw [hcam]
  · intro r hr
    have hs : isLevelRoom s r = true := (isLevelRoom_iff s b r hsb).mpr (hsn ▸ hr)
    have ht : isLevelRoom t r = true := (isLevelRoom_iff t b r htb).mpr (htn ▸ hr)
    simp [passStart, CleanList, hs, ht]

theorem GenWorldList_sim (W : Level) (b n : Nat) (hW : LevelClosed W b n) (fuel : Nat)
    (s t s1 : CRender) (cam cam2 : camera_s) (hsb : s.m_rooms = some b)
    (htb : t.m_rooms = some b) (hsn : s.m_rooms_count = n) (htn : t.m_rooms_count = n)
    (hsize : s.r_list_size = t.r_list_size) (hcam : camFound W cam2 = camFound W cam)
    (h : GenWorldList W fuel s cam = some s1) :
    ∃ t1, GenWorldList W fuel t cam2 = some t1 ∧ SameView (inLevel b n) s1 t1 := by
  have hlk : W.World_FindRoomByPosCogerrence cam2.pos cam2.current_room =
      W.World_FindRoomByPosCogerrence cam.pos cam.current_room :=
    congrArg camera_s.current_room hcam
  have h0 := passStart_sim W b n s t cam cam2 hsb htb hsn htn hsize hcam
  subst hsn
  rw [GenWorldList_of_rooms W fuel s cam b hsb] at h
  rw [GenWorldList_of_rooms W fuel t cam2 b htb, hlk, hcam, htn]
  cases hl : W.World_FindRoomByPosCogerrence cam.pos cam.current_room with
  | none =>
    rw [hl] at h
    simp only at h ⊢
    exact forEach_sim (GenWorldList_all W (camFound W cam) b)
      (SameView (inLevel b s.m_rooms_count)) (fun i => i < s.m_rooms_count)
      (fun a c i a1 hi hac hb =>
        GenWorldList_all_sim W _ (camFound W cam) b a c a1 i hac
          (hW.2.1 _ ⟨Nat.le_add_right b i, Nat.add_lt_add_left hi b⟩) hb)
      _ _ _ s1 (fun i hi => List.mem_range.mp hi) h0 h
  | some cr =>
    rw [hl] at h
    simp only at h ⊢
    have hcr : inLevel b s.m_rooms_count cr := hW.2.2 _ _ cr hl
    split at h
    · exact absurd h (by simp)
    · next s4 n4 ha =>
      obtain ⟨c4, hac, hv4⟩ := AddRoom_sim W _ _ _ s4 cr n4
        (setFrustumNull_sim _ _ _ cr h0) hcr ha
      rw [hac]
      simp only
      exact forEach_sim (GenWorldList_portal W fuel (camFound W cam) cr)
        (SameView (inLevel b s.m_rooms_count)) (fun x => x ∈ W.portals cr)
        (fun a c x a1 hx hac2 hb =>
          GenWorldList_portal_sim W _ hW.1 fuel (camFound W cam) cr a c a1 x hac2
            (hW.1 cr hcr x hx) hb)
        _ s4 c4 s1 (fun _ hx => hx) hv4 h

theorem SameView_activeRooms (G : Nat → Prop) (s t : CRender) (h : SameView G s t) :
    activeRooms s = activeRooms t := by
  unfold activeRooms
  rw [← h.2.2.1]
  apply List.map_congr_left
  intro i hi
  rw [h.2.2.2.1 i (List.mem_range.mp hi)]

theorem StepInv_level (W : Level) (m : Option Nat) (n k : Nat) :
    StepInv W (fun _ => True)
      (fun s => s.m_rooms = m ∧ s.m_rooms_count = n ∧ s.r_list_size = k) := by
  refine StepInv_of_add W _ _ (fun s c hs => hs) ?_
  intro s r s1 j _ hs h
  rcases AddRoom_cases W s s1 r j h with ⟨-, rfl, -⟩ | ⟨cam, -, -, -, -, rfl⟩ | ⟨-, -, -, rfl⟩ <;>
    exact hs

theorem GenWorldList_level (W : Level) (fuel : Nat) (s s1 : CRender) (cam : camera_s) (b : Nat)
    (hb : s.m_rooms = some b) (h : GenWorldList W fuel s cam = some s1) :
    (s1.m_rooms = some b ∧ s1.m_rooms_count = s.m_rooms_count ∧
      s1.r_list_size = s.r_list_size) ∧ s1.m_camera = some (camFound W cam) :=
  GenWorldList_preserves W (fun _ => True)
    (fun u => (u.m_rooms = some b ∧ u.m_rooms_count = s.m_rooms_count ∧
      u.r_list_size = s.r_list_size) ∧ u.m_camera = some (camFound W cam))
    (fun _ _ _ _ => trivial)
    (StepInv_and W _ _ _ (StepInv_level W _ _ _) (StepInv_camera W _ _)) fuel s s1 cam b hb
    (fun _ _ => trivial) (fun _ _ => trivial) (fun _ hs => hs.2) ⟨⟨hb, rfl, rfl⟩, rfl⟩ h

/-- C9 (counterexample): in `lvlHint` the room lookup is a function of its arguments; the
first pass, with no hint, finds room 0 and stores it in the camera; the second pass, on the
camera as the first one left it, finds room 1. The active lists are `[0]` and `[1]`. -/
theorem second_pass_differs :
    ∃ s1 cam1 s2, GenWorldList lvlHint 1 (CleanList lvlHint st3) camEdge = some s1 ∧
      s1.m_camera = some cam1 ∧ GenWorldList lvlHint 1 (CleanList lvlHint s1) cam1 = some s2 ∧
      activeRooms s1 = [some 0] ∧ activeRooms s2 = [some 1] :=
  ⟨_, _, _, rfl, rfl, rfl, rfl, rfl⟩

/-- C9 (amended): on a level whose references all lead to rooms of the level, when
`CleanList` and `GenWorldList` are run a second time for a camera at the same position
with the same frustum for which the room lookup answers as it did in the first pass (its
hint `cam->current_room` is rewritten by the first pass), the second pass returns, with
the recursion bound of the first one, and yields the same active render list: the same
rooms in the same order. -/
theorem second_pass_same_list (W : Level) (fuel : Nat) (s s1 : CRender) (cam cam2 : camera_s)
    (hlevel : ∀ b, s.m_rooms = some b → LevelClosed W b s.m_rooms_count)
    (hpos : cam2.pos = cam.pos) (hfrus : cam2.frustum = cam.frustum)
    (hlook : W.World_FindRoomByPosCogerrence cam2.pos cam2.current_room =
      W.World_FindRoomByPosCogerrence cam.pos cam.current_room)
    (h1 : GenWorldList W fuel (CleanList W s) cam = some s1) :
    ∃ s2, GenWorldList W fuel (CleanList W s1) cam2 = some s2 ∧
      activeRooms s2 = activeRooms s1 := by
  cases hb : s.m_rooms with
  | none =>
    have hb1 : (CleanList W s).m_rooms = none := hb
    rw [GenWorldList_of_null W fuel _ cam hb1] at h1
    simp only [Option.some.injEq] at h1
    subst h1
    exact ⟨_, GenWorldList_of_null W fuel _ cam2 hb, rfl⟩
  | some b =>
    have hW := hlevel b hb
    have hb1 : (CleanList W s).m_rooms = some b := hb
    obtain ⟨⟨hm, hn, hk⟩, -⟩ := GenWorldList_level W fuel (CleanList W s) s1 cam b hb1 h1
    have hcf : camFound W cam2 = camFound W cam := by
      unfold camFound
      rw [hlook, hpos, hfrus]
    obtain ⟨t1, ht, hv⟩ := GenWorldList_sim W b s.m_rooms_count hW fuel (CleanList W s)
      (CleanList W s1) s1 cam cam2 hb1 hm rfl hn hk.symm hcf h1
    exact ⟨t1, ht, (SameView_activeRooms _ _ _ hv).symm⟩

theorem second_pass_same_list_witness :
    ∃ s1 cam1 s2, GenWorldList lvl3 5 (CleanList lvl3 st3) cam0 = some s1 ∧
      s1.m_camera = some cam1 ∧ GenWorldList lvl3 5 (CleanList lvl3 s1) cam1 = some s2 ∧
      activeRooms s2 = activeRooms s1 ∧ activeRooms s1 = [some 0, some 1, some 2] := by
  obtain ⟨s2, h2, he⟩ := second_pass_same_list lvl3 5 st3 _ cam0 (camFound lvl3 cam0)
    (fun b hb => by
      have hb0 : b = 0 := (Option.some.inj hb).symm
      subst hb0
      exact lvl3_closed) rfl rfl rfl rfl
  exact ⟨_, _, s2, rfl, rfl, h2, he, rfl⟩

/-! ## Back-to-front traversal of the BSP tree -/

theorem drawn_DrawBSPPolygon (E : DrawEnv) (st : DrawState) (p : bsp_polygon_s) :
    drawn (DrawBSPPolygon E st p) = drawn st ++ [p] := by
  unfold DrawBSPPolygon drawn
  simp only
  split <;> split <;> (try split) <;> simp [List.filterMap_append]

theorem drawn_foldl (E : DrawEnv) (l : List bsp_polygon_s) :
    ∀ st : DrawState, drawn (l.foldl (DrawBSPPolygon E) st) = drawn st ++ l := by
  induction l with
  | nil => intro st; simp
  | cons p ps ih =>
    intro st
    rw [List.foldl_cons, ih, drawn_DrawBSPPolygon]
    simp

/-- The code emits the polygons in the order of the specification, after those already
drawn. -/
theorem drawn_DrawBSPBackToFront (E : DrawEnv) (t : bsp_node_p) :
    ∀ st : DrawState, drawn (DrawBSPBackToFront E t st) = drawn st ++ backToFrontOrder E t := by
  induction t with
  | null => intro st; simp [DrawBSPBackToFront, backToFrontOrder]
  | node plane front back pf pb ihf ihb =>
    intro st
    unfold DrawBSPBackToFront backToFrontOrder
    split
    · simp only [ihf, ihb, drawn_foldl, List.append_assoc]
    · simp only [ihf, ihb, drawn_foldl, List.append_assoc]

theorem emitted_eq (E : DrawEnv) (t : bsp_node_p) : emitted E t = backToFrontOrder E t := by
  unfold emitted
  rw [drawn_DrawBSPBackToFront]
  rfl

/-- C13: at a node with `d` the signed distance of the camera from its plane, after the
polygons already drawn, `DrawBSPBackToFront` emits, when `d >= 0`, the whole back subtree,
the back bucket, the front bucket, then the whole front subtree, and when `d < 0` the
whole front subtree, the front bucket, the back bucket, then the whole back subtree. -/
theorem far_child_buckets_near_child (E : DrawEnv) (plane : Plane) (front back : bsp_node_p)
    (pf pb : List bsp_polygon_s) (st : DrawState) :
    (E.vec3_plane_dist plane E.engine_camera_pos ≥ 0 →
      drawn (DrawBSPBackToFront E (bsp_node_p.node plane front back pf pb) st) =
        drawn st ++ emitted E back ++ pb ++ pf ++ emitted E front) ∧
    (E.vec3_plane_dist plane E.engine_camera_pos < 0 →
      drawn (DrawBSPBackToFront E (bsp_node_p.node plane front back pf pb) st) =
        drawn st ++ emitted E front ++ pf ++ pb ++ emitted E back) := by
  constructor
  · intro hd
    rw [drawn_DrawBSPBackToFront, emitted_eq, emitted_eq]
    simp only [backToFrontOrder, if_pos hd, List.append_assoc]
  · intro hd
    have hn : ¬ E.vec3_plane_dist plane E.engine_camera_pos ≥ 0 := not_le.mpr hd
    rw [drawn_DrawBSPBackToFront, emitted_eq, emitted_eq]
    simp only [backToFrontOrder, if_neg hn, List.append_assoc]

theorem far_child_buckets_near_child_witness :
    drawn (DrawBSPBackToFront envOrigin treeStack DrawState.start) =
      [quadAt 300, quadAt 200, quadAt 100] ∧
    drawn (DrawBSPBackToFront { envOrigin with engine_camera_pos := vec3 200 0 0 } treeStack
      DrawState.start) = [quadAt 100, quadAt 200, quadAt 300] := by
  constructor
  · exact ((far_child_buckets_near_child envOrigin (plane4 1 0 0 (-200)) _ _ [quadAt 200] []
      DrawState.start).2 (by decide)).trans rfl
  · exact ((far_child_buckets_near_child { envOrigin with engine_camera_pos := vec3 200 0 0 }
      (plane4 1 0 0 (-200)) _ _ [quadAt 200] [] DrawState.start).1 (by decide)).trans rfl

/-- C12 (counterexample): three quads, pairwise separated by planes parallel to the axes,
in a BSP tree whose root plane `y = 100` holds `quadMid`, with `quadNear` in front of it
and `quadFar` behind it. For a camera at the origin the traversal emits `quadNear`,
`quadMid`, `quadFar`, although every vertex of `quadNear` is nearer to the camera than
every vertex of `quadMid`, and every vertex of `quadMid` nearer than every one of
`quadFar`: the order is ascending in distance. -/
theorem bsp_order_not_by_distance :
    emitted envOrigin treeQuads = [quadNear, quadMid, quadFar] ∧
    (∀ v ∈ quadNear.vertices, ∀ w ∈ quadMid.vertices,
      distSq envOrigin.engine_camera_pos v < distSq envOrigin.engine_camera_pos w) ∧
    (∀ v ∈ quadMid.vertices, ∀ w ∈ quadFar.vertices,
      distSq envOrigin.engine_camera_pos v < distSq envOrigin.engine_camera_pos w) ∧
    (∀ v ∈ quadMid.vertices, ∀ w ∈ quadNear.vertices, v 1 < w 1) ∧
    (∀ v ∈ quadMid.vertices ++ quadNear.vertices, ∀ w ∈ quadFar.vertices, v 0 < w 0) ∧
    (∀ v ∈ quadNear.vertices, 0 < planeDist (plane4 0 1 0 (-100)) v) ∧
    (∀ v ∈ quadMid.vertices, planeDist (plane4 0 1 0 (-100)) v = 0) ∧
    (∀ v ∈ quadFar.vertices, planeDist (plane4 0 1 0 (-100)) v < 0) :=
  ⟨rfl, by decide, by decide, by decide, by decide, by decide, by decide, by decide⟩

/-! ## `CleanList` and `ResetWorld` -/

/-- C14: after `CleanList` the active count is 0, every entry below the old active count is
reset (room null, active 0, dist 0), every entry at or above it is untouched, and every
room of the level has `is_in_r_list = 0` and a null frustum chain. -/
theorem CleanList_effect (W : Level) (s : CRender) :
    (CleanList W s).r_list_active_count = 0 ∧
    (∀ i, i < s.r_list_active_count →
      (CleanList W s).r_list i = { room := none, active := 0, dist := 0 }) ∧
    (∀ i, s.r_list_active_count ≤ i → (CleanList W s).r_list i = s.r_list i) ∧
    (∀ b r, s.m_rooms = some b → inLevel b s.m_rooms_count r →
      (CleanList W s).room_is_in_r_list r = 0 ∧ (CleanList W s).room_frustum r = []) := by
  refine ⟨rfl, ?_, ?_, ?_⟩
  · intro i hi
    simp [CleanList, hi]
  · intro i hi
    have hn : ¬ i < s.r_list_active_count := Nat.not_lt.mpr hi
    simp [CleanList, hn]
  · intro b r hb hr
    have hl : isLevelRoom s r = true := (isLevelRoom_iff s b r hb).mpr hr
    simp [CleanList, hl]

theorem CleanList_effect_witness :
    ∃ s, GenWorldList lvl3 5 st3 cam0 = some s ∧ s.r_list_active_count = 3 ∧
      (s.r_list 1).room = some 1 ∧ s.room_is_in_r_list 1 = 1 ∧ s.room_frustum 1 = [1] ∧
      (CleanList lvl3 s).r_list 1 = { room := none, active := 0, dist := 0 } ∧
      (CleanList lvl3 s).r_list 3 = s.r_list 3 ∧
      (CleanList lvl3 s).room_is_in_r_list 1 = 0 ∧ (CleanList lvl3 s).room_frustum 1 = [] := by
  refine ⟨_, rfl, rfl, rfl, rfl, rfl, ?_⟩
  have h := CleanList_effect lvl3 ((GenWorldList lvl3 5 st3 cam0).getD st3)
  have h1 := h.2.2.2 0 1 rfl (by decide)
  exact ⟨h.2.1 1 (by decide), h.2.2.1 3 (by decide), h1.1, h1.2⟩

theorem GenWorldList_size (W : Level) (fuel : Nat) (s s1 : CRender) (cam : camera_s)
    (h : GenWorldList W fuel s cam = some s1) : s1.r_list_size = s.r_list_size := by
  cases hb : s.m_rooms with
  | none =>
    rw [GenWorldList_of_null W fuel s cam hb] at h
    simp only [Option.some.injEq] at h
    subst h
    rfl
  | some b => exact (GenWorldList_level W fuel s s1 cam b hb h).1.2.2

theorem step_size (W : Level) (s s1 : CRender) (op : Op)
    (hop : ∀ rooms n a c, op ≠ Op.ResetWorld rooms n a c) (h : step W s op = some s1) :
    s1.r_list_size = s.r_list_size := by
  cases op with
  | ResetWorld rooms n a c => exact absurd rfl (hop rooms n a c)
  | CleanList =>
    simp only [step, Option.some.injEq] at h
    subst h
    rfl
  | AddRoom room =>
    simp only [step] at h
    split at h
    · exact absurd h (by simp)
    · next s2 n2 ha =>
      simp only [Option.some.injEq] at h
      subst h
      exact ((StepInv_level W s.m_rooms s.m_rooms_count s.r_list_size).add s room s2 n2 trivial
        ⟨rfl, rfl, rfl⟩ ha).2.2
  | GenWorldList fuel cam => exact GenWorldList_size W fuel s s1 cam h

/-- C17 (counterexample): `ResetWorld` with a room array of `2 ^ 32 - 128` rooms computes
`list_size` in 32 bits: the capacity is 0, not `n + 128`. -/
theorem ResetWorld_size_wraps :
    (ResetWorld lvl3 st0 (some 0) 4294967168 none 0).m_rooms_count = 4294967168 ∧
    (ResetWorld lvl3 st0 (some 0) 4294967168 none 0).r_list_size = 0 ∧
    4294967168 < 2 ^ 32 :=
  ⟨rfl, by decide, by decide⟩

/-- C17 (amended): after `ResetWorld` with a non-null room array of `n` rooms, where
`n + 128 < 2 ^ 32`, `r_list_size` is `n + 128`, the active count is 0, each of the
`n + 128` entries is inactive with a null room and `dist` 0, every room of the array has
`is_in_r_list = 0` and `r_flags` is 0; a later `CleanList`, `AddRoom` or `GenWorldList`
that returns leaves `r_list_size` as it is. -/
theorem ResetWorld_effect (W : Level) (s : CRender) (b n : Nat) (a : Option Nat) (c : Nat)
    (hn : n + 128 < 2 ^ 32) :
    (ResetWorld W s (some b) n a c).r_list_size = n + 128 ∧
    (ResetWorld W s (some b) n a c).r_list_active_count = 0 ∧
    (∀ i, i < n + 128 →
      (ResetWorld W s (some b) n a c).r_list i = { room := none, active := 0, dist := 0 }) ∧
    (∀ r, inLevel b n r → (ResetWorld W s (some b) n a c).room_is_in_r_list r = 0) ∧
    (ResetWorld W s (some b) n a c).r_flags = 0 ∧
    ∀ t op t1, (∀ rooms m a1 c1, op ≠ Op.ResetWorld rooms m a1 c1) → step W t op = some t1 →
      t1.r_list_size = t.r_list_size := by
  refine ⟨?_, rfl, ?_, ?_, rfl, fun t op t1 hop h => step_size W t t1 op hop h⟩
  · show (n + 128) % 2 ^ 32 = n + 128
    exact Nat.mod_eq_of_lt hn
  · intro i hi
    have hi2 : i < (n + 128) % 2 ^ 32 := by rw [Nat.mod_eq_of_lt hn]; exact hi
    show (if i < (n + 128) % 2 ^ 32 then _ else _) = _
    rw [if_pos hi2]
  · intro r hr
    unfold inLevel at hr
    simp [ResetWorld, hr]

theorem ResetWorld_effect_witness :
    st3.r_list_size = 131 ∧ st3.r_list 130 = { room := none, active := 0, dist := 0 } ∧
    ∃ s1, step lvl3 st3 (Op.GenWorldList 5 cam0) = some s1 ∧ s1.r_list_size = st3.r_list_size := by
  have h := ResetWorld_effect lvl3 stCam 0 3 none 0 (by decide)
  exact ⟨h.1, h.2.2.1 130 (by decide), _, rfl,
    h.2.2.2.2.2 st3 (Op.GenWorldList 5 cam0) _ (fun _ _ _ _ hc => Op.noConfusion hc) rfl⟩

/-! ## The skybox flag -/

theorem clearBits_and (x m : Nat) : clearBits x m &&& m = 0 := by
  apply Nat.eq_of_testBit_eq
  intro i
  simp only [clearBits, Nat.testBit_and, Nat.testBit_xor, Nat.zero_testBit]
  cases x.testBit i <;> cases m.testBit i <;> rfl

theorem or_and_self (x m : Nat) : (x ||| m) &&& m = m := by
  apply Nat.eq_of_testBit_eq
  intro i
  simp only [Nat.testBit_and, Nat.testBit_or]
  cases x.testBit i <;> cases m.testBit i <;> rfl

theorem StepInv_sky (W : Level) (hM : W.R_DRAW_SKYBOX ≠ 0) :
    StepInv W (fun _ => True)
      (fun s => s.r_flags &&& W.R_DRAW_SKYBOX ≠ 0 ↔ SkyListed W s) := by
  refine StepInv_of_add W _ _ (fun s c hs => hs) ?_
  intro s r s1 n _ hs h
  rcases AddRoom_cases W s s1 r n h with ⟨-, rfl, -⟩ | ⟨cam, -, -, -, -, rfl⟩ | ⟨-, -, -, rfl⟩
  · exact hs
  · by_cases hsky : W.room_flags r &&& W.TR_ROOM_FLAG_SKYBOX ≠ 0
    · constructor
      · intro _
        exact ⟨s.r_list_active_count, r, Nat.lt_succ_self _, by simp, hsky⟩
      · intro _
        show (if W.room_flags r &&& W.TR_ROOM_FLAG_SKYBOX ≠ 0 then s.r_flags ||| W.R_DRAW_SKYBOX
          else s.r_flags) &&& W.R_DRAW_SKYBOX ≠ 0
        rw [if_pos hsky, or_and_self]
        exact hM
    · have hfl : (if W.room_flags r &&& W.TR_ROOM_FLAG_SKYBOX ≠ 0 then
          s.r_flags ||| W.R_DRAW_SKYBOX else s.r_flags) = s.r_flags := if_neg hsky
      show (if W.room_flags r &&& W.TR_ROOM_FLAG_SKYBOX ≠ 0 then s.r_flags ||| W.R_DRAW_SKYBOX
          else s.r_flags) &&& W.R_DRAW_SKYBOX ≠ 0 ↔ _
      rw [hfl, hs]
      constructor
      · rintro ⟨i, x, hi, hx, hxs⟩
        have hne : i ≠ s.r_list_active_count := Nat.ne_of_lt hi
        exact ⟨i, x, Nat.lt_succ_of_lt hi, by simp [hne, hx], hxs⟩
      · rintro ⟨i, x, hi, hx, hxs⟩
        have hi1 : i < s.r_list_active_count + 1 := hi
        by_cases hic : i = s.r_list_active_count
        · have hx1 : (if i = s.r_list_active_count then some r else (s.r_list i).room) = some x := by
            by_cases h0 : i = s.r_list_active_count
            · simpa [h0] using hx
            · exact absurd hic h0
          rw [if_pos hic] at hx1
          exact absurd ((Option.some.inj hx1) ▸ hxs) hsky
        · have hx1 : (s.r_list i).room = some x := by simpa [hic] using hx
          exact ⟨i, x, by omega, hx1, hxs⟩
  · exact hs

theorem passStart_sky (W : Level) (s : CRender) (c : Option camera_s) :
    ({ CleanList W s with m_camera := c }).r_flags &&& W.R_DRAW_SKYBOX ≠ 0 ↔
      SkyListed W { CleanList W s with m_camera := c } := by
  constructor
  · intro h
    exact absurd (clearBits_and s.r_flags W.R_DRAW_SKYBOX) h
  · rintro ⟨i, _, hi, -⟩
    exact absurd hi (Nat.not_lt_zero i)

/-- C18: with `R_DRAW_SKYBOX` a non-zero mask, after a `GenWorldList` that returns the
`R_DRAW_SKYBOX` bit of `r_flags` is set if and only if some room of the active render
list carries `TR_ROOM_FLAG_SKYBOX` in its `room_flags`. -/
theorem skybox_flag_iff (W : Level) (hM : W.R_DRAW_SKYBOX ≠ 0) (fuel : Nat) (s s1 : CRender)
    (cam : camera_s) (h : GenWorldList W fuel s cam = some s1) :
    s1.r_flags &&& W.R_DRAW_SKYBOX ≠ 0 ↔
      ∃ i r, i < s1.r_list_active_count ∧ (s1.r_list i).room = some r ∧
        W.room_flags r &&& W.TR_ROOM_FLAG_SKYBOX ≠ 0 := by
  cases hb : s.m_rooms with
  | none =>
    rw [GenWorldList_of_null W fuel s cam hb] at h
    simp only [Option.some.injEq] at h
    subst h
    exact passStart_sky W s (some cam)
  | some base =>
    have key := GenWorldList_preserves W (fun _ => True)
      (fun s => (s.r_flags &&& W.R_DRAW_SKYBOX ≠ 0 ↔ SkyListed W s) ∧
        s.m_camera = some (camFound W cam))
      (fun _ _ _ _ => trivial)
      (StepInv_and W _ _ _ (StepInv_sky W hM) (StepInv_camera W _ _)) fuel s s1 cam base hb
      (fun _ _ => trivial) (fun _ _ => trivial) (fun _ hs => hs.2)
      ⟨passStart_sky W s _, rfl⟩ h
    exact key.1

theorem skybox_flag_iff_witness :
    (∃ s1, GenWorldList lvlSky 5 st3 cam0 = some s1 ∧ s1.r_flags = 8192 ∧
      (s1.r_flags &&& lvlSky.R_DRAW_SKYBOX ≠ 0 ↔
        ∃ i r, i < s1.r_list_active_count ∧ (s1.r_list i).room = some r ∧
          lvlSky.room_flags r &&& lvlSky.TR_ROOM_FLAG_SKYBOX ≠ 0)) ∧
    ∃ s1, GenWorldList lvl3 5 st3 cam0 = some s1 ∧ s1.r_flags = 0 :=
  ⟨⟨_, rfl, rfl, skybox_flag_iff lvlSky (by decide) 5 st3 _ cam0 rfl⟩, _, rfl, rfl⟩

/-! ## `ProcessRoom`: pruning and the walk over the portals -/

theorem ProcessRoom_body_eq_clipVisit (W : Level) (fuel : Nat) (cam : camera_s)
    (frus : Frustum) (acc : CRender × Nat) (p : portal_s) (hc : acc.1.m_camera = some cam) :
    ProcessRoom_body W (ProcessRoom W fuel) frus acc p = clipVisit W fuel cam frus acc p := by
  unfold clipVisit
  cases hclip : W.clip cam p frus with
  | none => exact ProcessRoom_body_fail W _ frus acc p cam hc hclip
  | some g => exact ProcessRoom_body_ok W _ frus g acc p cam hc hclip

theorem clipVisit_some (W : Level) (fuel : Nat) (cam : camera_s) (frus : Frustum)
    (acc acc1 : CRender × Nat) (p : portal_s) (hc : acc.1.m_camera = some cam)
    (h : clipVisit W fuel cam frus acc p = some acc1) :
    acc1.1.m_camera = some cam ∧
    acc1.2 = acc.2 + (if (W.clip cam p frus).isSome then 1 else 0) := by
  unfold clipVisit at h
  cases hclip : W.clip cam p frus with
  | none =>
    rw [hclip] at h
    simp only [Option.some.injEq] at h
    subst h
    exact ⟨hc, by simp⟩
  | some g =>
    rw [hclip] at h
    simp only at h
    obtain ⟨r2, ha, h2⟩ := Option.bind_eq_some.mp h
    obtain ⟨r3, hp, h3⟩ := Option.bind_eq_some.mp h2
    simp only [Option.some.injEq] at h3
    subst h3
    have hc2 : r2.1.m_camera = some cam := (AddRoom_camera W _ r2.1 _ r2.2 ha).trans hc
    have hc3 : r3.1.m_camera = some cam :=
      ProcessRoom_preserves W (fun _ => True) (fun t => t.m_camera = some cam)
        (fun _ _ _ _ => trivial) (StepInv_camera W _ _) fuel r2.1 p g r3.1 r3.2 trivial hc2 hp
    exact ⟨hc3, by simp⟩

theorem forEach_clipVisit (W : Level) (fuel : Nat) (cam : camera_s) (frus : Frustum) :
    ∀ (l : List portal_s) (acc : CRender × Nat), acc.1.m_camera = some cam →
      forEach (ProcessRoom_body W (ProcessRoom W fuel) frus) l acc =
        forEach (clipVisit W fuel cam frus) l acc ∧
      ∀ acc1, forEach (clipVisit W fuel cam frus) l acc = some acc1 →
        acc1.2 = acc.2 + (l.filter fun q => (W.clip cam q frus).isSome).length := by
  intro l
  induction l with
  | nil =>
    intro acc _
    refine ⟨rfl, fun acc1 h => ?_⟩
    simp only [forEach, Option.some.injEq] at h
    subst h
    simp
  | cons q qs ih =>
    intro acc hc
    have hb := ProcessRoom_body_eq_clipVisit W fuel cam frus acc q hc
    cases hv : clipVisit W fuel cam frus acc q with
    | none =>
      refine ⟨by simp only [forEach, hb, hv], fun acc1 h => ?_⟩
      simp only [forEach, hv] at h
      exact absurd h (by simp)
    | some acc2 =>
      obtain ⟨hc2, hn2⟩ := clipVisit_some W fuel cam frus acc acc2 q hc hv
      obtain ⟨ih1, ih2⟩ := ih acc2 hc2
      refine ⟨by simp only [forEach, hb, hv, ih1], fun acc1 h => ?_⟩
      simp only [forEach, hv] at h
      rw [ih2 acc1 h, hn2, List.filter_cons]
      by_cases hq : (W.clip cam q frus).isSome = true
      · simp only [hq, if_true, List.length_cons]
        omega
      · simp only [hq, if_false]
        simp

/-- C19: `ProcessRoom(portal, frus)`, with a recursion bound `fuel + 1` and a camera set,
returns 0 and leaves the whole state (so the render list) as it is, whatever the clips would
give, when the destination room has `is_in_r_list` set and a null frustum chain; in every
other case it goes through the portals of the destination room in index order, attempting
the clip of each against `frus` and, for each one whose clip succeeds, adding its
destination and recursing into it; the value it then returns is the number of these
portals whose clip succeeded. In a state where the list agrees with the flags, the flag
`is_in_r_list` of a room of the level is set exactly when the room is in the active render
list. -/
theorem ProcessRoom_prune_or_walk (W : Level) (fuel : Nat) (s : CRender) (portal : portal_s)
    (frus : Frustum) (cam : camera_s) (hc : s.m_camera = some cam) :
    (s.room_is_in_r_list (W.real_room portal.dest_room) ≠ 0 ∧
        s.room_frustum (W.real_room portal.dest_room) = [] →
      ProcessRoom W (fuel + 1) s portal frus = some (s, 0)) ∧
    (¬ (s.room_is_in_r_list (W.real_room portal.dest_room) ≠ 0 ∧
        s.room_frustum (W.real_room portal.dest_room) = []) →
      ProcessRoom W (fuel + 1) s portal frus =
        forEach (clipVisit W fuel cam frus) (W.portals (W.real_room portal.dest_room)) (s, 0) ∧
      ∀ s1 ret, ProcessRoom W (fuel + 1) s portal frus = some (s1, ret) →
        ret = ((W.portals (W.real_room portal.dest_room)).filter
          fun q => (W.clip cam q frus).isSome).length) ∧
    (∀ b n, ListInv b n s → inLevel b n (W.real_room portal.dest_room) →
      (s.room_is_in_r_list (W.real_room portal.dest_room) ≠ 0 ↔
        inList s (W.real_room portal.dest_room))) := by
  refine ⟨?_, ?_, fun b n hs hr => ListInv_iff b n s hs _ hr⟩
  · intro hp
    rw [ProcessRoom_succ, if_pos hp]
  · intro hp
    have key := forEach_clipVisit W fuel cam frus (W.portals (W.real_room portal.dest_room))
      (s, 0) hc
    rw [ProcessRoom_succ, if_neg hp]
    refine ⟨key.1, fun s1 ret h => ?_⟩
    rw [key.1] at h
    have h2 := key.2 (s1, ret) h
    simpa using h2

theorem stSeen_camera : stSeen.m_camera = some (camFound lvl3 cam0) := rfl

theorem ProcessRoom_prune_or_walk_witness :
    ProcessRoom lvl3 3 stSeen { id := 1, dest_room := 0 } 1 = some (stSeen, 0) ∧
    ∃ s1, ProcessRoom lvl3 3 stSeen { id := 0, dest_room := 1 } 1 = some (s1, 1) ∧
      s1.room_frustum 2 = [2, 2] := by
  have h1 := (ProcessRoom_prune_or_walk lvl3 2 stSeen { id := 1, dest_room := 0 } 1 _
    stSeen_camera).1 (by decide)
  have h2 := ((ProcessRoom_prune_or_walk lvl3 2 stSeen { id := 0, dest_room := 1 } 1 _
    stSeen_camera).2.1 (by decide)).1
  exact ⟨h1, _, h2.trans rfl, rfl⟩

/-! ## A camera that faces away from the portal of its room -/

/-- C11 (as stated, refuted): in the three-room layout with every clip failing, a camera in
room `0` five units from the box of room `1` gets the render list `[0, 1]`, not `[0]`. -/
theorem facing_away_lists_neighbour :
    lvlAway.World_FindRoomByPosCogerrence camNear.pos camNear.current_room = some 0 ∧
    lvlAway.clip (camFound lvlAway camNear) { id := 0, dest_room := 1 } camNear.frustum = none ∧
    ∃ s1, GenWorldList lvlAway 2 st3 camNear = some s1 ∧ activeRooms s1 = [some 0, some 1] :=
  ⟨rfl, rfl, _, rfl, rfl⟩

/-- C11 (amended): room A of the level has the single portal to B, the camera is found in
A, the clip of that portal against the camera frustum fails, and the test of the boundary
heuristic as lines 262-265 compute it fails too (on some axis the camera position is
greater than the `float` sum `bb_max + eps` or less than the `float` difference
`bb_min - eps` of the bounding box of B, or B is in the overlapped-room list of A). Then,
with a list of capacity 1 or more and any recursion bound, `GenWorldList` returns and the
active render list is `[A]`. -/
theorem facing_away_only_camera_room (W : Level) (fuel : Nat) (s : CRender) (cam : camera_s)
    (b A : Nat) (pAB : portal_s)
    (hb : s.m_rooms = some b) (hA : inLevel b s.m_rooms_count A) (hsz : 1 ≤ s.r_list_size)
    (hl : W.World_FindRoomByPosCogerrence cam.pos cam.current_room = some A)
    (hpA : W.portals A = [pAB])
    (c1 : W.clip (camFound W cam) pAB cam.frustum = none)
    (hfar : nearTest W (camFound W cam) A (W.real_room pAB.dest_room) = false) :
    ∃ s1, GenWorldList W fuel s cam = some s1 ∧ activeRooms s1 = [some A] := by
  obtain ⟨hcam0, hfA0, hcnt0, hsz0, hact0⟩ := passStart_fields W s cam b A A hb hA
  obtain ⟨sA, eA, actA, -, -, -, -, -⟩ :=
    AddRoom_fresh W _ A (camFound W cam) hcam0 hfA0 (by rw [hcnt0, hsz0]; omega)
  refine ⟨sA, ?_, ?_⟩
  · rw [GenWorldList_of_rooms W fuel s cam b hb]
    simp only [hl]
    rw [eA]
    simp only [hpA, forEach]
    have hp := GenWorldList_portal_fail W fuel (camFound W cam) A sA pAB c1
    rw [hfar] at hp
    rw [hp]
    rfl
  · rw [actA, hact0]
    rfl

theorem facing_away_only_camera_room_witness :
    ∃ s1, GenWorldList lvlAway 2 st3 cam0 = some s1 ∧ activeRooms s1 = [some 0] :=
  facing_away_only_camera_room lvlAway 2 st3 cam0 0 0 { id := 0, dest_room := 1 }
    rfl (by decide) (by decide) rfl rfl rfl rfl

/-! ## The boundary heuristic of `GenWorldList` -/

theorem nearTest_iff (W : Level) (cam : camera_s) (cr d : Nat) :
    nearTest W cam cr d = true ↔ nearBox W cam.pos cr d := by
  unfold nearTest nearBox
  simp only [Bool.and_eq_true, decide_eq_true_eq, Bool.not_eq_true', Fin.forall_fin_succ,
    Fin.forall_fin_zero_pi, ge_iff_le]
  constructor
  · rintro ⟨⟨⟨⟨⟨⟨h0, h1⟩, h2⟩, h3⟩, h4⟩, h5⟩, h6⟩
    exact ⟨⟨⟨h1, h0⟩, ⟨h3, h2⟩, ⟨h5, h4⟩, fun i => i.elim0⟩, h6⟩
  · rintro ⟨⟨⟨h1, h0⟩, ⟨h3, h2⟩, ⟨h5, h4⟩, -⟩, h6⟩
    exact ⟨⟨⟨⟨⟨⟨h0, h1⟩, h2⟩, h3⟩, h4⟩, h5⟩, h6⟩

theorem GenWorldList_near_eq_clipVisit (W : Level) (fuel : Nat) (cam : camera_s)
    (u : CRender) (q : portal_s) :
    GenWorldList_near W fuel cam u q =
      (clipVisit W fuel cam cam.frustum (u, 0) q).map Prod.fst := by
  unfold clipVisit
  cases hclip : W.clip cam q cam.frustum with
  | none =>
    rw [GenWorldList_near_fail W fuel cam u q hclip]
    rfl
  | some g =>
    rw [GenWorldList_near_ok W fuel cam u q g hclip]
    simp only
    cases AddRoom W (linkFrustum W u q g) (W.real_room q.dest_room) with
    | none => rfl
    | some r2 =>
      simp only [Option.some_bind]
      cases ProcessRoom W fuel r2.1 q g with
      | none => rfl
      | some r3 => rfl

/-- C20 (as stated, refuted): in `lvlFar` every clip fails and the camera, found in room
`0`, is 16 units outside the bounding box of room `1`, so not inside that box enlarged by
10 units. The `float` sum `200000000 + 10` of line 262 is `200000016`, the test holds,
and the pass lists room `1`: the render list is `[0, 1]`. -/
theorem boundary_test_rounds :
    lvlFar.World_FindRoomByPosCogerrence camFar.pos camFar.current_room = some 0 ∧
    lvlFar.portals 0 = [{ id := 0, dest_room := 1 }] ∧
    lvlFar.clip (camFound lvlFar camFar) { id := 0, dest_room := 1 } camFar.frustum = none ∧
    lvlFar.bb_max 1 0 + 10 < camFar.pos 0 ∧
    lvlFar.fadd (lvlFar.bb_max 1 0) eps = 200000016 ∧
    ¬ enlargedBox lvlFar camFar.pos 1 ∧
    ∃ s1, GenWorldList lvlFar 2 st3 camFar = some s1 ∧ activeRooms s1 = [some 0, some 1] :=
  ⟨rfl, rfl, rfl, by decide, rfl, fun h => absurd (h 0).2 (by decide), _, rfl, rfl⟩

/-- C20 (amended): in a `GenWorldList` that returns on a closed level whose list has room
for every room of the level, take a portal of the camera's room whose clip against the
camera frustum fails. If on every axis the camera position is at least the `float`
difference `bb_min - eps` and at most the `float` sum `bb_max + eps` of the bounding box
of the destination, as lines 262-264 compute them with `eps = 10`, and the destination is
not in the overlapped-room list of the camera's room, then the destination is in the
active render list after the pass, and the loop body for that portal sets the chain of the
destination to null, adds it and, when `AddRoom` returned non-zero, clips each portal of
the destination, in order, against the frustum of the camera itself. If either condition
is false the loop body for that portal leaves the state as it is. -/
theorem boundary_heuristic (W : Level) (b n : Nat) (hW : LevelClosed W b n) (fuel : Nat)
    (s s1 : CRender) (cam : camera_s) (cr : Nat) (hb : s.m_rooms = some b)
    (hn : s.m_rooms_count = n) (hsz : n ≤ s.r_list_size)
    (hl : W.World_FindRoomByPosCogerrence cam.pos cam.current_room = some cr)
    (h : GenWorldList W fuel s cam = some s1) (p : portal_s) (hp : p ∈ W.portals cr)
    (hclip : W.clip (camFound W cam) p cam.frustum = none) :
    (nearBox W cam.pos cr (W.real_room p.dest_room) →
      inList s1 (W.real_room p.dest_room) ∧
      ∀ t, GenWorldList_portal W fuel (camFound W cam) cr t p =
        (AddRoom W (setFrustumNull t (W.real_room p.dest_room)) (W.real_room p.dest_room)).bind
          fun r3 =>
            if r3.2 ≠ 0 then
              forEach (fun u q =>
                  (clipVisit W fuel (camFound W cam) cam.frustum (u, 0) q).map Prod.fst)
                (W.portals (W.real_room p.dest_room)) r3.1
            else some r3.1) ∧
    (¬ nearBox W cam.pos cr (W.real_room p.dest_room) →
      ∀ t, GenWorldList_portal W fuel (camFound W cam) cr t p = some t) := by
  have hcr : inLevel b n cr := hW.2.2 _ _ cr hl
  have hnear_eq : GenWorldList_near W fuel (camFound W cam) = fun u q =>
      (clipVisit W fuel (camFound W cam) cam.frustum (u, 0) q).map Prod.fst := by
    funext u q
    exact GenWorldList_near_eq_clipVisit W fuel (camFound W cam) u q
  refine ⟨fun hbox => ⟨?_, fun t => ?_⟩, fun hbox t => ?_⟩
  · rw [GenWorldList_of_rooms W fuel s cam b hb, hl] at h
    simp only at h
    split at h
    · exact absurd h (by simp)
    · next s4 n4 ha =>
      have h0 : ListInv b n (setFrustumNull (passStart W s cam) cr) :=
        (StepInv_ListInv W b n).null _ cr hcr (CleanList_ListInv W b n s hb hn hsz)
      have h4 : ListInv b n s4 ∧ s4.m_camera = some (camFound W cam) :=
        ⟨(StepInv_ListInv W b n).add _ cr s4 n4 hcr h0 ha, AddRoom_camera W _ s4 cr n4 ha⟩
      have key := forEach_visits (GenWorldList_portal W fuel (camFound W cam) cr)
        (fun t => ListInv b n t ∧ t.m_camera = some (camFound W cam))
        (fun x => x ∈ W.portals cr)
        (fun x t => W.clip (camFound W cam) x cam.frustum = none →
          nearBox W cam.pos cr (W.real_room x.dest_room) → inList t (W.real_room x.dest_room))
        (fun t x t1 hx ht hbody =>
          GenWorldList_portal_preserves W (inLevel b n) _ hW.1
            (StepInv_and W _ _ _ (StepInv_ListInv W b n) (StepInv_camera W _ _))
            (camFound W cam) (fun _ hu => hu.2) fuel cr hcr t t1 x hx ht hbody)
        (fun t x c t1 hcq ht hgood hbody hc1 hn1 =>
          (GenWorldList_portal_preserves W (inLevel b n) _ hW.1
            (StepInv_level_cam_listed W b n (camFound W cam) (W.real_room x.dest_room))
            (camFound W cam) (fun _ hu => hu.1.2) fuel cr hcr t t1 c hcq
            ⟨ht, hgood hc1 hn1⟩ hbody).2)
        (fun t x t1 hx ht hbody hc1 hn1 => by
          have hd : inLevel b n (W.real_room x.dest_room) := hW.1 _ hcr x hx
          have hnt : nearTest W (camFound W cam) cr (W.real_room x.dest_room) = true :=
            (nearTest_iff W (camFound W cam) cr _).mpr hn1
          rw [GenWorldList_portal_fail W fuel (camFound W cam) cr t x hc1, if_pos hnt] at hbody
          obtain ⟨r3, ha3, hb3⟩ := Option.bind_eq_some.mp hbody
          have h3 := ListInv_listed_of_add W b n _ r3.1 _ r3.2
            ((StepInv_ListInv W b n).null _ _ hd ht.1) hd ha3
          have hc3 : r3.1.m_camera = some (camFound W cam) :=
            (AddRoom_camera W _ r3.1 _ r3.2 ha3).trans ht.2
          by_cases hret : r3.2 ≠ 0
          · rw [if_pos hret] at hb3
            exact (forEach_preserves (GenWorldList_near W fuel (camFound W cam))
              (fun u => (ListInv b n u ∧ u.m_camera = some (camFound W cam)) ∧
                inList u (W.real_room x.dest_room))
              (fun y => y ∈ W.portals (W.real_room x.dest_room))
              (fun u y u1 hy hu hbody1 =>
                GenWorldList_near_preserves W (inLevel b n) _ hW.1
                  (StepInv_level_cam_listed W b n (camFound W cam) (W.real_room x.dest_room))
                  (camFound W cam) (fun _ hv => hv.1.2) fuel _ hd u u1 y hy hu hbody1)
              _ r3.1 t1 (fun _ hy => hy) ⟨⟨h3.1, hc3⟩, h3.2⟩ hb3).2
          · rw [if_neg hret] at hb3
            simp only [Option.some.injEq] at hb3
            subst hb3
            exact h3.2)
        (W.portals cr) s4 s1 (fun _ hx => hx) h4 h
      exact key p hp hclip hbox
  · have hnt : nearTest W (camFound W cam) cr (W.real_room p.dest_room) = true :=
      (nearTest_iff W (camFound W cam) cr _).mpr hbox
    rw [GenWorldList_portal_fail W fuel (camFound W cam) cr t p hclip, if_pos hnt, hnear_eq]
  · have hnt : ¬ nearTest W (camFound W cam) cr (W.real_room p.dest_room) = true :=
      fun hh => hbox ((nearTest_iff W (camFound W cam) cr _).mp hh)
    rw [GenWorldList_portal_fail W fuel (camFound W cam) cr t p hclip, if_neg hnt]

theorem lvlAway_closed : LevelClosed lvlAway 0 3 := by
  refine ⟨?_, fun r hr => hr, ?_⟩
  · intro r hr p hp
    obtain ⟨-, h3⟩ := hr
    have h3n : r < 3 := by omega
    interval_cases r
    · simp [lvlAway, lvl3] at hp
      subst hp
      decide
    · simp [lvlAway, lvl3] at hp
      rcases hp with rfl | rfl <;> decide
    · simp [lvlAway, lvl3] at hp
      subst hp
      decide
  · intro pos hint cr hcr
    simp [lvlAway, lvl3] at hcr
    subst hcr
    decide

theorem boundary_heuristic_witness :
    ∃ s1, GenWorldList lvlAway 2 st3 camNear = some s1 ∧ inList s1 1 ∧
      GenWorldList_portal lvlAway 2 (camFound lvlAway cam0) 0 s1 { id := 0, dest_room := 1 } =
        some s1 := by
  have h := boundary_heuristic lvlAway 0 3 lvlAway_closed 2 st3 _ camNear 0 rfl rfl
    (by decide) rfl rfl { id := 0, dest_room := 1 } (by simp [lvlAway, lvl3]) rfl
  have h2 := boundary_heuristic lvlAway 0 3 lvlAway_closed 2 st3 _ cam0 0 rfl rfl
    (by decide) rfl rfl { id := 0, dest_room := 1 } (by simp [lvlAway, lvl3]) rfl
  refine ⟨_, rfl, (h.1 ?_).1, h2.2 ?_ _⟩
  · exact (nearTest_iff lvlAway camNear 0 1).mp rfl
  · intro hbox
    exact absurd ((nearTest_iff lvlAway cam0 0 1).mpr hbox) (by decide)

/-! ## The brute-force pass of `GenWorldList` -/

theorem sweep_cons (W : Level) (cam : camera_s) (b : Nat) (acc : List Nat) (i : Nat)
    (l : List Nat) :
    sweep W cam b acc (i :: l) =
      sweep W cam b
        (if boxVisible W cam (b + i) then
          (if W.real_room (b + i) ∈ acc then acc else acc ++ [W.real_room (b + i)])
        else acc) l := rfl

theorem sweep_mem (W : Level) (cam : camera_s) (b : Nat) (r : Nat) :
    ∀ (l acc : List Nat), r ∈ sweep W cam b acc l ↔
      r ∈ acc ∨ ∃ i ∈ l, boxVisible W cam (b + i) = true ∧ W.real_room (b + i) = r := by
  intro l
  induction l with
  | nil => intro acc; simp [sweep]
  | cons i l ih =>
    intro acc
    rw [sweep_cons, ih]
    by_cases hv : boxVisible W cam (b + i) = true
    · by_cases hm : W.real_room (b + i) ∈ acc
      · simp only [hv, hm, if_true, List.mem_cons, exists_eq_or_imp, true_and]
        constructor
        · rintro (h | h)
          · exact Or.inl h
          · exact Or.inr (Or.inr h)
        · rintro (h | h | h)
          · exact Or.inl h
          · exact Or.inl (h ▸ hm)
          · exact Or.inr h
      · simp only [hv, hm, if_true, if_false, List.mem_cons, exists_eq_or_imp, true_and,
          List.mem_append, List.mem_singleton]
        constructor
        · rintro ((h | h | h) | h)
          · exact Or.inl h
          · exact Or.inr (Or.inl h.symm)
          · exact absurd h (List.not_mem_nil _)
          · exact Or.inr (Or.inr h)
        · rintro (h | h | h)
          · exact Or.inl (Or.inl h)
          · exact Or.inl (Or.inr (Or.inl h.symm))
          · exact Or.inr h
    · simp only [hv, if_false, List.mem_cons, exists_eq_or_imp, false_and, false_or,
        Bool.false_eq_true]

theorem sweep_nodup (W : Level) (cam : camera_s) (b : Nat) :
    ∀ (l acc : List Nat), acc.Nodup → (sweep W cam b acc l).Nodup := by
  intro l
  induction l with
  | nil => intro acc h; exact h
  | cons i l ih =>
    intro acc h
    rw [sweep_cons]
    apply ih
    by_cases hv : boxVisible W cam (b + i) = true
    · by_cases hm : W.real_room (b + i) ∈ acc
      · simpa only [hv, hm, if_true] using h
      · simp only [hv, hm, if_true, if_false]
        exact List.Nodup.append h (List.nodup_singleton _) (by
          intro x hx hx1
          rw [List.mem_singleton] at hx1
          exact hm (hx1 ▸ hx))
    · simpa only [hv, if_false, Bool.false_eq_true] using h

theorem sweep_append (W : Level) (cam : camera_s) (b : Nat) (acc l1 l2 : List Nat) :
    sweep W cam b acc (l1 ++ l2) = sweep W cam b (sweep W cam b acc l1) l2 := by
  unfold sweep
  rw [List.foldl_append]

theorem sweep_range_self (W : Level) (cam : camera_s) (b n : Nat)
    (hself : ∀ i, i < n → W.real_room (b + i) = b + i) :
    sweep W cam b [] (List.range n) =
      ((List.range n).filter fun i => boxVisible W cam (b + i)).map fun i => b + i := by
  induction n with
  | zero => rfl
  | succ n ih =>
    rw [List.range_succ, sweep_append, ih (fun i hi => hself i (by omega)), sweep_cons,
      List.filter_append, List.map_append]
    by_cases hv : boxVisible W cam (b + n) = true
    · have hm : ¬ (b + n) ∈
          ((List.range n).filter fun i => boxVisible W cam (b + i)).map fun i => b + i := by
        intro hmem
        obtain ⟨i, hi, hbi⟩ := List.mem_map.mp hmem
        have hlt : i < n := List.mem_range.mp (List.mem_filter.mp hi).1
        omega
      simp only [hv, hself n (by omega), hm, if_true, if_false, List.filter_cons,
        List.filter_nil, List.map_cons, List.map_nil]
      rfl
    · simp only [hv, if_false, List.filter_cons, List.filter_nil, List.map_nil,
        List.append_nil, Bool.false_eq_true]
      rfl

theorem inList_iff_mem (s : CRender) (r : Nat) : inList s r ↔ some r ∈ activeRooms s := by
  unfold inList activeRooms
  simp only [List.mem_map, List.mem_range]

theorem GenWorldList_all_sweep (W : Level) (cam : camera_s) (b n : Nat)
    (hreal : ∀ i, i < n → inLevel b n (W.real_room (b + i))) :
    ∀ (l acc : List Nat) (t : CRender), (∀ i ∈ l, i < n) → ListInv b n t →
      t.m_camera = some cam → activeRooms t = acc.map some →
      ∃ t1, forEach (GenWorldList_all W cam b) l t = some t1 ∧ ListInv b n t1 ∧
        t1.m_camera = some cam ∧ activeRooms t1 = (sweep W cam b acc l).map some ∧
        t1.room_frustum = t.room_frustum := by
  intro l
  induction l with
  | nil => intro acc t _ ht hc ha; exact ⟨t, rfl, ht, hc, ha, rfl⟩
  | cons i l ih =>
    intro acc t hl ht hc ha
    have hi : i < n := hl i (List.mem_cons_self _ _)
    have hl1 : ∀ j ∈ l, j < n := fun j hj => hl j (List.mem_cons_of_mem _ hj)
    have hr : inLevel b n (W.real_room (b + i)) := hreal i hi
    rw [sweep_cons]
    by_cases hv : boxVisible W cam (b + i) = true
    · have hbody : GenWorldList_all W cam b t i =
          (AddRoom W t (W.real_room (b + i))).bind fun r1 => some r1.1 := by
        have hv1 : W.Frustum_IsAABBVisible (W.bb_min (b + i)) (W.bb_max (b + i)) cam.frustum =
            true := hv
        unfold GenWorldList_all
        simp only
        rw [if_pos hv1]
        cases AddRoom W t (W.real_room (b + i)) with
        | none => rfl
        | some r1 => rfl
      by_cases hm : W.real_room (b + i) ∈ acc
      · have hin : inList t (W.real_room (b + i)) := by
          rw [inList_iff_mem, ha]
          exact List.mem_map.mpr ⟨_, hm, rfl⟩
        have hflag := (ListInv_iff b n t ht _ hr).mpr hin
        simp only [forEach, hbody, AddRoom_of_flag W t _ hflag, Option.some_bind, hv, hm,
          if_true]
        exact ih acc t hl1 ht hc ha
      · have hflag : t.room_is_in_r_list (W.real_room (b + i)) = 0 := by
          by_contra hne
          have hin := (ListInv_iff b n t ht _ hr).mp hne
          rw [inList_iff_mem, ha] at hin
          obtain ⟨x, hx, hxe⟩ := List.mem_map.mp hin
          simp only [Option.some.injEq] at hxe
          exact hm (hxe ▸ hx)
        have hcap : t.r_list_active_count < t.r_list_size :=
          lt_of_lt_of_le (ListInv_room_left b n t _ ht hr hflag) ht.2.2.1
        obtain ⟨t2, e2, act2, -, -, cam2, fr2, -⟩ := AddRoom_fresh W t _ cam hc hflag hcap
        have ht2 : ListInv b n t2 := (StepInv_ListInv W b n).add t _ t2 1 hr ht e2
        simp only [forEach, hbody, e2, Option.some_bind, hv, hm, if_true, if_false]
        obtain ⟨t1, e1, i1, c1, a1, f1⟩ := ih (acc ++ [W.real_room (b + i)]) t2 hl1 ht2 cam2
          (by rw [act2, ha, List.map_append]; rfl)
        exact ⟨t1, e1, i1, c1, a1, f1.trans fr2⟩
    · have hbody : GenWorldList_all W cam b t i = some t := by
        have hv1 : ¬ W.Frustum_IsAABBVisible (W.bb_min (b + i)) (W.bb_max (b + i)) cam.frustum =
            true := hv
        unfold GenWorldList_all
        simp only
        rw [if_neg hv1]
      simp only [forEach, hbody, hv, if_false, Bool.false_eq_true]
      exact ih acc t hl1 ht hc ha

theorem GenWorldList_all_clip (W : Level) (c : camera_s → portal_s → Frustum → Option Frustum) :
    GenWorldList_all { W with clip := c } = GenWorldList_all W := rfl

/-- C15 (as stated, refuted): in `lvlFlip` no room is found for the camera, the box of
room `0` is visible and the box of room `1` is not, and after `GenWorldList` the active
render list is `[1]`: it holds `real_room` of room `0`, not room `0`. -/
theorem brute_force_lists_real_room :
    lvlFlip.World_FindRoomByPosCogerrence cam0.pos cam0.current_room = none ∧
    boxVisible lvlFlip cam0 0 = true ∧ boxVisible lvlFlip cam0 1 = false ∧
    ∃ s1, GenWorldList lvlFlip 0 st3 cam0 = some s1 ∧ activeRooms s1 = [some 1] :=
  ⟨rfl, rfl, rfl, _, rfl, rfl⟩

/-- C15 (amended): on a level of `n` rooms at `b` whose `real_room` links stay in the level,
with a list of capacity `n` or more, when the room lookup finds no room `GenWorldList`
returns and the active render list holds, each once, exactly the rooms that are `real_room`
of a room of the level whose bounding box is visible in the camera frustum; when every
room of the level is its own `real_room` the list is the visible rooms in room-index
order. The result is the same whatever the portal clip would give, and the frustum chain
of every room of the level is null. -/
theorem brute_force_pass (W : Level) (fuel : Nat) (s : CRender) (cam : camera_s) (b n : Nat)
    (hb : s.m_rooms = some b) (hn : s.m_rooms_count = n) (hsz : n ≤ s.r_list_size)
    (hl : W.World_FindRoomByPosCogerrence cam.pos cam.current_room = none)
    (hreal : ∀ i, i < n → inLevel b n (W.real_room (b + i))) :
    ∃ s1, GenWorldList W fuel s cam = some s1 ∧
      (activeRooms s1).Nodup ∧
      (∀ r, inList s1 r ↔
        ∃ i, i < n ∧ boxVisible W cam (b + i) = true ∧ W.real_room (b + i) = r) ∧
      ((∀ i, i < n → W.real_room (b + i) = b + i) →
        activeRooms s1 =
          ((List.range n).filter fun i => boxVisible W cam (b + i)).map fun i => some (b + i)) ∧
      (∀ c, GenWorldList { W with clip := c } fuel s cam = some s1) ∧
      (∀ r, inLevel b n r → s1.room_frustum r = []) := by
  have h0 : ListInv b n (passStart W s cam) := CleanList_ListInv W b n s hb hn hsz
  obtain ⟨s1, e1, -, -, a1, f1⟩ := GenWorldList_all_sweep W (camFound W cam) b n hreal
    (List.range n) [] (passStart W s cam) (fun i hi => List.mem_range.mp hi) h0 rfl rfl
  have hsw : sweep W (camFound W cam) b [] (List.range n) = sweep W cam b [] (List.range n) :=
    rfl
  rw [hsw] at a1
  have hrun : GenWorldList W fuel s cam = some s1 := by
    rw [GenWorldList_of_rooms W fuel s cam b hb, hl]
    simp only
    rw [hn]
    exact e1
  refine ⟨s1, hrun, ?_, ?_, ?_, ?_, ?_⟩
  · rw [a1]
    exact (sweep_nodup W cam b _ [] List.nodup_nil).map (Option.some_injective _)
  · intro r
    rw [inList_iff_mem, a1, List.mem_map_of_injective (Option.some_injective _), sweep_mem]
    simp only [List.not_mem_nil, false_or, List.mem_range]
  · intro hself
    rw [a1, sweep_range_self W cam b n hself, List.map_map]
    rfl
  · intro c
    have hlc : ({ W with clip := c } : Level).World_FindRoomByPosCogerrence cam.pos
        cam.current_room = none := hl
    rw [GenWorldList_of_rooms _ fuel s cam b hb, hlc]
    simp only
    rw [hn, GenWorldList_all_clip]
    exact e1
  · intro r hr
    rw [f1]
    have hlev : isLevelRoom s r = true := (isLevelRoom_iff s b r hb).mpr (hn ▸ hr)
    show (if isLevelRoom s r then [] else s.room_frustum r) = []
    rw [if_pos hlev]

theorem brute_force_pass_witness :
    ∃ s1, GenWorldList lvlOut 0 st3 cam0 = some s1 ∧ activeRooms s1 = [some 0, some 2] := by
  obtain ⟨s1, h, -, -, hself, -, -⟩ := brute_force_pass lvlOut 0 st3 cam0 0 3 rfl rfl
    (by decide) rfl (fun i hi => by
      show inLevel 0 3 (0 + i)
      unfold inLevel
      omega)
  exact ⟨s1, h, (hself (fun i _ => rfl)).trans rfl⟩

/-! ## Rooms with a null frustum chain -/

theorem ProcessRoom_body_visits (W : Level) (P : CRender → Prop)
    (hvisit : ∀ s p g s1 n, P s →
      AddRoom W (linkFrustum W s p g) (W.real_room p.dest_room) = some (s1, n) → P s1)
    (rec : CRender → portal_s → Frustum → Option (CRender × Nat))
    (hrec : ∀ s p f s1 n, P s → rec s p f = some (s1, n) → P s1)
    (frus : Frustum) (acc acc1 : CRender × Nat) (p : portal_s) (hacc : P acc.1)
    (h : ProcessRoom_body W rec frus acc p = some acc1) : P acc1.1 := by
  cases hcam : acc.1.m_camera with
  | none => simp [ProcessRoom_body, hcam] at h
  | some cam =>
    cases hclip : W.clip cam p frus with
    | none =>
      rw [ProcessRoom_body_fail W rec frus acc p cam hcam hclip] at h
      simp only [Option.some.injEq] at h
      subst h
      exact hacc
    | some g =>
      rw [ProcessRoom_body_ok W rec frus g acc p cam hcam hclip] at h
      obtain ⟨r2, ha, h2⟩ := Option.bind_eq_some.mp h
      obtain ⟨r3, hp, h3⟩ := Option.bind_eq_some.mp h2
      simp only [Option.some.injEq] at h3
      subst h3
      exact hrec r2.1 p g r3.1 r3.2 (hvisit acc.1 p g r2.1 r2.2 hacc ha) hp

theorem ProcessRoom_visits (W : Level) (P : CRender → Prop)
    (hvisit : ∀ s p g s1 n, P s →
      AddRoom W (linkFrustum W s p g) (W.real_room p.dest_room) = some (s1, n) → P s1) :
    ∀ (fuel : Nat) (s : CRender) (p : portal_s) (f : Frustum) (s1 : CRender) (n : Nat),
      P s → ProcessRoom W fuel s p f = some (s1, n) → P s1 := by
  intro fuel
  induction fuel with
  | zero =>
    intro s p f s1 n _ h
    simp [ProcessRoom] at h
  | succ fuel ih =>
    intro s p f s1 n hs h
    rw [ProcessRoom_succ] at h
    split at h
    · simp only [Option.some.injEq, Prod.mk.injEq] at h
      obtain ⟨rfl, -⟩ := h
      exact hs
    · exact forEach_preserves (ProcessRoom_body W (ProcessRoom W fuel) f) (fun acc => P acc.1)
        (fun _ => True)
        (fun acc q acc1 _ hacc hb =>
          ProcessRoom_body_visits W P hvisit (ProcessRoom W fuel) ih f acc acc1 q hacc hb)
        (W.portals (W.real_room p.dest_room)) (s, 0) (s1, n) (fun _ _ => trivial) hs h

theorem GenWorldList_near_visits (W : Level) (P : CRender → Prop)
    (hvisit : ∀ s p g s1 n, P s →
      AddRoom W (linkFrustum W s p g) (W.real_room p.dest_room) = some (s1, n) → P s1)
    (fuel : Nat) (cam : camera_s) (s s1 : CRender) (np : portal_s) (hs : P s)
    (h : GenWorldList_near W fuel cam s np = some s1) : P s1 := by
  cases hclip : W.clip cam np cam.frustum with
  | none =>
    rw [GenWorldList_near_fail W fuel cam s np hclip] at h
    simp only [Option.some.injEq] at h
    subst h
    exact hs
  | some g =>
    rw [GenWorldList_near_ok W fuel cam s np g hclip] at h
    obtain ⟨r2, ha, h2⟩ := Option.bind_eq_some.mp h
    obtain ⟨r3, hp, h3⟩ := Option.bind_eq_some.mp h2
    simp only [Option.some.injEq] at h3
    subst h3
    exact ProcessRoom_visits W P hvisit fuel r2.1 np g r3.1 r3.2
      (hvisit s np g r2.1 r2.2 hs ha) hp

theorem GenWorldList_portal_visits (W : Level) (P : CRender → Prop)
    (hvisit : ∀ s p g s1 n, P s →
      AddRoom W (linkFrustum W s p g) (W.real_room p.dest_room) = some (s1, n) → P s1)
    (fuel : Nat) (cam : camera_s) (cr : Nat)
    (hnear : ∀ s p s1 n, p ∈ W.portals cr → W.clip cam p cam.frustum = none →
      nearTest W cam cr (W.real_room p.dest_room) = true → P s →
      AddRoom W (setFrustumNull s (W.real_room p.dest_room)) (W.real_room p.dest_room) =
        some (s1, n) → P s1)
    (s s1 : CRender) (p : portal_s) (hp : p ∈ W.portals cr) (hs : P s)
    (h : GenWorldList_portal W fuel cam cr s p = some s1) : P s1 := by
  cases hclip : W.clip cam p cam.frustum with
  | none =>
    rw [GenWorldList_portal_fail W fuel cam cr s p hclip] at h
    by_cases hnt : nearTest W cam cr (W.real_room p.dest_room) = true
    · rw [if_pos hnt] at h
      obtain ⟨r3, ha3, hb3⟩ := Option.bind_eq_some.mp h
      have h3 : P r3.1 := hnear s p r3.1 r3.2 hp hclip hnt hs ha3
      by_cases hret : r3.2 ≠ 0
      · rw [if_pos hret] at hb3
        exact forEach_preserves (GenWorldList_near W fuel cam) P (fun _ => True)
          (fun u y u1 _ hu hbody => GenWorldList_near_visits W P hvisit fuel cam u u1 y hu hbody)
          _ r3.1 s1 (fun _ _ => trivial) h3 hb3
      · rw [if_neg hret] at hb3
        simp only [Option.some.injEq] at hb3
        subst hb3
        exact h3
    · rw [if_neg hnt] at h
      simp only [Option.some.injEq] at h
      subst h
      exact hs
  | some g =>
    rw [GenWorldList_portal_ok W fuel cam cr s p g hclip] at h
    obtain ⟨r2, ha, h2⟩ := Option.bind_eq_some.mp h
    obtain ⟨r3, hpr, h3⟩ := Option.bind_eq_some.mp h2
    simp only [Option.some.injEq] at h3
    subst h3
    exact ProcessRoom_visits W P hvisit fuel r2.1 p g r3.1 r3.2
      (hvisit s p g r2.1 r2.2 hs ha) hpr

theorem AddRoom_listed (W : Level) (s s1 : CRender) (d n : Nat)
    (h : AddRoom W s d = some (s1, n)) :
    (∀ r, inList s1 r → inList s r ∨ r = d) ∧ s1.room_frustum = s.room_frustum := by
  by_cases hflag : s.room_is_in_r_list d = 0
  · obtain ⟨cam, hc⟩ := AddRoom_camera_of_clear W s s1 d n h hflag
    by_cases hcap : s.r_list_active_count < s.r_list_size
    · rw [AddRoom_new W s d cam hc hflag hcap] at h
      simp only [Option.some.injEq, Prod.mk.injEq] at h
      obtain ⟨rfl, -⟩ := h
      refine ⟨?_, rfl⟩
      rintro r ⟨i, hi, hri⟩
      simp only at hi hri
      by_cases hic : i = s.r_list_active_count
      · rw [if_pos hic] at hri
        simp only [Option.some.injEq] at hri
        exact Or.inr hri.symm
      · rw [if_neg hic] at hri
        exact Or.inl ⟨i, by omega, hri⟩
    · rw [AddRoom_full W s d cam hc hflag hcap] at h
      simp only [Option.some.injEq, Prod.mk.injEq] at h
      obtain ⟨rfl, -⟩ := h
      exact ⟨fun r hr => Or.inl hr, rfl⟩
  · rw [AddRoom_of_flag W s d hflag] at h
    simp only [Option.some.injEq, Prod.mk.injEq] at h
    obtain ⟨rfl, -⟩ := h
    exact ⟨fun r hr => Or.inl hr, rfl⟩

theorem NullOnly_visit (W : Level) (cam : camera_s) (cr : Nat) (s : CRender) (p : portal_s)
    (g : Frustum) (s1 : CRender) (n : Nat) (hs : NullOnly W cam cr s)
    (ha : AddRoom W (linkFrustum W s p g) (W.real_room p.dest_room) = some (s1, n)) :
    NullOnly W cam cr s1 := by
  obtain ⟨hlist, hfr⟩ := AddRoom_listed W _ s1 _ n ha
  intro r hin hnil
  rw [hfr] at hnil
  have hnil1 : (if r = W.real_room p.dest_room then s.room_frustum r ++ [g]
      else s.room_frustum r) = [] := hnil
  by_cases hrd : r = W.real_room p.dest_room
  · rw [if_pos hrd] at hnil1
    exact absurd hnil1 (by simp)
  · rw [if_neg hrd] at hnil1
    rcases hlist r hin with h | h
    · exact hs r h hnil1
    · exact absurd h hrd

theorem NullOnly_near (W : Level) (cam : camera_s) (cr : Nat) (s : CRender) (p : portal_s)
    (s1 : CRender) (n : Nat) (hp : p ∈ W.portals cr) (hclip : W.clip cam p cam.frustum = none)
    (hnt : nearTest W cam cr (W.real_room p.dest_room) = true) (hs : NullOnly W cam cr s)
    (ha : AddRoom W (setFrustumNull s (W.real_room p.dest_room)) (W.real_room p.dest_room) =
      some (s1, n)) :
    NullOnly W cam cr s1 := by
  obtain ⟨hlist, hfr⟩ := AddRoom_listed W _ s1 _ n ha
  intro r hin hnil
  by_cases hrd : r = W.real_room p.dest_room
  · exact Or.inr ⟨p, hp, hclip, hnt, hrd.symm⟩
  · rw [hfr] at hnil
    have hnil1 : (if r = W.real_room p.dest_room then [] else s.room_frustum r) = [] := hnil
    rw [if_neg hrd] at hnil1
    rcases hlist r hin with h | h
    · exact hs r h hnil1
    · exact absurd h hrd

/-- C16 (as stated, refuted): in `lvlSide` the camera is found in room `0`, the clip of the
portal from room `1` to room `2` succeeds, and after `GenWorldList` room `1`, which is not
the room of the camera, is in the active render list with a null frustum chain. -/
theorem null_chain_beside_camera_room :
    lvlSide.World_FindRoomByPosCogerrence camNear.pos camNear.current_room = some 0 ∧
    lvlSide.clip (camFound lvlSide camNear) { id := 2, dest_room := 2 } camNear.frustum =
      some 2 ∧
    ∃ s1, GenWorldList lvlSide 2 st3 camNear = some s1 ∧
      activeRooms s1 = [some 0, some 1, some 2] ∧ s1.room_frustum 1 = [] ∧
      s1.room_frustum 2 = [2] :=
  ⟨rfl, rfl, _, rfl, rfl, rfl, rfl⟩

/-- C16 (amended): after a `GenWorldList` that returns with the camera found in a room,
every room of the active render list whose frustum chain is null is the room of the camera
or a room admitted by the boundary heuristic (the destination of a portal of the camera
room whose clip against the camera frustum failed while the test of lines 262-265 held: on
every axis the camera position at most the `float` sum `bb_max + eps` and at least the
`float` difference `bb_min - eps` of the box of the destination, and the destination not in
the overlapped-room list); every other listed room has a non-empty chain. -/
theorem null_chain_rooms (W : Level) (fuel : Nat) (s s1 : CRender) (cam : camera_s) (cr : Nat)
    (hl : W.World_FindRoomByPosCogerrence cam.pos cam.current_room = some cr)
    (h : GenWorldList W fuel s cam = some s1) (r : Nat) (hin : inList s1 r) :
    (s1.room_frustum r = [] → r = cr ∨ NearRoom W (camFound W cam) cr r) ∧
    (r ≠ cr → ¬ NearRoom W (camFound W cam) cr r → s1.room_frustum r ≠ []) := by
  have key : NullOnly W (camFound W cam) cr s1 := by
    cases hb : s.m_rooms with
    | none =>
      rw [GenWorldList_of_null W fuel s cam hb] at h
      simp only [Option.some.injEq] at h
      subst h
      rintro x ⟨i, hi, -⟩
      exact absurd hi (Nat.not_lt_zero i)
    | some b =>
      rw [GenWorldList_of_rooms W fuel s cam b hb, hl] at h
      simp only at h
      split at h
      · exact absurd h (by simp)
      · next s4 n4 ha =>
        have h4 : NullOnly W (camFound W cam) cr s4 := by
          intro x hx _
          rcases (AddRoom_listed W _ s4 cr n4 ha).1 x hx with ⟨i, hi, -⟩ | hxc
          · exact absurd hi (Nat.not_lt_zero i)
          · exact Or.inl hxc
        exact forEach_preserves (GenWorldList_portal W fuel (camFound W cam) cr)
          (NullOnly W (camFound W cam) cr) (fun q => q ∈ W.portals cr)
          (fun a q a1 hq ha1 hbody =>
            GenWorldList_portal_visits W _ (NullOnly_visit W (camFound W cam) cr) fuel
              (camFound W cam) cr
              (fun u p u1 n hp hc hn hu hadd =>
                NullOnly_near W (camFound W cam) cr u p u1 n hp hc hn hu hadd)
              a a1 q hq ha1 hbody)
          _ s4 s1 (fun _ hq => hq) h4 h
  refine ⟨key r hin, fun hne hnn hnil => ?_⟩
  rcases key r hin hnil with h1 | h1
  · exact hne h1
  · exact hnn h1

theorem null_chain_rooms_witness :
    ∃ s1, GenWorldList lvlSide 2 st3 camNear = some s1 ∧ inList s1 1 ∧
      s1.room_frustum 1 = [] ∧ NearRoom lvlSide (camFound lvlSide camNear) 0 1 := by
  have hin : inList ((GenWorldList lvlSide 2 st3 camNear).getD st3) 1 := ⟨1, by decide, rfl⟩
  have h := (null_chain_rooms lvlSide 2 st3 _ camNear 0 rfl rfl 1 hin).1 rfl
  exact ⟨_, rfl, hin, rfl, h.resolve_left (by decide)⟩

/-! ## The two traversals of the BSP tree -/

theorem reverse_of_length_le_one {α : Type} (l : List α) (h : l.length ≤ 1) : l.reverse = l := by
  match l, h with
  | [], _ => rfl
  | [_], _ => rfl

theorem drawn_DrawBSPFrontToBack (E : DrawEnv) (t : bsp_node_p) :
    ∀ st : DrawState, ∃ l, drawn (DrawBSPFrontToBack E t st) = drawn st ++ l ∧
      l.Perm (storedPolygons t) ∧ (SmallBuckets t → l = (backToFrontOrder E t).reverse) := by
  induction t with
  | null =>
    intro st
    exact ⟨[], by simp [DrawBSPFrontToBack], by simp [storedPolygons], fun _ => by
      simp [backToFrontOrder]⟩
  | node plane front back pf pb ihf ihb =>
    intro st
    unfold DrawBSPFrontToBack backToFrontOrder storedPolygons
    by_cases hd : E.vec3_plane_dist plane E.engine_camera_pos ≥ 0
    · simp only [if_pos hd]
      obtain ⟨lf, ef, pfm, rf⟩ := ihf st
      obtain ⟨lb, eb, pbm, rb⟩ :=
        ihb (pb.foldl (DrawBSPPolygon E) (pf.foldl (DrawBSPPolygon E) (DrawBSPFrontToBack E front st)))
      refine ⟨lf ++ pf ++ pb ++ lb, ?_, ?_, ?_⟩
      · rw [eb, drawn_foldl, drawn_foldl, ef]
        simp only [List.append_assoc]
      · have h1 : (lf ++ pf ++ pb ++ lb).Perm (pf ++ pb ++ lf ++ lb) := by
          have a : (lf ++ (pf ++ pb)).Perm (pf ++ pb ++ lf) := List.perm_append_comm
          have b := List.Perm.append_right lb a
          simpa only [List.append_assoc] using b
        exact h1.trans ((List.Perm.append_left _ pfm).append pbm)
      · rintro ⟨h1, h2, h3, h4⟩
        rw [rf h3, rb h4]
        have e1 : pf.reverse = pf := reverse_of_length_le_one _ h1
        have e2 : pb.reverse = pb := reverse_of_length_le_one _ h2
        simp only [List.reverse_append, e1, e2, List.append_assoc]
    · simp only [if_neg hd]
      obtain ⟨lb, eb, pbm, rb⟩ := ihb st
      obtain ⟨lf, ef, pfm, rf⟩ :=
        ihf (pf.foldl (DrawBSPPolygon E) (pb.foldl (DrawBSPPolygon E) (DrawBSPFrontToBack E back st)))
      refine ⟨lb ++ pb ++ pf ++ lf, ?_, ?_, ?_⟩
      · rw [ef, drawn_foldl, drawn_foldl, eb]
        simp only [List.append_assoc]
      · have h1 : (lb ++ pb ++ pf ++ lf).Perm (pf ++ pb ++ lf ++ lb) := by
          have a : (lb ++ (pb ++ pf ++ lf)).Perm (pb ++ pf ++ lf ++ lb) := List.perm_append_comm
          have b : (pb ++ pf ++ lf ++ lb).Perm (pf ++ pb ++ lf ++ lb) :=
            List.Perm.append_right lb (List.Perm.append_right lf List.perm_append_comm)
          simpa only [List.append_assoc] using a.trans b
        exact h1.trans ((List.Perm.append_left _ pfm).append pbm)
      · rintro ⟨h1, h2, h3, h4⟩
        rw [rf h3, rb h4]
        have e1 : pf.reverse = pf := reverse_of_length_le_one _ h1
        have e2 : pb.reverse = pb := reverse_of_length_le_one _ h2
        simp only [List.reverse_append, e1, e2, List.append_assoc]

theorem backToFrontOrder_perm (E : DrawEnv) (t : bsp_node_p) :
    (backToFrontOrder E t).Perm (storedPolygons t) := by
  induction t with
  | null => simp [backToFrontOrder, storedPolygons]
  | node plane front back pf pb ihf ihb =>
    unfold backToFrontOrder storedPolygons
    by_cases hd : E.vec3_plane_dist plane E.engine_camera_pos ≥ 0
    · simp only [if_pos hd]
      have a : (backToFrontOrder E back ++ (pb ++ pf ++ backToFrontOrder E front)).Perm
          (pb ++ pf ++ backToFrontOrder E front ++ backToFrontOrder E back) :=
        List.perm_append_comm
      have b : (pb ++ pf ++ backToFrontOrder E front ++ backToFrontOrder E back).Perm
          (pf ++ pb ++ backToFrontOrder E front ++ backToFrontOrder E back) :=
        List.Perm.append_right _ (List.Perm.append_right _ List.perm_append_comm)
      have c := a.trans b
      simp only [List.append_assoc] at c ⊢
      exact c.trans (List.Perm.append_left _ (List.Perm.append_left _ (ihf.append ihb)))
    · simp only [if_neg hd]
      have a : (backToFrontOrder E front ++ (pf ++ pb)).Perm
          (pf ++ pb ++ backToFrontOrder E front) := List.perm_append_comm
      have c := List.Perm.append_right (backToFrontOrder E back) a
      simp only [List.append_assoc] at c ⊢
      exact c.trans (List.Perm.append_left _ (List.Perm.append_left _ (ihf.append ihb)))

/-- C25: for every BSP tree and every camera position, the sequence emitted by
`DrawBSPBackToFront` and the sequence emitted by `DrawBSPFrontToBack` are each a
permutation of the polygons stored in the buckets of the nodes (every stored polygon is
emitted exactly once), hence permutations of each other. -/
theorem traversals_emit_each_polygon_once (E : DrawEnv) (t : bsp_node_p) :
    (emitted E t).Perm (storedPolygons t) ∧ (emittedFrontToBack E t).Perm (storedPolygons t) ∧
    (emittedFrontToBack E t).Perm (emitted E t) := by
  have hb : (emitted E t).Perm (storedPolygons t) := by
    rw [emitted_eq]
    exact backToFrontOrder_perm E t
  have hf : (emittedFrontToBack E t).Perm (storedPolygons t) := by
    obtain ⟨l, e, p, -⟩ := drawn_DrawBSPFrontToBack E t DrawState.start
    unfold emittedFrontToBack
    rw [e]
    exact p
  exact ⟨hb, hf, hf.trans hb.symm⟩

/-- C26: for every BSP tree in which each bucket holds at most one polygon, and every
camera position, the sequence emitted by `DrawBSPFrontToBack` is the reverse of the
sequence emitted by `DrawBSPBackToFront`. -/
theorem front_to_back_is_reverse (E : DrawEnv) (t : bsp_node_p) (h : SmallBuckets t) :
    emittedFrontToBack E t = (emitted E t).reverse := by
  obtain ⟨l, e, -, r⟩ := drawn_DrawBSPFrontToBack E t DrawState.start
  unfold emittedFrontToBack
  rw [e, r h, emitted_eq]
  rfl

theorem front_to_back_is_reverse_witness :
    emittedFrontToBack envOrigin treeStack = [quadAt 100, quadAt 200, quadAt 300] ∧
    emitted envOrigin treeStack = [quadAt 300, quadAt 200, quadAt 100] := by
  have h := front_to_back_is_reverse envOrigin treeStack (by
    simp [SmallBuckets, treeStack])
  have hb : emitted envOrigin treeStack = [quadAt 300, quadAt 200, quadAt 100] := by
    rw [emitted_eq]
    have hd : ¬ planeDist (plane4 1 0 0 (-200)) (vec3 0 0 0) ≥ 0 := by decide
    have hd3 : ¬ planeDist (plane4 1 0 0 (-300)) (vec3 0 0 0) ≥ 0 := by decide
    have hd1 : ¬ planeDist (plane4 1 0 0 (-100)) (vec3 0 0 0) ≥ 0 := by decide
    simp [treeStack, backToFrontOrder, envOrigin, hd, hd1, hd3]
  exact ⟨by rw [h, hb]; rfl, hb⟩

/-! ## The calls recorded while the render list is drawn -/

theorem methodsOf_append (l1 l2 : List GLCall) :
    methodsOf (l1 ++ l2) = methodsOf l1 ++ methodsOf l2 := by
  unfold methodsOf
  rw [List.filterMap_append]

theorem entered_enter (st : DrawState) (m : Method) : entered (enter st m) = entered st ++ [m] := by
  unfold entered enter
  rw [methodsOf_append]
  rfl

theorem foldl_entered {α : Type} (f : DrawState → α → DrawState) (g : α → List Method)
    (h : ∀ t a, entered (f t a) = entered t ++ g a) :
    ∀ (l : List α) (st : DrawState), entered (l.foldl f st) = entered st ++ gather g l := by
  intro l
  induction l with
  | nil => intro st; simp [gather]
  | cons a l ih =>
    intro st
    rw [List.foldl_cons, ih, h]
    simp [gather]

theorem foldl_entered_same {α : Type} (f : DrawState → α → DrawState)
    (h : ∀ t a, entered (f t a) = entered t) :
    ∀ (l : List α) (st : DrawState), entered (l.foldl f st) = entered st := by
  intro l
  induction l with
  | nil => intro st; rfl
  | cons a l ih =>
    intro st
    rw [List.foldl_cons, ih, h]

theorem forEach_entered {α : Type} (body : DrawState → α → Option DrawState)
    (g : α → List Method)
    (h : ∀ t a t1, body t a = some t1 → entered t1 = entered t ++ g a) :
    ∀ (l : List α) (st st1 : DrawState), forEach body l st = some st1 →
      entered st1 = entered st ++ gather g l := by
  intro l
  induction l with
  | nil =>
    intro st st1 hrun
    simp only [forEach, Option.some.injEq] at hrun
    subst hrun
    simp [gather]
  | cons a l ih =>
    intro st st1 hrun
    simp only [forEach] at hrun
    split at hrun
    · exact absurd hrun (by simp)
    · next t hb =>
      rw [ih t st1 hrun, h st a t hb]
      simp [gather]

theorem entered_DrawMesh_face (st : DrawState) (face : mesh_face_s) :
    entered (DrawMesh_face st face) = entered st := by
  unfold DrawMesh_face entered
  simp only
  split <;> simp [methodsOf, List.filterMap_append]

theorem entered_DrawMesh (st : DrawState) (mesh : base_mesh_s) :
    entered (DrawMesh st mesh) = entered st := by
  unfold DrawMesh
  simp only
  split <;> split <;> simp only [foldl_entered_same DrawMesh_face entered_DrawMesh_face]

theorem entered_DrawSkeletalModel_tag (st : DrawState) (btag : ss_bone_tag_s) :
    entered (DrawSkeletalModel_tag st btag) = entered st := by
  unfold DrawSkeletalModel_tag
  simp only
  split
  · split <;> split <;> (try split) <;> simp only [entered_DrawMesh]
  · rfl

theorem entered_DrawEntity (Sc : Scene) (s : CRender) (st st1 : DrawState) (entity : entity_s)
    (h : DrawEntity Sc s st entity = some st1) :
    entered st1 = entered st ++ [Method.DrawEntity entity] := by
  unfold DrawEntity at h
  simp only at h
  split at h
  · simp only [Option.some.injEq] at h
    subst h
    exact entered_enter st _
  · split at h
    · exact absurd h (by simp)
    · split at h
      · simp only [Option.some.injEq] at h
        subst h
        exact entered_enter st _
      · split at h
        · simp only [Option.some.injEq] at h
          subst h
          rw [foldl_entered_same _ (fun t hair =>
              foldl_entered_same DrawMesh entered_DrawMesh hair t),
            foldl_entered_same _ entered_DrawSkeletalModel_tag, entered_enter]
        · simp only [Option.some.injEq] at h
          subst h
          exact entered_enter st _

theorem entered_DrawRoom_stencil (W : Level) (Sc : Scene) (s : CRender) (st : DrawState)
    (room : Nat) : entered (DrawRoom_stencil W Sc s st room) = entered st := by
  unfold DrawRoom_stencil
  split
  · apply foldl_entered_same
    intro t _
    simp [entered, methodsOf, List.filterMap_append]
  · rfl

theorem entered_DrawRoom_near (W : Level) (Sc : Scene) (s : CRender) (cam : camera_s)
    (room : Nat) (st st1 : DrawState) (ni : Nat)
    (h : DrawRoom_near W Sc s cam room st ni = some st1) :
    entered st1 = entered st ++ DrawRoom_near_calls W Sc s cam room ni := by
  unfold DrawRoom_near at h
  unfold DrawRoom_near_calls
  simp only at h
  by_cases hf : s.room_is_in_r_list ni = 0
  · rw [if_pos hf] at h
    rw [if_pos hf, forEach_entered _ _ ?_ _ _ st1 h, foldl_entered _ _ ?_, List.append_assoc]
    · intro t sm
      unfold DrawRoom_near_static
      split
      · rw [entered_DrawMesh, entered_enter]
      · simp
    · intro t cont t1 hb
      unfold DrawRoom_near_container at hb
      by_cases h1 : cont.object_type = Sc.OBJECT_ENTITY
      · by_cases h2 : Sc.OBB_OBB_Test cont.object.obb (Sc.room_obb room) = true ∧
            Sc.Frustum_IsOBBVisibleInFrustumList cont.object.obb (frustumList s cam room) = true
        · rw [if_pos h1, if_pos h2] at hb
          rw [if_pos ⟨h1, h2⟩]
          exact entered_DrawEntity Sc s t t1 _ hb
        · rw [if_pos h1, if_neg h2] at hb
          simp only [Option.some.injEq] at hb
          subst hb
          rw [if_neg (fun hh => h2 hh.2)]
          simp
      · rw [if_neg h1] at hb
        simp only [Option.some.injEq] at hb
        subst hb
        rw [if_neg (fun hh => h1 hh.1)]
        simp
  · rw [if_neg hf] at h
    simp only [Option.some.injEq] at h
    subst h
    rw [if_neg hf]
    simp

theorem entered_DrawRoom (W : Level) (Sc : Scene) (s : CRender) (cam : camera_s)
    (st st1 : DrawState) (room : Nat) (h : DrawRoom W Sc s cam st room = some st1) :
    entered st1 = entered st ++ DrawRoom_calls W Sc s cam room := by
  unfold DrawRoom at h
  simp only at h
  obtain ⟨st4, h4, h5⟩ := Option.bind_eq_some.mp h
  have e5 := forEach_entered _ _
    (fun t ni t1 hb => entered_DrawRoom_near W Sc s cam room t t1 ni hb) _ _ st1 h5
  have e4 := forEach_entered (DrawRoom_container Sc s cam room)
    (fun cont =>
      if cont.object_type = Sc.OBJECT_ENTITY ∧
          Sc.Frustum_IsOBBVisibleInFrustumList cont.object.obb (frustumList s cam room) = true then
        [Method.DrawEntity cont.object]
      else []) (by
      intro t cont t1 hb
      beta_reduce
      unfold DrawRoom_container at hb
      by_cases h1 : cont.object_type = Sc.OBJECT_ENTITY
      · by_cases h2 : Sc.Frustum_IsOBBVisibleInFrustumList cont.object.obb
            (frustumList s cam room) = true
        · rw [if_pos h1, if_pos h2] at hb
          rw [if_pos ⟨h1, h2⟩]
          exact entered_DrawEntity Sc s t t1 _ hb
        · rw [if_pos h1, if_neg h2] at hb
          simp only [Option.some.injEq] at hb
          subst hb
          rw [if_neg (fun hh => h2 hh.2)]
          simp
      · rw [if_neg h1] at hb
        simp only [Option.some.injEq] at hb
        subst hb
        rw [if_neg (fun hh => h1 hh.1)]
        simp) _ _ st4 h4
  have e3 := foldl_entered (DrawRoom_static Sc s cam room)
    (fun sm =>
      if (sm.hide = 0 ∨ s.r_flags &&& Sc.R_DRAW_DUMMY_STATICS ≠ 0) ∧
          Sc.Frustum_IsOBBVisibleInFrustumList sm.obb (frustumList s cam room) = true then
        [Method.DrawStaticMesh room sm]
      else []) (by
      intro t sm
      beta_reduce
      unfold DrawRoom_static
      split
      · rw [entered_DrawMesh, entered_enter]
      · simp)
  have e2 : ∀ t : DrawState, entered (if s.r_flags &&& Sc.R_SKIP_ROOM = 0 then
      (match Sc.mesh room with
        | some m => DrawMesh t m
        | none => t) else t) = entered t := by
    intro t
    split
    · split
      · exact entered_DrawMesh t _
      · rfl
    · rfl
  rw [e5, e4, e3, e2, entered_DrawRoom_stencil, entered_enter]
  unfold DrawRoom_calls
  simp only [List.append_assoc]

theorem entered_DrawBSPPolygon (E : DrawEnv) (st : DrawState) (p : bsp_polygon_s) :
    entered (DrawBSPPolygon E st p) = entered st := by
  unfold DrawBSPPolygon entered methodsOf
  simp only
  split <;> split <;> (try split) <;> simp [List.filterMap_append]

theorem entered_DrawBSPBackToFront (E : DrawEnv) (t : bsp_node_p) :
    ∀ st : DrawState, entered (DrawBSPBackToFront E t st) = entered st := by
  induction t with
  | null => intro st; rfl
  | node plane front back pf pb ihf ihb =>
    intro st
    unfold DrawBSPBackToFront
    split <;>
      simp only [ihf, ihb, foldl_entered_same (DrawBSPPolygon E) (entered_DrawBSPPolygon E)]

theorem entered_DrawRoomSprites (Sc : Scene) (st : DrawState) (room : Nat) :
    entered (DrawRoomSprites Sc st room) = entered st ++ [Method.DrawRoomSprites room] := by
  unfold DrawRoomSprites
  simp only
  split
  · exact entered_enter st _
  · simp [entered, enter, methodsOf, List.filterMap_append]

theorem entered_DrawSkyBox (W : Level) (Sc : Scene) (s : CRender) (st : DrawState) :
    entered (DrawSkyBox W Sc s st) = entered st ++ [Method.DrawSkyBox] := by
  unfold DrawSkyBox
  simp only
  split
  · split
    · rw [entered_DrawMesh, entered_enter]
    · exact entered_enter st _
  · exact entered_enter st _

theorem gather_singleton {α β : Type} (f : α → β) :
    ∀ l : List α, gather (fun a => [f a]) l = l.map f := by
  intro l
  induction l with
  | nil => rfl
  | cons a l ih => simp [gather, ih]

theorem filter_gather {α β : Type} (g : α → List β) (p : β → Bool) :
    ∀ l : List α, (gather g l).filter p = gather (fun a => (g a).filter p) l := by
  intro l
  induction l with
  | nil => rfl
  | cons a l ih => simp [gather, ih]

theorem gather_nil {α β : Type} (g : α → List β) (h : ∀ a, g a = []) :
    ∀ l : List α, gather g l = [] := by
  intro l
  induction l with
  | nil => rfl
  | cons a l ih => simp [gather, ih, h]

theorem DrawRoom_near_calls_atList (W : Level) (Sc : Scene) (s : CRender) (cam : camera_s)
    (room ni : Nat) : (DrawRoom_near_calls W Sc s cam room ni).filter Method.atList = [] := by
  unfold DrawRoom_near_calls
  split
  · rw [List.filter_append, filter_gather, filter_gather, gather_nil, gather_nil]
    · rfl
    · intro cont
      beta_reduce
      split <;> rfl
    · intro sm
      beta_reduce
      split <;> rfl
  · rfl

theorem DrawRoom_calls_atList (W : Level) (Sc : Scene) (s : CRender) (cam : camera_s)
    (room : Nat) :
    (DrawRoom_calls W Sc s cam room).filter Method.atList = [Method.DrawRoom room] := by
  unfold DrawRoom_calls
  rw [List.filter_append, List.filter_append, List.filter_append, filter_gather, filter_gather,
    filter_gather, gather_nil, gather_nil, gather_nil]
  · rfl
  · exact DrawRoom_near_calls_atList W Sc s cam room
  · intro cont
    beta_reduce
    split <;> rfl
  · intro sm
    beta_reduce
    split <;> rfl

theorem foldl_append_only {α : Type} (f : List Nat → α → List Nat)
    (h : ∀ acc a, f acc a = acc ++ f [] a) :
    ∀ (l : List α) (acc : List Nat), l.foldl f acc = acc ++ l.foldl f [] := by
  intro l
  induction l with
  | nil => intro acc; simp
  | cons a l ih =>
    intro acc
    rw [List.foldl_cons, List.foldl_cons, ih (f acc a), ih (f [] a), h acc a, List.append_assoc]

theorem DrawList_boneBatch_append (acc : List Nat) (btag : ss_bone_tag_s) :
    DrawList_boneBatch acc btag = acc ++ DrawList_boneBatch [] btag := by
  unfold DrawList_boneBatch
  split <;> simp

theorem DrawList_staticBatch_append (Sc : Scene) (s : CRender) (cam : camera_s) (r : Nat)
    (acc : List Nat) (sm : static_mesh_s) :
    DrawList_staticBatch Sc s cam r acc sm = acc ++ DrawList_staticBatch Sc s cam r [] sm := by
  unfold DrawList_staticBatch
  split
  · split <;> simp
  · simp

theorem DrawList_containerBatch_append (Sc : Scene) (s : CRender) (cam : camera_s) (r : Nat)
    (acc : List Nat) (cont : engine_container_s) :
    DrawList_containerBatch Sc s cam r acc cont =
      acc ++ DrawList_containerBatch Sc s cam r [] cont := by
  unfold DrawList_containerBatch
  split
  · split
    · split
      · exact foldl_append_only _ DrawList_boneBatch_append _ acc
      · simp
    · simp
  · simp

theorem DrawList_objectBatch_append (Sc : Scene) (s : CRender) (cam : camera_s)
    (acc : List Nat) (r : Nat) :
    DrawList_objectBatch Sc s cam acc r = acc ++ DrawList_objectBatch Sc s cam [] r := by
  unfold DrawList_objectBatch
  rw [foldl_append_only _ (DrawList_containerBatch_append Sc s cam r),
    foldl_append_only _ (DrawList_staticBatch_append Sc s cam r) _ acc,
    foldl_append_only _ (DrawList_containerBatch_append Sc s cam r) _
      (List.foldl (DrawList_staticBatch Sc s cam r) [] (Sc.static_mesh r)),
    List.append_assoc]

theorem DrawList_roomBatch_eq (Sc : Scene) :
    ∀ (rooms : List Nat) (acc : List Nat),
      rooms.foldl (DrawList_roomBatch Sc) acc = acc ++ rooms.filterMap (roomPolygons Sc) := by
  intro rooms
  induction rooms with
  | nil => intro acc; simp
  | cons r rooms ih =>
    intro acc
    rw [List.foldl_cons, ih]
    unfold DrawList_roomBatch roomPolygons
    cases hm : Sc.mesh r with
    | none => simp [List.filterMap_cons, roomPolygons, hm]
    | some m =>
      cases hp : m.transparency_polygons with
      | none => simp [List.filterMap_cons, roomPolygons, hm, hp]
      | some p => simp [List.filterMap_cons, roomPolygons, hm, hp]

theorem methodsOf_map_enter (f : Nat → Method) :
    ∀ l : List Nat, methodsOf (l.map fun p => GLCall.Enter (f p)) = l.map f := by
  intro l
  induction l with
  | nil => rfl
  | cons a l ih =>
    rw [List.map_cons, List.map_cons, ← ih]
    rfl

theorem entered_DrawList_bsp (Sc : Scene) (E : DrawEnv) (added : List Nat) (st st1 : DrawState)
    (h : DrawList_bsp Sc E added st = some st1) :
    entered st1 = entered st ∨ entered st1 = entered st ++ [Method.DrawBSPBackToFront] := by
  unfold DrawList_bsp at h
  split at h
  · exact absurd h (by simp)
  · next plane front back pf pb _ =>
    simp only [Option.some.injEq] at h
    subst h
    by_cases hcond : pf.isEmpty = false ∧ Sc.bsp_vbo ≠ 0
    · right
      rw [if_pos hcond]
      show entered (DrawBSPBackToFront E _ _) = _
      rw [entered_DrawBSPBackToFront, entered_enter]
      rfl
    · left
      rw [if_neg hcond]
      rfl

/-- C23: a `DrawList` that returns with a camera set records, after the calls made before
it and its call of `DrawSkyBox`: `DrawRoom` for every active entry of the render list in
index order, then `DrawRoomSprites` for every active entry in index order, then
`AddNewPolygonList` for the room-mesh polygon lists of the listed rooms in list order, then
for the polygon lists of static meshes and entities, and last at most one
`DrawBSPBackToFront`. -/
theorem DrawList_order (W : Level) (Sc : Scene) (E : DrawEnv) (s : CRender)
    (st st1 : DrawState) (cam : camera_s) (hc : s.m_camera = some cam)
    (h : DrawList W Sc E s st = some st1) :
    ∃ rooms traversal, listedRooms (activeRooms s) = some rooms ∧
      (traversal = [] ∨ traversal = [Method.DrawBSPBackToFront]) ∧
      (entered st1).filter Method.atList =
        (entered st).filter Method.atList ++ [Method.DrawSkyBox] ++
          rooms.map Method.DrawRoom ++ rooms.map Method.DrawRoomSprites ++
          (rooms.filterMap (roomPolygons Sc)).map Method.AddNewPolygonList ++
          (rooms.foldl (DrawList_objectBatch Sc s cam) []).map Method.AddNewPolygonList ++
          traversal := by
  unfold DrawList at h
  rw [hc] at h
  simp only at h
  cases hrooms : listedRooms (activeRooms s) with
  | none =>
    rw [hrooms] at h
    exact absurd h (by simp)
  | some rooms =>
    rw [hrooms] at h
    simp only at h
    obtain ⟨st2, h2, h3⟩ := Option.bind_eq_some.mp h
    have e2 := forEach_entered (DrawRoom W Sc s cam) (DrawRoom_calls W Sc s cam)
      (fun t r t1 hb => entered_DrawRoom W Sc s cam t t1 r hb) rooms _ st2 h2
    rw [entered_DrawSkyBox] at e2
    have e0 : entered { st with m_active_texture := 0 } = entered st := rfl
    rw [e0] at e2
    have e3 : entered (rooms.foldl (DrawRoomSprites Sc) st2) =
        entered st2 ++ rooms.map Method.DrawRoomSprites := by
      rw [foldl_entered (DrawRoomSprites Sc) (fun r => [Method.DrawRoomSprites r])
        (entered_DrawRoomSprites Sc), gather_singleton]
    have hadd : rooms.foldl (DrawList_objectBatch Sc s cam)
        (rooms.foldl (DrawList_roomBatch Sc) []) =
          rooms.filterMap (roomPolygons Sc) ++ rooms.foldl (DrawList_objectBatch Sc s cam) [] := by
      rw [foldl_append_only _ (DrawList_objectBatch_append Sc s cam), DrawList_roomBatch_eq]
      rfl
    rw [hadd] at h3
    have hfil : (gather (DrawRoom_calls W Sc s cam) rooms).filter Method.atList =
        rooms.map Method.DrawRoom := by
      rw [filter_gather]
      have hfun : (fun r => (DrawRoom_calls W Sc s cam r).filter Method.atList) =
          fun r => [Method.DrawRoom r] := by
        funext r
        exact DrawRoom_calls_atList W Sc s cam r
      rw [hfun, gather_singleton]
    have hpre : ∀ tail : List Method,
        (entered st ++ [Method.DrawSkyBox] ++ gather (DrawRoom_calls W Sc s cam) rooms ++
          rooms.map Method.DrawRoomSprites ++
          (rooms.filterMap (roomPolygons Sc) ++
            rooms.foldl (DrawList_objectBatch Sc s cam) []).map Method.AddNewPolygonList ++
          tail).filter Method.atList =
        (entered st).filter Method.atList ++ [Method.DrawSkyBox] ++
          rooms.map Method.DrawRoom ++ rooms.map Method.DrawRoomSprites ++
          (rooms.filterMap (roomPolygons Sc)).map Method.AddNewPolygonList ++
          (rooms.foldl (DrawList_objectBatch Sc s cam) []).map Method.AddNewPolygonList ++
          tail.filter Method.atList := by
      intro tail
      simp only [List.filter_append, hfil, List.map_append, List.append_assoc]
      congr 1
      congr 1
      congr 1
      have hs : ∀ l : List Nat, (l.map Method.DrawRoomSprites).filter Method.atList =
          l.map Method.DrawRoomSprites := by
        intro l
        induction l with
        | nil => rfl
        | cons a l ih => simp [List.filter_cons, Method.atList, ih]
      have ha : ∀ l : List Nat, (l.map Method.AddNewPolygonList).filter Method.atList =
          l.map Method.AddNewPolygonList := by
        intro l
        induction l with
        | nil => rfl
        | cons a l ih => simp [List.filter_cons, Method.atList, ih]
      rw [hs, ha, ha]
    have e4 : entered { rooms.foldl (DrawRoomSprites Sc) st2 with
        calls := (rooms.foldl (DrawRoomSprites Sc) st2).calls ++
          (rooms.filterMap (roomPolygons Sc) ++
            rooms.foldl (DrawList_objectBatch Sc s cam) []).map
              fun p => GLCall.Enter (Method.AddNewPolygonList p) } =
        entered (rooms.foldl (DrawRoomSprites Sc) st2) ++
          (rooms.filterMap (roomPolygons Sc) ++
            rooms.foldl (DrawList_objectBatch Sc s cam) []).map Method.AddNewPolygonList := by
      show methodsOf (_ ++ _) = _
      rw [methodsOf_append, methodsOf_map_enter]
      rfl
    rcases entered_DrawList_bsp Sc E _ _ st1 h3 with e5 | e5
    · refine ⟨rooms, [], rfl, Or.inl rfl, ?_⟩
      rw [e5, e4, e3, e2]
      have := hpre []
      simpa using this
    · refine ⟨rooms, [Method.DrawBSPBackToFront], rfl, Or.inr rfl, ?_⟩
      rw [e5, e4, e3, e2]
      exact hpre [Method.DrawBSPBackToFront]

theorem stOne_rooms : listedRooms (activeRooms stOne) = some [0] := rfl

theorem DrawList_order_witness :
    ∃ traversal, DrawList lvlAway sceneDemo envOrigin stOne DrawState.start = some stListDemo ∧
      (entered stListDemo).filter Method.atList =
        [Method.DrawSkyBox, Method.DrawRoom 0, Method.DrawRoomSprites 0,
          Method.AddNewPolygonList 1] ++ traversal ∧
      (traversal = [] ∨ traversal = [Method.DrawBSPBackToFront]) := by
  have hrun : DrawList lvlAway sceneDemo envOrigin stOne DrawState.start = some stListDemo :=
    rfl
  obtain ⟨rooms, traversal, hr, ht, e⟩ := DrawList_order lvlAway sceneDemo envOrigin stOne
    DrawState.start stListDemo (camFound lvlAway cam0) rfl hrun
  have hrooms : rooms = [0] := Option.some.inj (hr.symm.trans stOne_rooms)
  subst hrooms
  exact ⟨traversal, hrun, e.trans rfl, ht⟩

/-- C27 (failing input): the run of `DrawList` on the scene `sceneSprite` with room `0`
listed: the face of the room mesh, of texture `1`, is submitted with texture `1` bound;
`DrawRoomSprites` then binds texture `7` without writing `m_active_texture`, and the quad of
the BSP tree, of texture `1`, is submitted without a call of `qglBindTexture`, with texture
`7` bound. -/
theorem sprite_bind_bypasses_cache :
    ∃ st1, DrawList lvlAway sceneSprite envOrigin stOne DrawState.start = some st1 ∧
      st1.calls =
        [GLCall.Enter Method.DrawSkyBox, GLCall.Enter (Method.DrawRoom 0),
          GLCall.BindTexture 1, GLCall.DrawFace { texture_index := 1 },
          GLCall.Enter (Method.DrawRoomSprites 0), GLCall.BindTexture 7, GLCall.DrawArrays,
          GLCall.Enter (Method.AddNewPolygonList 1), GLCall.Enter Method.DrawBSPBackToFront,
          GLCall.DrawElements (quadAt 100)] ∧
      (quadAt 100).texture_index = 1 ∧
      submitted none st1.calls = [(1, some 1), (1, some 7)] :=
  ⟨_, rfl, rfl, rfl, rfl⟩

/-! ## Animated textures: the frame index -/

/-- The frame index stays in range on every sequence other than a sequence of type
`TR_ANIMTEXTURE_REVERSE` with a single frame; a locked sequence is left as it is. -/
theorem UpdateAnimTextures_seq_range (A : AnimEnv) (seq seq1 : anim_seq_s)
    (hlt : seq.current_frame < seq.frames_count) (h16 : seq.frames_count < 65536)
    (hrev : seq.anim_type = A.TR_ANIMTEXTURE_REVERSE → 2 ≤ seq.frames_count)
    (h : UpdateAnimTextures_seq A seq = some seq1) :
    seq1.current_frame < seq1.frames_count ∧ seq1.frames_count = seq.frames_count ∧
    (seq.frame_lock = true → seq1 = seq) := by
  unfold UpdateAnimTextures_seq at h
  by_cases hlock : seq.frame_lock = true
  · rw [if_pos hlock] at h
    simp only [Option.some.injEq] at h
    subst h
    exact ⟨hlt, rfl, fun _ => rfl⟩
  · rw [if_neg hlock] at h
    refine ⟨?_, ?_, fun hl => absurd hl hlock⟩
    · simp only at h
      split at h
      · simp only [Option.some.injEq] at h
        subst h
        exact hlt
      · split at h
        · split at h
          · next hty =>
            have h2 := hrev hty
            split at h
            · split at h
              · next h0 =>
                simp only [Option.some.injEq] at h
                subst h
                show (seq.current_frame + 1) % 65536 < seq.frames_count
                omega
              · simp only [Option.some.injEq] at h
                subst h
                show (seq.current_frame + 65535) % 65536 < seq.frames_count
                omega
            · split at h
              · exact absurd h (by simp)
              · simp only [Option.some.injEq] at h
                subst h
                have hpos : 0 < seq.frames_count := by omega
                split <;> (try split) <;>
                  (show _ % seq.frames_count < seq.frames_count; exact Nat.mod_lt _ hpos)
          · split at h
            · split at h
              · exact absurd h (by simp)
              · simp only [Option.some.injEq] at h
                subst h
                have hpos : 0 < seq.frames_count := by omega
                show _ % seq.frames_count < seq.frames_count
                exact Nat.mod_lt _ hpos
            · simp only [Option.some.injEq] at h
              subst h
              exact hlt
        · simp only [Option.some.injEq] at h
          subst h
          exact hlt
    · simp only at h
      split at h
      · simp only [Option.some.injEq] at h
        subst h
        rfl
      · split at h
        · split at h
          · split at h
            · split at h
              · simp only [Option.some.injEq] at h
                subst h
                rfl
              · simp only [Option.some.injEq] at h
                subst h
                rfl
            · split at h
              · exact absurd h (by simp)
              · simp only [Option.some.injEq] at h
                subst h
                simp only
                split <;> (try split) <;> rfl
          · split at h
            · split at h
              · exact absurd h (by simp)
              · simp only [Option.some.injEq] at h
                subst h
                rfl
            · simp only [Option.some.injEq] at h
              subst h
              rfl
        · simp only [Option.some.injEq] at h
          subst h
          rfl

/-- C28 (failing input): the run of `UpdateAnimTextures` on a sequence of type
`TR_ANIMTEXTURE_REVERSE` with one frame, at frame 0: after two calls in which the frame time
reaches the frame rate, `current_frame` is 1 while `frames_count` is 1. -/
theorem reverse_single_frame_out_of_range :
    seqSingle.current_frame < seqSingle.frames_count ∧
    ∃ mem1 mem2, UpdateAnimTextures animTick stAnim (fun _ => seqSingle) = some mem1 ∧
      UpdateAnimTextures animTick stAnim mem1 = some mem2 ∧
      (mem1 0).current_frame = 0 ∧ (mem1 0).reverse_direction = true ∧
      (mem2 0).current_frame = 1 ∧ (mem2 0).frames_count = 1 :=
  ⟨by decide, _, _, rfl, rfl, rfl, rfl, rfl, rfl⟩

/-! ## The version word of a level file -/

/-- C30: provided the rest of the function does not make that report, `read_tr2_level`
reports "Wrong level version" if and only if the word that `read_bitu32` reads first from
the stream differs from `0x0000002d`. -/
theorem wrong_version_iff (L : LoaderEnv) (src : List Nat) (demo : Bool)
    (hrest : ∀ d l, ¬ Report.WrongLevelVersion ∈ L.rest d l) :
    Report.WrongLevelVersion ∈ read_tr2_level L src demo ↔
      (L.read_bitu32 src).1 ≠ 0x0000002d := by
  unfold read_tr2_level
  simp only
  by_cases hv : (L.read_bitu32 src).1 ≠ 0x0000002d
  · rw [if_pos hv]
    constructor
    · exact fun _ => hv
    · intro _
      split
      · exact List.mem_cons_self _ _
      · exact List.mem_singleton.mpr rfl
  · rw [if_neg hv]
    constructor
    · exact fun hm => absurd hm (hrest _ _)
    · exact fun hne => absurd hne hv

theorem wrong_version_iff_witness :
    Report.WrongLevelVersion ∈ read_tr2_level loaderLE [0x2e, 0, 0, 0, 9] false ∧
    Report.WrongLevelVersion ∈ read_tr2_level loaderLE [0x2d, 1, 0, 0, 9] false ∧
    ¬ Report.WrongLevelVersion ∈ read_tr2_level loaderLE [0x2d, 0, 0, 0, 9] false := by
  have hrest : ∀ (d : Bool) (l : List Nat), ¬ Report.WrongLevelVersion ∈ loaderLE.rest d l := by
    intro d l hm
    simp [loaderLE] at hm
  refine ⟨?_, ?_, ?_⟩
  · exact (wrong_version_iff loaderLE _ false hrest).mpr (by decide)
  · exact (wrong_version_iff loaderLE _ false hrest).mpr (by decide)
  · exact fun hm => absurd ((wrong_version_iff loaderLE _ false hrest).mp hm) (by decide)

/-! ## The value returned by `ProcessRoom` -/

/-- C22 (failing input): the run of `ProcessRoom` inside the pass of `GenWorldList` in
`lvlBack`, against the doc comment "return number of added rooms": the call for the portal
from room `0` to room `1` is made in the state `stBackWalk`, where rooms `0` and `1` are
listed; it returns 1, for the clip of the portal back to room `0`, and the render list is
the same after the call: no room was added. -/
theorem ProcessRoom_counts_clips :
    GenWorldList lvlBack 3 stBack camEdge =
      (ProcessRoom lvlBack 3 stBackWalk { id := 0, dest_room := 1 } 1).map Prod.fst ∧
    activeRooms stBackWalk = [some 0, some 1] ∧
    ∃ s1, ProcessRoom lvlBack 3 stBackWalk { id := 0, dest_room := 1 } 1 = some (s1, 1) ∧
      activeRooms s1 = [some 0, some 1] ∧
      s1.r_list_active_count = stBackWalk.r_list_active_count :=
  ⟨rfl, rfl, _, rfl, rfl, rfl⟩

/-! ## Termination of the walk -/

theorem lvlLoop_walk (cam : camera_s) :
    ∀ (fuel : Nat) (s : CRender) (p : portal_s) (f : Frustum), s.m_camera = some cam →
      (p = { id := 0, dest_room := 1 } ∨ p = { id := 1, dest_room := 0 }) →
      s.room_frustum (lvlLoop.real_room p.dest_room) ≠ [] →
      ProcessRoom lvlLoop fuel s p f = none := by
  intro fuel
  induction fuel with
  | zero => intro s p f _ _ _; rfl
  | succ fuel ih =>
    intro s p f hc hp hne
    rw [ProcessRoom_succ, if_neg (fun hh => hne hh.2)]
    have step : ∀ q : portal_s, (q = { id := 0, dest_room := 1 } ∨ q = { id := 1, dest_room := 0 }) →
        forEach (ProcessRoom_body lvlLoop (ProcessRoom lvlLoop fuel) f) [q] (s, 0) = none := by
      intro q hq
      simp only [forEach]
      rw [ProcessRoom_body_ok lvlLoop _ f (f + 1) (s, 0) q cam hc rfl]
      cases ha : AddRoom lvlLoop (linkFrustum lvlLoop s q (f + 1)) (lvlLoop.real_room q.dest_room) with
      | none => rfl
      | some r2 =>
        have hc2 : r2.1.m_camera = some cam := (AddRoom_camera lvlLoop _ r2.1 _ r2.2 ha).trans hc
        have hf2 : r2.1.room_frustum (lvlLoop.real_room q.dest_room) ≠ [] := by
          rw [AddRoom_frustum lvlLoop _ r2.1 _ r2.2 ha]
          simp [linkFrustum]
        simp only [Option.some_bind, ih r2.1 q (f + 1) hc2 hq hf2, Option.none_bind]
    rcases hp with rfl | rfl
    · exact step { id := 1, dest_room := 0 } (Or.inr rfl)
    · exact step { id := 0, dest_room := 1 } (Or.inl rfl)

/-- C21 (as stated, refuted): in the two-room level `lvlLoop`, whose portals form a cycle and
whose clips always succeed, `GenWorldList` does not return for any bound on the depth of the
recursion: each successful clip puts a frustum in the chain of the destination, so the
short-circuit of `ProcessRoom` never applies. -/
theorem cyclic_clips_never_return :
    lvlLoop.World_FindRoomByPosCogerrence camEdge.pos camEdge.current_room = some 0 ∧
    ∀ fuel, GenWorldList lvlLoop fuel stBack camEdge = none := by
  refine ⟨rfl, fun fuel => ?_⟩
  rw [GenWorldList_of_rooms lvlLoop fuel stBack camEdge 0 rfl]
  simp only [show lvlLoop.World_FindRoomByPosCogerrence camEdge.pos camEdge.current_room =
    some 0 from rfl]
  cases ha : AddRoom lvlLoop (setFrustumNull (passStart lvlLoop stBack camEdge) 0) 0 with
  | none => rfl
  | some r4 =>
    have hc4 : r4.1.m_camera = some (camFound lvlLoop camEdge) :=
      AddRoom_camera lvlLoop _ r4.1 0 r4.2 ha
    simp only [show lvlLoop.portals 0 = [{ id := 0, dest_room := 1 }] from rfl, forEach]
    rw [GenWorldList_portal_ok lvlLoop fuel (camFound lvlLoop camEdge) 0 r4.1
      { id := 0, dest_room := 1 } (camEdge.frustum + 1) rfl]
    cases hb : AddRoom lvlLoop (linkFrustum lvlLoop r4.1 { id := 0, dest_room := 1 }
        (camEdge.frustum + 1)) (lvlLoop.real_room 1) with
    | none => rfl
    | some r2 =>
      have hc2 : r2.1.m_camera = some (camFound lvlLoop camEdge) :=
        (AddRoom_camera lvlLoop _ r2.1 _ r2.2 hb).trans hc4
      have hf2 : r2.1.room_frustum (lvlLoop.real_room 1) ≠ [] := by
        rw [AddRoom_frustum lvlLoop _ r2.1 _ r2.2 hb]
        simp [linkFrustum]
      simp only [Option.some_bind,
        lvlLoop_walk (camFound lvlLoop camEdge) fuel r2.1 { id := 0, dest_room := 1 }
          (camEdge.frustum + 1) hc2 (Or.inl rfl) hf2, Option.none_bind]

theorem ProcessRoom_returns (W : Level) (cam : camera_s) (rank : Nat → Frustum → Nat)
    (hrank : ∀ r p f g, p ∈ W.portals r → W.clip cam p f = some g →
      rank (W.real_room p.dest_room) g < rank r f) :
    ∀ (fuel : Nat) (s : CRender) (p : portal_s) (f : Frustum), s.m_camera = some cam →
      rank (W.real_room p.dest_room) f < fuel →
      ∃ r, ProcessRoom W fuel s p f = some r ∧ r.1.m_camera = some cam := by
  intro fuel
  induction fuel with
  | zero => exact fun s p f _ h => absurd h (Nat.not_lt_zero _)
  | succ fuel ih =>
    intro s p f hc hlt
    rw [ProcessRoom_succ]
    split
    · exact ⟨(s, 0), rfl, hc⟩
    · refine forEach_total (ProcessRoom_body W (ProcessRoom W fuel) f)
        (fun acc => acc.1.m_camera = some cam)
        (fun x => x ∈ W.portals (W.real_room p.dest_room)) ?_ _ (s, 0) (fun _ hx => hx) hc
      intro acc x hx hacc
      cases hclip : W.clip cam x f with
      | none => exact ⟨acc, ProcessRoom_body_fail W _ f acc x cam hacc hclip, hacc⟩
      | some g =>
        rw [ProcessRoom_body_ok W _ f g acc x cam hacc hclip]
        obtain ⟨s2, n2, ha, hc2⟩ := AddRoom_total W (linkFrustum W acc.1 x g)
          (W.real_room x.dest_room) cam hacc
        have hr := hrank _ x f g hx hclip
        obtain ⟨r3, hp3, hc3⟩ := ih s2 x g hc2 (by omega)
        exact ⟨(r3.1, acc.2 + 1), by simp [ha, hp3], hc3⟩

/-- C21 (amended): for every portal graph, cyclic or not, `GenWorldList` returns, for every
bound on the recursion depth that is at least the measure, whenever the clips cannot
succeed along an endless chain of portals: some measure of a room and a frustum is
strictly smaller at the destination of a portal, with the clipped frustum, every time the
clip of that portal against the frustum succeeds. -/
theorem GenWorldList_returns (W : Level) (s : CRender) (cam : camera_s)
    (rank : Nat → Frustum → Nat)
    (hrank : ∀ r p f g, p ∈ W.portals r → W.clip (camFound W cam) p f = some g →
      rank (W.real_room p.dest_room) g < rank r f)
    (fuel : Nat) (hfuel : ∀ r f, rank r f ≤ fuel) : ∃ s1, GenWorldList W fuel s cam = some s1 := by
  cases hb : s.m_rooms with
  | none => exact ⟨_, GenWorldList_of_null W fuel s cam hb⟩
  | some b =>
    rw [GenWorldList_of_rooms W fuel s cam b hb]
    have visit : ∀ (r : Nat) (t : CRender) (x : portal_s) (g : Frustum), x ∈ W.portals r →
        t.m_camera = some (camFound W cam) →
        W.clip (camFound W cam) x (camFound W cam).frustum = some g →
        ∃ t1, ((AddRoom W (linkFrustum W t x g) (W.real_room x.dest_room)).bind fun r2 =>
          (ProcessRoom W fuel r2.1 x g).bind fun r3 => some r3.1) = some t1 ∧
          t1.m_camera = some (camFound W cam) := by
      intro r t x g hx ht hclip
      obtain ⟨s2, n2, ha2, hc2⟩ := AddRoom_total W (linkFrustum W t x g)
        (W.real_room x.dest_room) (camFound W cam) ht
      have hlt := hrank r x _ g hx hclip
      have hle := hfuel r (camFound W cam).frustum
      obtain ⟨r3, hp3, hc3⟩ := ProcessRoom_returns W (camFound W cam) rank hrank fuel s2 x g hc2
        (by omega)
      exact ⟨r3.1, by simp [ha2, hp3], hc3⟩
    cases hl : W.World_FindRoomByPosCogerrence cam.pos cam.current_room with
    | none =>
      simp only
      have key := forEach_total (GenWorldList_all W (camFound W cam) b)
        (fun t => t.m_camera = some (camFound W cam)) (fun _ => True)
        (fun t i _ ht => by
          unfold GenWorldList_all
          simp only
          split
          · obtain ⟨s2, n2, ha2, hc2⟩ := AddRoom_total W t (W.real_room (b + i))
              (camFound W cam) ht
            rw [ha2]
            exact ⟨s2, rfl, hc2⟩
          · exact ⟨t, rfl, ht⟩)
        (List.range s.m_rooms_count) (passStart W s cam) (fun _ _ => trivial) rfl
      exact ⟨key.choose, key.choose_spec.1⟩
    | some cr =>
      simp only
      obtain ⟨s4, n4, ha, hc4⟩ := AddRoom_total W (setFrustumNull (passStart W s cam) cr) cr
        (camFound W cam) rfl
      rw [ha]
      simp only
      have key := forEach_total (GenWorldList_portal W fuel (camFound W cam) cr)
        (fun t => t.m_camera = some (camFound W cam)) (fun x => x ∈ W.portals cr)
        (fun t x hx ht => by
          cases hclip : W.clip (camFound W cam) x (camFound W cam).frustum with
          | some g =>
            rw [GenWorldList_portal_ok W fuel (camFound W cam) cr t x g hclip]
            exact visit cr t x g hx ht hclip
          | none =>
            rw [GenWorldList_portal_fail W fuel (camFound W cam) cr t x hclip]
            split
            · obtain ⟨s3, n3, ha3, hc3⟩ := AddRoom_total W
                (setFrustumNull t (W.real_room x.dest_room)) (W.real_room x.dest_room)
                (camFound W cam) ht
              rw [ha3]
              simp only [Option.some_bind]
              split
              · exact forEach_total (GenWorldList_near W fuel (camFound W cam))
                  (fun u => u.m_camera = some (camFound W cam))
                  (fun y => y ∈ W.portals (W.real_room x.dest_room))
                  (fun u y hy hu => by
                    cases hclip2 : W.clip (camFound W cam) y (camFound W cam).frustum with
                    | none => exact ⟨u, GenWorldList_near_fail W fuel _ u y hclip2, hu⟩
                    | some g2 =>
                      rw [GenWorldList_near_ok W fuel _ u y g2 hclip2]
                      exact visit _ u y g2 hy hu hclip2)
                  _ s3 (fun _ hy => hy) hc3
              · exact ⟨s3, rfl, hc3⟩
            · exact ⟨t, rfl, ht⟩)
        (W.portals cr) s4 (fun _ hx => hx) hc4
      exact ⟨key.choose, key.choose_spec.1⟩

theorem GenWorldList_returns_witness :
    ∃ s1, GenWorldList lvl3 3 st3 cam0 = some s1 :=
  GenWorldList_returns lvl3 st3 cam0 (fun _ f => 3 - f)
    (by
      intro r p f g _ hclip
      show 3 - g < 3 - f
      simp only [lvl3] at hclip
      split at hclip
      · next hc =>
        obtain ⟨-, hf⟩ := hc
        simp only [Option.some.injEq] at hclip
        subst hf
        subst hclip
        decide
      · split at hclip
        · next hc =>
          obtain ⟨-, hf⟩ := hc
          simp only [Option.some.injEq] at hclip
          subst hf
          subst hclip
          decide
        · exact absurd hclip (by simp))
    3 (fun _ f => Nat.sub_le 3 f)

/-! ## The list is never full during a pass -/

theorem ListInv_count_le (b n : Nat) (s : CRender) (h : ListInv b n s) :
    s.r_list_active_count ≤ n := by
  obtain ⟨-, -, -, hent, hnd, -⟩ := h
  have hle : (Finset.range s.r_list_active_count).card ≤ (Finset.range n).card := by
    apply Finset.card_le_card_of_injOn (fun i => ((s.r_list i).room.getD 0) - b)
    · intro i hi
      obtain ⟨x, hx, hxl, -⟩ := hent i (Finset.mem_range.mp hi)
      simp only [hx, Option.getD_some, Finset.mem_range]
      unfold inLevel at hxl
      omega
    · intro i hi j hj hij
      have hi1 : i < s.r_list_active_count := by simpa using hi
      have hj1 : j < s.r_list_active_count := by simpa using hj
      obtain ⟨x, hx, hxl, -⟩ := hent i hi1
      obtain ⟨y, hy, hyl, -⟩ := hent j hj1
      simp only [hx, hy, Option.getD_some] at hij
      unfold inLevel at hxl hyl
      have hxy : x = y := by omega
      exact hnd i j x hi1 hj1 hx (hxy ▸ hy)
  simpa using hle

theorem forEach_congr_inv {α σ : Type} (b1 b2 : σ → α → Option σ) (P : σ → Prop)
    (Q : α → Prop) (heq : ∀ s a, Q a → P s → b1 s a = b2 s a)
    (hP : ∀ s a s1, Q a → P s → b2 s a = some s1 → P s1) :
    ∀ (l : List α) (s : σ), (∀ a ∈ l, Q a) → P s → forEach b1 l s = forEach b2 l s := by
  intro l
  induction l with
  | nil => intro s _ _; rfl
  | cons a l ih =>
    intro s hQ hs
    have ha := hQ a (List.mem_cons_self _ _)
    simp only [forEach, heq s a ha hs]
    cases hb : b2 s a with
    | none => rfl
    | some s1 =>
      exact ih s1 (fun c hc => hQ c (List.mem_cons_of_mem _ hc)) (hP s a s1 ha hs hb)

theorem bind_congr_some {α β : Type} (o : Option α) (f g : α → Option β)
    (h : ∀ r, o = some r → f r = g r) : o.bind f = o.bind g := by
  cases o with
  | none => rfl
  | some r => exact h r rfl

theorem AddRoom_guarded_eq (W : Level) (b n : Nat) (s : CRender) (r : Nat)
    (hs : ListInv b n s) (hr : inLevel b n r) : AddRoom_guarded W s r = AddRoom W s r := by
  unfold AddRoom_guarded
  rw [if_neg]
  rintro ⟨hflag, hfull⟩
  have h1 := ListInv_room_left b n s r hs hr hflag
  have h2 := hs.2.2.1
  omega

theorem ProcessRoom_guarded_succ (W : Level) (fuel : Nat) (s : CRender) (portal : portal_s)
    (frus : Frustum) :
    ProcessRoom_guarded W (fuel + 1) s portal frus =
      if s.room_is_in_r_list (W.real_room portal.dest_room) ≠ 0 ∧
          s.room_frustum (W.real_room portal.dest_room) = [] then some (s, 0)
      else
        forEach (fun acc p =>
          match acc.1.m_camera with
          | none => none
          | some cam =>
            match W.clip cam p frus with
            | none => some acc
            | some g =>
              (AddRoom_guarded W (linkFrustum W acc.1 p g) (W.real_room p.dest_room)).bind
                fun r2 => (ProcessRoom_guarded W fuel r2.1 p g).bind
                  fun r3 => some (r3.1, acc.2 + 1))
          (W.portals (W.real_room portal.dest_room)) (s, 0) := rfl

theorem ProcessRoom_guarded_eq (W : Level) (b n : Nat) (hG : PortalClosed W (inLevel b n))
    (cam : camera_s) :
    ∀ (fuel : Nat) (s : CRender) (p : portal_s) (f : Frustum), ListInv b n s →
      s.m_camera = some cam → inLevel b n (W.real_room p.dest_room) →
      ProcessRoom_guarded W fuel s p f = ProcessRoom W fuel s p f := by
  intro fuel
  induction fuel with
  | zero => intro s p f _ _ _; rfl
  | succ fuel ih =>
    intro s p f hs hc hd
    rw [ProcessRoom_guarded_succ, ProcessRoom_succ]
    by_cases hprune : s.room_is_in_r_list (W.real_room p.dest_room) ≠ 0 ∧
        s.room_frustum (W.real_room p.dest_room) = []
    · rw [if_pos hprune, if_pos hprune]
    · rw [if_neg hprune, if_neg hprune]
      refine forEach_congr_inv _ (ProcessRoom_body W (ProcessRoom W fuel) f)
        (fun acc => ListInv b n acc.1 ∧ acc.1.m_camera = some cam)
        (fun q => q ∈ W.portals (W.real_room p.dest_room)) ?_ ?_ _ (s, 0) (fun _ hq => hq)
        ⟨hs, hc⟩
      · intro acc q hq hacc
        beta_reduce
        rw [hacc.2]
        simp only
        cases hclip : W.clip cam q f with
        | none => exact (ProcessRoom_body_fail W _ f acc q cam hacc.2 hclip).symm
        | some g =>
          rw [ProcessRoom_body_ok W _ f g acc q cam hacc.2 hclip]
          simp only
          have hdq : inLevel b n (W.real_room q.dest_room) := hG _ hd q hq
          have hl : ListInv b n (linkFrustum W acc.1 q g) := hacc.1
          rw [AddRoom_guarded_eq W b n _ _ hl hdq]
          apply bind_congr_some
          intro r2 ha
          have h2 : ListInv b n r2.1 := (StepInv_ListInv W b n).add _ _ r2.1 r2.2 hdq hl ha
          have hc2 : r2.1.m_camera = some cam := (AddRoom_camera W _ r2.1 _ r2.2 ha).trans hacc.2
          rw [ih r2.1 q g h2 hc2 hdq]
      · intro acc q acc1 hq hacc hb
        exact ProcessRoom_body_preserves W (inLevel b n)
          (fun t => ListInv b n t ∧ t.m_camera = some cam)
          (StepInv_and W _ _ _ (StepInv_ListInv W b n) (StepInv_camera W _ _))
          (ProcessRoom W fuel)
          (fun t x e t1 m hx ht hrun =>
            ProcessRoom_preserves W (inLevel b n) _ hG
              (StepInv_and W _ _ _ (StepInv_ListInv W b n) (StepInv_camera W _ _))
              fuel t x e t1 m hx ht hrun)
          _ hd f acc acc1 q hq (hG _ hd q hq) hacc hb

theorem guarded_visit_eq (W : Level) (b n : Nat) (hG : PortalClosed W (inLevel b n))
    (cam : camera_s) (fuel : Nat) (t : CRender) (x : portal_s) (g : Frustum)
    (ht : ListInv b n t) (hc : t.m_camera = some cam)
    (hd : inLevel b n (W.real_room x.dest_room)) :
    guarded_visit W fuel t x g =
      (AddRoom W (linkFrustum W t x g) (W.real_room x.dest_room)).bind fun r2 =>
        (ProcessRoom W fuel r2.1 x g).bind fun r3 => some r3.1 := by
  unfold guarded_visit
  have hl : ListInv b n (linkFrustum W t x g) := ht
  rw [AddRoom_guarded_eq W b n _ _ hl hd]
  apply bind_congr_some
  intro r2 ha
  have h2 : ListInv b n r2.1 := (StepInv_ListInv W b n).add _ _ r2.1 r2.2 hd hl ha
  have hc2 : r2.1.m_camera = some cam := (AddRoom_camera W _ r2.1 _ r2.2 ha).trans hc
  rw [ProcessRoom_guarded_eq W b n hG cam fuel r2.1 x g h2 hc2 hd]

theorem GenWorldList_guarded_eq (W : Level) (b n : Nat) (hW : LevelClosed W b n) (fuel : Nat)
    (s : CRender) (cam : camera_s) (hb : s.m_rooms = some b) (hn : s.m_rooms_count = n)
    (hsz : n ≤ s.r_list_size) : GenWorldList_guarded W fuel s cam = GenWorldList W fuel s cam := by
  obtain ⟨hG, hreal, hlook⟩ := hW
  have hstep := StepInv_and W (inLevel b n) (ListInv b n)
    (fun t => t.m_camera = some (camFound W cam)) (StepInv_ListInv W b n) (StepInv_camera W _ _)
  have h0 : ListInv b n (passStart W s cam) := CleanList_ListInv W b n s hb hn hsz
  unfold GenWorldList_guarded
  rw [GenWorldList_of_rooms W fuel s cam b hb, hb]
  simp only
  cases hl : W.World_FindRoomByPosCogerrence cam.pos cam.current_room with
  | none =>
    simp only
    refine forEach_congr_inv _ (GenWorldList_all W (camFound W cam) b)
      (fun t => ListInv b n t ∧ t.m_camera = some (camFound W cam)) (fun i => i < n) ?_ ?_ _ _
      (fun i hi => by rw [hn] at hi; exact List.mem_range.mp hi) ⟨h0, rfl⟩
    · intro t i hi ht
      have hr : inLevel b n (W.real_room (b + i)) :=
        hreal _ ⟨Nat.le_add_right b i, by omega⟩
      unfold GenWorldList_all
      simp only
      by_cases hv : boxVisible W (camFound W cam) (b + i) = true
      · have hv1 : W.Frustum_IsAABBVisible (W.bb_min (b + i)) (W.bb_max (b + i))
            (camFound W cam).frustum = true := hv
        rw [if_pos hv, if_pos hv1, AddRoom_guarded_eq W b n t _ ht.1 hr]
        cases AddRoom W t (W.real_room (b + i)) with
        | none => rfl
        | some r => rfl
      · have hv1 : ¬ W.Frustum_IsAABBVisible (W.bb_min (b + i)) (W.bb_max (b + i))
            (camFound W cam).frustum = true := hv
        rw [if_neg hv, if_neg hv1]
    · intro t i t1 hi ht hrun
      exact GenWorldList_all_preserves W (inLevel b n) _ hstep (camFound W cam) b t t1 i
        (hreal _ ⟨Nat.le_add_right b i, by omega⟩) ht hrun
  | some cr =>
    simp only
    have hcr : inLevel b n cr := hlook _ _ cr hl
    have h1 : ListInv b n (setFrustumNull (passStart W s cam) cr) := h0
    rw [AddRoom_guarded_eq W b n _ cr h1 hcr]
    cases ha : AddRoom W (setFrustumNull (passStart W s cam) cr) cr with
    | none => rfl
    | some r4 =>
      simp only [Option.some_bind]
      have h4 : ListInv b n r4.1 ∧ r4.1.m_camera = some (camFound W cam) :=
        ⟨(StepInv_ListInv W b n).add _ cr r4.1 r4.2 hcr h1 ha, AddRoom_camera W _ r4.1 cr r4.2 ha⟩
      refine forEach_congr_inv _ (GenWorldList_portal W fuel (camFound W cam) cr)
        (fun t => ListInv b n t ∧ t.m_camera = some (camFound W cam))
        (fun x => x ∈ W.portals cr) ?_ ?_ _ r4.1 (fun _ hx => hx) h4
      · intro t x hx ht
        have hd : inLevel b n (W.real_room x.dest_room) := hG _ hcr x hx
        unfold guarded_portal
        cases hclip : W.clip (camFound W cam) x (camFound W cam).frustum with
        | some g =>
          simp only
          rw [GenWorldList_portal_ok W fuel (camFound W cam) cr t x g hclip]
          exact guarded_visit_eq W b n hG (camFound W cam) fuel t x g ht.1 ht.2 hd
        | none =>
          simp only
          rw [GenWorldList_portal_fail W fuel (camFound W cam) cr t x hclip]
          by_cases hnt : nearTest W (camFound W cam) cr (W.real_room x.dest_room) = true
          · rw [if_pos hnt, if_pos hnt]
            have hnull : ListInv b n (setFrustumNull t (W.real_room x.dest_room)) := ht.1
            rw [AddRoom_guarded_eq W b n _ _ hnull hd]
            apply bind_congr_some
            intro r3 ha3
            have h3 : ListInv b n r3.1 ∧ r3.1.m_camera = some (camFound W cam) :=
              ⟨(StepInv_ListInv W b n).add _ _ r3.1 r3.2 hd hnull ha3,
                (AddRoom_camera W _ r3.1 _ r3.2 ha3).trans ht.2⟩
            by_cases hret : r3.2 ≠ 0
            · rw [if_pos hret, if_pos hret]
              refine forEach_congr_inv _ (GenWorldList_near W fuel (camFound W cam))
                (fun u => ListInv b n u ∧ u.m_camera = some (camFound W cam))
                (fun y => y ∈ W.portals (W.real_room x.dest_room)) ?_ ?_ _ r3.1
                (fun _ hy => hy) h3
              · intro u y hy hu
                beta_reduce
                cases hclip2 : W.clip (camFound W cam) y (camFound W cam).frustum with
                | some g2 =>
                  simp only
                  rw [GenWorldList_near_ok W fuel (camFound W cam) u y g2 hclip2]
                  exact guarded_visit_eq W b n hG (camFound W cam) fuel u y g2 hu.1 hu.2
                    (hG _ hd y hy)
                | none =>
                  simp only
                  exact (GenWorldList_near_fail W fuel (camFound W cam) u y hclip2).symm
              · intro u y u1 hy hu hrun
                exact GenWorldList_near_preserves W (inLevel b n) _ hG hstep (camFound W cam)
                  (fun _ hv => hv.2) fuel _ hd u u1 y hy hu hrun
            · rw [if_neg hret, if_neg hret]
          · rw [if_neg hnt, if_neg hnt]
      · intro t x t1 hx ht hrun
        exact GenWorldList_portal_preserves W (inLevel b n) _ hG hstep (camFound W cam)
          (fun _ hv => hv.2) fuel cr hcr t t1 x hx ht hrun

/-- C29: after a `GenWorldList` that returns, on a level of `n` rooms in which every
`real_room` reference, every portal destination and every result of the room lookup is a
room of the level, with a list of capacity `n` or more (so with the `n + 128` of
`ResetWorld`), the active count is at most `n`; and the same pass in which `AddRoom` would
stop, were it to find the room not flagged and the list full, returns the same state: the
branch that sets the flag without writing an entry is never taken. -/
theorem pass_never_fills_list (W : Level) (b n : Nat) (hW : LevelClosed W b n) (fuel : Nat)
    (s s1 : CRender) (cam : camera_s) (hb : s.m_rooms = some b) (hn : s.m_rooms_count = n)
    (hsz : n ≤ s.r_list_size) (h : GenWorldList W fuel s cam = some s1) :
    s1.r_list_active_count ≤ n ∧ GenWorldList_guarded W fuel s cam = some s1 := by
  constructor
  · have hG := hW.1
    have key := GenWorldList_preserves W (inLevel b n)
      (fun t => ListInv b n t ∧ t.m_camera = some (camFound W cam)) hG
      (StepInv_and W _ _ _ (StepInv_ListInv W b n) (StepInv_camera W _ _)) fuel s s1 cam b hb
      (fun cr hcr => hW.2.2 _ _ cr hcr)
      (fun i hi => hW.2.1 _ ⟨Nat.le_add_right b i, by rw [hn] at hi; omega⟩)
      (fun _ hs => hs.2)
      ⟨CleanList_ListInv W b n s hb hn hsz, rfl⟩ h
    exact ListInv_count_le b n s1 key.1
  · rw [GenWorldList_guarded_eq W b n hW fuel s cam hb hn hsz]
    exact h

theorem pass_never_fills_list_witness :
    ∃ s1, GenWorldList lvl3 5 st3 cam0 = some s1 ∧ s1.r_list_active_count ≤ 3 ∧
      GenWorldList_guarded lvl3 5 st3 cam0 = some s1 := by
  have h := pass_never_fills_list lvl3 0 3 lvl3_closed 5 st3 stSeen cam0 rfl rfl (by decide) rfl
  exact ⟨stSeen, rfl, h.1, h.2⟩

/-! ## The texture cache -/

theorem boundTexture_append (b : Option Nat) (l1 l2 : List GLCall) :
    boundTexture b (l1 ++ l2) = boundTexture (boundTexture b l1) l2 := by
  unfold boundTexture
  rw [List.foldl_append]

theorem submitted_append (l2 : List GLCall) :
    ∀ (l1 : List GLCall) (b : Option Nat),
      submitted b (l1 ++ l2) = submitted b l1 ++ submitted (boundTexture b l1) l2 := by
  intro l1
  induction l1 with
  | nil => intro b; rfl
  | cons c l ih =>
    intro b
    cases c with
    | BlendFunc s d => exact ih b
    | BindTexture t => exact ih (some t)
    | DrawElements p =>
      show (p.texture_index, b) :: submitted b (l ++ l2) = _
      rw [ih b]
      rfl
    | DrawFace f =>
      show (f.texture_index, b) :: submitted b (l ++ l2) = _
      rw [ih b]
      rfl
    | DrawArrays => exact ih b
    | BindWhiteTexture => exact ih none
    | Enter m => exact ih b

theorem CacheSound_quiet (b : Option Nat) (st st1 : DrawState) (c : GLCall)
    (hc : (∃ s d, c = GLCall.BlendFunc s d) ∨ c = GLCall.DrawArrays ∨ ∃ m, c = GLCall.Enter m)
    (hcalls : st1.calls = st.calls ++ [c]) (htex : st1.m_active_texture = st.m_active_texture)
    (h : CacheSound b st) : CacheSound b st1 := by
  have hb : boundTexture b st1.calls = boundTexture b st.calls := by
    rw [hcalls, boundTexture_append]
    rcases hc with ⟨s, d, rfl⟩ | rfl | ⟨m, rfl⟩ <;> rfl
  have hs : submitted b st1.calls = submitted b st.calls := by
    rw [hcalls, submitted_append]
    rcases hc with ⟨s, d, rfl⟩ | rfl | ⟨m, rfl⟩ <;> simp [submitted]
  exact ⟨by rw [htex, hb]; exact h.1, by rw [hs]; exact h.2⟩

theorem CacheSound_enter (b : Option Nat) (st : DrawState) (m : Method) (h : CacheSound b st) :
    CacheSound b (enter st m) :=
  CacheSound_quiet b st _ _ (Or.inr (Or.inr ⟨m, rfl⟩)) rfl rfl h

theorem CacheSound_reset (b : Option Nat) (st st1 : DrawState) (hcalls : st1.calls = st.calls)
    (htex : st1.m_active_texture = 0) (h : CacheSound b st) : CacheSound b st1 :=
  ⟨Or.inl htex, by rw [hcalls]; exact h.2⟩

theorem CacheSound_keep (b : Option Nat) (st st1 : DrawState) (hcalls : st1.calls = st.calls)
    (htex : st1.m_active_texture = st.m_active_texture) (h : CacheSound b st) :
    CacheSound b st1 :=
  ⟨by rw [htex, hcalls]; exact h.1, by rw [hcalls]; exact h.2⟩

theorem CacheSound_bind (b : Option Nat) (st st1 : DrawState) (t : Nat)
    (hcalls : st1.calls = st.calls ++ [GLCall.BindTexture t]) (htex : st1.m_active_texture = t)
    (h : CacheSound b st) : CacheSound b st1 := by
  refine ⟨Or.inr ?_, ?_⟩
  · rw [hcalls, boundTexture_append, htex]
    rfl
  · rw [hcalls, submitted_append]
    simpa [submitted] using h.2

theorem CacheSound_submit (b : Option Nat) (st st1 : DrawState) (c : GLCall) (t : Nat)
    (hc : (∃ f, c = GLCall.DrawFace f ∧ f.texture_index = t) ∨
      ∃ p, c = GLCall.DrawElements p ∧ p.texture_index = t)
    (hcalls : st1.calls = st.calls ++ [c]) (htex : st1.m_active_texture = st.m_active_texture)
    (hcache : st.m_active_texture = t) (h : CacheSound b st) : CacheSound b st1 := by
  have hb : boundTexture b st1.calls = boundTexture b st.calls := by
    rw [hcalls, boundTexture_append]
    rcases hc with ⟨f, rfl, -⟩ | ⟨p, rfl, -⟩ <;> rfl
  have hs : submitted b st1.calls = submitted b st.calls ++ [(t, boundTexture b st.calls)] := by
    rw [hcalls, submitted_append]
    rcases hc with ⟨f, rfl, rfl⟩ | ⟨p, rfl, rfl⟩ <;> rfl
  refine ⟨by rw [htex, hb]; exact h.1, ?_⟩
  rw [hs]
  intro pr hpr hne
  rcases List.mem_append.mp hpr with hold | hnew
  · exact h.2 pr hold hne
  · rw [List.mem_singleton] at hnew
    subst hnew
    rcases h.1 with h0 | h1
    · exact absurd (hcache ▸ h0) hne
    · show boundTexture b st.calls = some t
      rw [h1, hcache]

theorem foldl_inv {α σ : Type} (f : σ → α → σ) (P : σ → Prop) (h : ∀ t a, P t → P (f t a)) :
    ∀ (l : List α) (st : σ), P st → P (l.foldl f st) := by
  intro l
  induction l with
  | nil => exact fun st hs => hs
  | cons a l ih => exact fun st hs => ih (f st a) (h st a hs)

theorem CacheSound_DrawMesh_face (b : Option Nat) (st : DrawState) (face : mesh_face_s)
    (h : CacheSound b st) : CacheSound b (DrawMesh_face st face) := by
  unfold DrawMesh_face
  simp only
  by_cases hne : st.m_active_texture ≠ face.texture_index
  · rw [if_pos hne]
    exact CacheSound_submit b _ _ (GLCall.DrawFace face) face.texture_index
      (Or.inl ⟨face, rfl, rfl⟩) rfl rfl rfl
      (CacheSound_bind b st _ face.texture_index rfl rfl h)
  · rw [if_neg hne]
    exact CacheSound_submit b st _ (GLCall.DrawFace face) face.texture_index
      (Or.inl ⟨face, rfl, rfl⟩) rfl rfl (not_not.mp hne) h

theorem CacheSound_DrawMesh (b : Option Nat) (st : DrawState) (mesh : base_mesh_s)
    (h : CacheSound b st) : CacheSound b (DrawMesh st mesh) := by
  unfold DrawMesh
  simp only
  split <;> split <;>
    first
    | exact h
    | exact foldl_inv _ _ (CacheSound_DrawMesh_face b) _ _ h
    | exact foldl_inv _ _ (CacheSound_DrawMesh_face b) _ _
        (foldl_inv _ _ (CacheSound_DrawMesh_face b) _ _ h)

theorem CacheSound_DrawSkeletalModel_tag (b : Option Nat) (st : DrawState)
    (btag : ss_bone_tag_s) (h : CacheSound b st) :
    CacheSound b (DrawSkeletalModel_tag st btag) := by
  unfold DrawSkeletalModel_tag
  simp only
  split
  · have h1 : ∀ m : base_mesh_s, CacheSound b (DrawMesh st m) :=
      fun m => CacheSound_DrawMesh b st m h
    split <;> split <;> (try split) <;>
      first
      | exact h1 _
      | exact CacheSound_DrawMesh b _ _ (h1 _)
      | exact CacheSound_DrawMesh b _ _ (CacheSound_DrawMesh b _ _ (h1 _))
  · exact h

theorem CacheSound_DrawEntity (Sc : Scene) (s : CRender) (b : Option Nat) (st st1 : DrawState)
    (entity : entity_s) (h : CacheSound b st) (hrun : DrawEntity Sc s st entity = some st1) :
    CacheSound b st1 := by
  have h0 := CacheSound_enter b st (Method.DrawEntity entity) h
  unfold DrawEntity at hrun
  simp only at hrun
  split at hrun
  · simp only [Option.some.injEq] at hrun
    subst hrun
    exact h0
  · split at hrun
    · exact absurd hrun (by simp)
    · split at hrun
      · simp only [Option.some.injEq] at hrun
        subst hrun
        exact h0
      · split at hrun
        · simp only [Option.some.injEq] at hrun
          subst hrun
          exact foldl_inv _ _ (fun t hair ht => foldl_inv _ _ (CacheSound_DrawMesh b) hair t ht)
            _ _ (foldl_inv _ _ (CacheSound_DrawSkeletalModel_tag b) _ _ h0)
        · simp only [Option.some.injEq] at hrun
          subst hrun
          exact h0

theorem CacheSound_DrawRoom_stencil (W : Level) (Sc : Scene) (s : CRender) (b : Option Nat)
    (st : DrawState) (room : Nat) (h : CacheSound b st) :
    CacheSound b (DrawRoom_stencil W Sc s st room) := by
  unfold DrawRoom_stencil
  split
  · refine foldl_inv _ _ ?_ _ _ h
    intro t _ ht
    refine ⟨Or.inl rfl, ?_⟩
    show ∀ pr ∈ submitted b (t.calls ++ [GLCall.BindWhiteTexture, GLCall.DrawArrays]), _
    rw [submitted_append]
    simpa [submitted] using ht.2
  · exact h

theorem CacheSound_DrawRoom_near (W : Level) (Sc : Scene) (s : CRender) (cam : camera_s)
    (room : Nat) (b : Option Nat) (st st1 : DrawState) (ni : Nat) (h : CacheSound b st)
    (hrun : DrawRoom_near W Sc s cam room st ni = some st1) : CacheSound b st1 := by
  unfold DrawRoom_near at hrun
  simp only at hrun
  split at hrun
  · refine forEach_preserves _ (CacheSound b) (fun _ => True) ?_ _ _ st1 (fun _ _ => trivial)
      (foldl_inv _ _ ?_ _ _ h) hrun
    · intro t cont t1 _ ht hb
      unfold DrawRoom_near_container at hb
      split at hb
      · split at hb
        · exact CacheSound_DrawEntity Sc s b t t1 _ ht hb
        · simp only [Option.some.injEq] at hb
          exact hb ▸ ht
      · simp only [Option.some.injEq] at hb
        exact hb ▸ ht
    · intro t sm ht
      unfold DrawRoom_near_static
      split
      · exact CacheSound_DrawMesh b _ _ (CacheSound_enter b t _ ht)
      · exact ht
  · simp only [Option.some.injEq] at hrun
    exact hrun ▸ h

theorem CacheSound_DrawRoom (W : Level) (Sc : Scene) (s : CRender) (cam : camera_s)
    (b : Option Nat) (st st1 : DrawState) (room : Nat) (h : CacheSound b st)
    (hrun : DrawRoom W Sc s cam st room = some st1) : CacheSound b st1 := by
  unfold DrawRoom at hrun
  simp only at hrun
  obtain ⟨st4, h4, h5⟩ := Option.bind_eq_some.mp hrun
  have h1 := CacheSound_DrawRoom_stencil W Sc s b _ room
    (CacheSound_enter b st (Method.DrawRoom room) h)
  have h2 : CacheSound b (if s.r_flags &&& Sc.R_SKIP_ROOM = 0 then
      (match Sc.mesh room with
        | some m => DrawMesh (DrawRoom_stencil W Sc s (enter st (Method.DrawRoom room)) room) m
        | none => DrawRoom_stencil W Sc s (enter st (Method.DrawRoom room)) room)
      else DrawRoom_stencil W Sc s (enter st (Method.DrawRoom room)) room) := by
    split
    · split
      · exact CacheSound_DrawMesh b _ _ h1
      · exact h1
    · exact h1
  have h3 := foldl_inv (DrawRoom_static Sc s cam room) (CacheSound b) (by
    intro t sm ht
    unfold DrawRoom_static
    split
    · exact CacheSound_DrawMesh b _ _ (CacheSound_enter b t _ ht)
    · exact ht) (Sc.static_mesh room) _ h2
  have h4s := forEach_preserves (DrawRoom_container Sc s cam room) (CacheSound b)
    (fun _ => True) (by
      intro t cont t1 _ ht hb
      unfold DrawRoom_container at hb
      split at hb
      · split at hb
        · exact CacheSound_DrawEntity Sc s b t t1 _ ht hb
        · simp only [Option.some.injEq] at hb
          exact hb ▸ ht
      · simp only [Option.some.injEq] at hb
        exact hb ▸ ht) _ _ st4 (fun _ _ => trivial) h3 h4
  exact forEach_preserves (DrawRoom_near W Sc s cam room) (CacheSound b) (fun _ => True)
    (fun t ni t1 _ ht hb => CacheSound_DrawRoom_near W Sc s cam room b t t1 ni ht hb)
    _ st4 st1 (fun _ _ => trivial) h4s h5

theorem CacheSound_DrawBSPPolygon (E : DrawEnv) (b : Option Nat) (st : DrawState)
    (p : bsp_polygon_s) (h : CacheSound b st) : CacheSound b (DrawBSPPolygon E st p) := by
  unfold DrawBSPPolygon
  simp only
  have h1 : CacheSound b (if st.m_active_transparency ≠ p.transparency then
      { st with
        m_active_transparency := p.transparency
        calls :=
          match E.blendFunc p.transparency with
          | some (sfactor, dfactor) => st.calls ++ [GLCall.BlendFunc sfactor dfactor]
          | none => st.calls }
      else st) := by
    split
    · cases hbf : E.blendFunc p.transparency with
      | none => exact CacheSound_keep b st _ rfl rfl h
      | some sd =>
        exact CacheSound_quiet b st _ (GLCall.BlendFunc sd.1 sd.2) (Or.inl ⟨_, _, rfl⟩) rfl rfl h
    · exact h
  generalize (if st.m_active_transparency ≠ p.transparency then
      { st with
        m_active_transparency := p.transparency
        calls :=
          match E.blendFunc p.transparency with
          | some (sfactor, dfactor) => st.calls ++ [GLCall.BlendFunc sfactor dfactor]
          | none => st.calls }
      else st) = t at h1 ⊢
  by_cases hne : t.m_active_texture ≠ p.texture_index
  · rw [if_pos hne]
    exact CacheSound_submit b _ _ (GLCall.DrawElements p) p.texture_index
      (Or.inr ⟨p, rfl, rfl⟩) rfl rfl rfl
      (CacheSound_bind b t _ p.texture_index rfl rfl h1)
  · rw [if_neg hne]
    exact CacheSound_submit b t _ (GLCall.DrawElements p) p.texture_index
      (Or.inr ⟨p, rfl, rfl⟩) rfl rfl (not_not.mp hne) h1

theorem CacheSound_DrawBSPBackToFront (E : DrawEnv) (b : Option Nat) (t : bsp_node_p) :
    ∀ st : DrawState, CacheSound b st → CacheSound b (DrawBSPBackToFront E t st) := by
  induction t with
  | null => exact fun st h => h
  | node plane front back pf pb ihf ihb =>
    intro st h
    unfold DrawBSPBackToFront
    split
    · exact ihf _ (foldl_inv _ _ (CacheSound_DrawBSPPolygon E b) _ _
        (foldl_inv _ _ (CacheSound_DrawBSPPolygon E b) _ _ (ihb _ h)))
    · exact ihb _ (foldl_inv _ _ (CacheSound_DrawBSPPolygon E b) _ _
        (foldl_inv _ _ (CacheSound_DrawBSPPolygon E b) _ _ (ihf _ h)))

theorem listedRooms_mem :
    ∀ (l : List (Option Nat)) (rooms : List Nat), listedRooms l = some rooms →
      ∀ r ∈ rooms, some r ∈ l := by
  intro l
  induction l with
  | nil =>
    intro rooms h r hr
    simp only [listedRooms, Option.some.injEq] at h
    subst h
    exact absurd hr (List.not_mem_nil r)
  | cons a l ih =>
    intro rooms h r hr
    cases a with
    | none => simp [listedRooms] at h
    | some x =>
      simp only [listedRooms, Option.map_eq_some'] at h
      obtain ⟨rest, hrest, rfl⟩ := h
      rcases List.mem_cons.mp hr with rfl | hin
      · exact List.mem_cons_self _ _
      · exact List.mem_cons_of_mem _ (ih rest hrest r hin)

theorem CacheSound_DrawList_bsp (Sc : Scene) (E : DrawEnv) (b : Option Nat) (added : List Nat)
    (t t1 : DrawState) (ht : CacheSound b t) (hrun : DrawList_bsp Sc E added t = some t1) :
    ∀ pr ∈ submitted b t1.calls, pr.1 ≠ 0 → pr.2 = some pr.1 := by
  unfold DrawList_bsp at hrun
  split at hrun
  · exact absurd hrun (by simp)
  · next plane front back pf pb _ =>
    have hk : CacheSound b { t with m_active_transparency := 0 } :=
      CacheSound_keep b t _ rfl rfl ht
    by_cases hcond : pf.isEmpty = false ∧ Sc.bsp_vbo ≠ 0
    · rw [if_pos hcond] at hrun
      have hs := Option.some.inj hrun
      subst hs
      exact (CacheSound_DrawBSPBackToFront E b _ _
        (CacheSound_enter b _ Method.DrawBSPBackToFront hk)).2
    · rw [if_neg hcond] at hrun
      have hs := Option.some.inj hrun
      subst hs
      exact ht.2

/-- In a `DrawList` that returns, started on an empty record with any texture bound, in
which no listed room has sprites, every face of a mesh and every polygon of the BSP tree
whose `texture_index` is not 0 is submitted with that texture bound. -/
theorem DrawList_cache_sound (W : Level) (Sc : Scene) (E : DrawEnv) (s : CRender)
    (st st1 : DrawState) (b : Option Nat) (hst : st.calls = [])
    (hsprites : ∀ r, some r ∈ activeRooms s → Sc.sprites r = [])
    (h : DrawList W Sc E s st = some st1) :
    ∀ pr ∈ submitted b st1.calls, pr.1 ≠ 0 → pr.2 = some pr.1 := by
  unfold DrawList at h
  cases hc : s.m_camera with
  | none =>
    rw [hc] at h
    simp only [Option.some.injEq] at h
    subst h
    rw [hst]
    exact fun pr hpr => absurd hpr (List.not_mem_nil pr)
  | some cam =>
    rw [hc] at h
    simp only at h
    cases hrooms : listedRooms (activeRooms s) with
    | none =>
      rw [hrooms] at h
      exact absurd h (by simp)
    | some rooms =>
      rw [hrooms] at h
      simp only at h
      obtain ⟨st2, h2, h3⟩ := Option.bind_eq_some.mp h
      have g0 : CacheSound b { st with m_active_texture := 0 } :=
        ⟨Or.inl rfl, by
          show ∀ pr ∈ submitted b st.calls, _
          rw [hst]
          exact fun pr hpr => absurd hpr (List.not_mem_nil pr)⟩
      have g1 : CacheSound b (DrawSkyBox W Sc s { st with m_active_texture := 0 }) := by
        unfold DrawSkyBox
        simp only
        split
        · split
          · exact CacheSound_DrawMesh b _ _ (CacheSound_enter b _ _ g0)
          · exact CacheSound_enter b _ _ g0
        · exact CacheSound_enter b _ _ g0
      have g2 : CacheSound b st2 :=
        forEach_preserves (DrawRoom W Sc s cam) (CacheSound b) (fun _ => True)
          (fun t r t1 _ ht hb => CacheSound_DrawRoom W Sc s cam b t t1 r ht hb)
          rooms _ st2 (fun _ _ => trivial) g1 h2
      have g3 : ∀ (l : List Nat) (t : DrawState), (∀ r ∈ l, Sc.sprites r = []) →
          CacheSound b t → CacheSound b (l.foldl (DrawRoomSprites Sc) t) := by
        intro l
        induction l with
        | nil => exact fun t _ ht => ht
        | cons r l ih =>
          intro t hl ht
          rw [List.foldl_cons]
          apply ih _ (fun x hx => hl x (List.mem_cons_of_mem _ hx))
          unfold DrawRoomSprites
          simp only [hl r (List.mem_cons_self _ _)]
          exact CacheSound_enter b t _ ht
      have g4 := g3 rooms st2
        (fun r hr => hsprites r (listedRooms_mem _ rooms hrooms r hr)) g2
      have g5 : ∀ (l : List Nat) (t : DrawState), CacheSound b t →
          CacheSound b { t with
            calls := t.calls ++ l.map fun p => GLCall.Enter (Method.AddNewPolygonList p) } := by
        intro l t ht
        refine ⟨?_, ?_⟩
        · rcases ht.1 with h0 | h1
          · exact Or.inl h0
          · right
            show boundTexture b (t.calls ++ _) = _
            rw [boundTexture_append, h1]
            induction l with
            | nil => rfl
            | cons a l ih => exact ih
        · show ∀ pr ∈ submitted b (t.calls ++ _), _
          rw [submitted_append]
          have hnil : ∀ (l : List Nat) (c : Option Nat),
              submitted c (l.map fun p => GLCall.Enter (Method.AddNewPolygonList p)) = [] := by
            intro l
            induction l with
            | nil => exact fun _ => rfl
            | cons a l ih => exact fun c => ih c
          rw [hnil, List.append_nil]
          exact ht.2
      have g6 := g5 (rooms.foldl (DrawList_objectBatch Sc s cam)
        (rooms.foldl (DrawList_roomBatch Sc) [])) _ g4
      exact CacheSound_DrawList_bsp Sc E b _ _ st1 g6 h3

/-! ## Depth order of the back-to-front traversal -/

theorem planeDistAt_toPoint (K : Type) [LinearOrderedField K] (plane : Plane) (v : Vec3) :
    planeDistAt plane (toPoint K v) = ((planeDist plane v : Int) : K) := by
  simp [planeDistAt, planeDist, toPoint]

theorem planeDistAt_comb {K : Type} [LinearOrderedField K] (plane : Plane) (x y : Point K)
    (a b : K) (hab : a + b = 1) :
    planeDistAt plane (a • x + b • y) = a * planeDistAt plane x + b * planeDistAt plane y := by
  simp only [planeDistAt, Pi.add_apply, Pi.smul_apply, smul_eq_mul]
  linear_combination (-(plane 3 : K)) * hab

/-- A polygon whose vertices lie behind a plane or in it has all its points there. -/
theorem polygonPoints_nonpos (K : Type) [LinearOrderedField K] (plane : Plane)
    (x : bsp_polygon_s) (h : ∀ v ∈ x.vertices, planeDist plane v ≤ 0) :
    ∀ p ∈ polygonPoints K x, planeDistAt plane p ≤ 0 := by
  intro p hp
  have hconv : Convex K {p : Point K | planeDistAt plane p ≤ 0} := by
    intro u hu w hw a b ha hb hab
    show planeDistAt plane (a • u + b • w) ≤ 0
    rw [planeDistAt_comb plane u w a b hab]
    exact add_nonpos (mul_nonpos_of_nonneg_of_nonpos ha hu) (mul_nonpos_of_nonneg_of_nonpos hb hw)
  refine convexHull_min ?_ hconv hp
  rintro u ⟨v, hv, rfl⟩
  show planeDistAt plane (toPoint K v) ≤ 0
  rw [planeDistAt_toPoint]
  exact_mod_cast h v hv

/-- A polygon whose vertices lie in front of a plane or in it has all its points there. -/
theorem polygonPoints_nonneg (K : Type) [LinearOrderedField K] (plane : Plane)
    (x : bsp_polygon_s) (h : ∀ v ∈ x.vertices, 0 ≤ planeDist plane v) :
    ∀ p ∈ polygonPoints K x, 0 ≤ planeDistAt plane p := by
  intro p hp
  have hconv : Convex K {p : Point K | 0 ≤ planeDistAt plane p} := by
    intro u hu w hw a b ha hb hab
    show 0 ≤ planeDistAt plane (a • u + b • w)
    rw [planeDistAt_comb plane u w a b hab]
    exact add_nonneg (mul_nonneg ha hu) (mul_nonneg hb hw)
  refine convexHull_min ?_ hconv hp
  rintro u ⟨v, hv, rfl⟩
  show 0 ≤ planeDistAt plane (toPoint K v)
  rw [planeDistAt_toPoint]
  exact_mod_cast h v hv

theorem planeDistAt_ray {K : Type} [LinearOrderedField K] (plane : Plane) (c p q : Point K)
    (s : K) (h : ∀ k, q k - c k = s * (p k - c k)) :
    planeDistAt plane q = (1 - s) * planeDistAt plane c + s * planeDistAt plane p := by
  simp only [planeDistAt]
  linear_combination (plane 0 : K) * h 0 + (plane 1 : K) * h 1 + (plane 2 : K) * h 2

theorem ray_eq_of_one {K : Type} [LinearOrderedField K] (c p q : Point K)
    (h : ∀ k, q k - c k = 1 * (p k - c k)) : p = q := by
  funext k
  have := h k
  linarith

/-- On a ray from a point strictly on one side of a plane, a point on that side or in the
plane comes before a different point on the other side or in the plane. -/
theorem ray_param_lt_one {K : Type} [LinearOrderedField K] (plane : Plane) (c p q : Point K)
    (s : K) (hs : 0 < s) (h : ∀ k, q k - c k = s * (p k - c k)) (hne : p ≠ q)
    (hside : (0 < planeDistAt plane c ∧ planeDistAt plane p ≤ 0 ∧ 0 ≤ planeDistAt plane q) ∨
      (planeDistAt plane c < 0 ∧ 0 ≤ planeDistAt plane p ∧ planeDistAt plane q ≤ 0)) :
    s < 1 := by
  by_contra hge
  have hge1 : 1 ≤ s := not_lt.mp hge
  have hq := planeDistAt_ray plane c p q s h
  have hs1 : s = 1 := by
    rcases hside with ⟨hc, hp, hq0⟩ | ⟨hc, hp, hq0⟩
    · have h1 : (1 - s) * planeDistAt plane c ≤ 0 :=
        mul_nonpos_of_nonpos_of_nonneg (by linarith) hc.le
      have h2 : s * planeDistAt plane p ≤ 0 := mul_nonpos_of_nonneg_of_nonpos hs.le hp
      have h3 : (1 - s) * planeDistAt plane c = 0 := by linarith
      rcases mul_eq_zero.mp h3 with h4 | h4
      · linarith
      · exact absurd h4 hc.ne'
    · have h1 : 0 ≤ (1 - s) * planeDistAt plane c :=
        mul_nonneg_of_nonpos_of_nonpos (by linarith) hc.le
      have h2 : 0 ≤ s * planeDistAt plane p := mul_nonneg hs.le hp
      have h3 : (1 - s) * planeDistAt plane c = 0 := by linarith
      rcases mul_eq_zero.mp h3 with h4 | h4
      · linarith
      · exact absurd h4 hc.ne
  subst hs1
  exact hne (ray_eq_of_one c p q h)

theorem distSqAt_ray {K : Type} [LinearOrderedField K] (c p q : Point K) (s : K)
    (h : ∀ k, q k - c k = s * (p k - c k)) : distSqAt c q = s ^ 2 * distSqAt c p := by
  simp only [distSqAt]
  have h0 := h 0
  have h1 := h 1
  have h2 := h 2
  have e0 : c 0 - q 0 = -(s * (p 0 - c 0)) := by linarith
  have e1 : c 1 - q 1 = -(s * (p 1 - c 1)) := by linarith
  have e2 : c 2 - q 2 = -(s * (p 2 - c 2)) := by linarith
  rw [e0, e1, e2]
  ring

theorem distSqAt_pos {K : Type} [LinearOrderedField K] (c p : Point K) (h : p ≠ c) :
    0 < distSqAt c p := by
  by_contra hn
  have h0 : 0 ≤ (c 0 - p 0) ^ 2 := sq_nonneg _
  have h1 : 0 ≤ (c 1 - p 1) ^ 2 := sq_nonneg _
  have h2 : 0 ≤ (c 2 - p 2) ^ 2 := sq_nonneg _
  have hd : distSqAt c p = (c 0 - p 0) ^ 2 + (c 1 - p 1) ^ 2 + (c 2 - p 2) ^ 2 := rfl
  have z0 : (c 0 - p 0) ^ 2 = 0 := by linarith
  have z1 : (c 1 - p 1) ^ 2 = 0 := by linarith
  have z2 : (c 2 - p 2) ^ 2 = 0 := by linarith
  apply h
  funext k
  have e0 : c 0 - p 0 = 0 := (pow_eq_zero_iff two_ne_zero).mp z0
  have e1 : c 1 - p 1 = 0 := (pow_eq_zero_iff two_ne_zero).mp z1
  have e2 : c 2 - p 2 = 0 := (pow_eq_zero_iff two_ne_zero).mp z2
  fin_cases k
  · show p 0 = c 0
    linarith
  · show p 1 = c 1
    linarith
  · show p 2 = c 2
    linarith

theorem ray_nearer {K : Type} [LinearOrderedField K] (c p q : Point K) (s : K) (hs : 0 < s)
    (hs1 : s < 1) (h : ∀ k, q k - c k = s * (p k - c k)) (hne : p ≠ q) :
    distSqAt c q < distSqAt c p := by
  have hpc : p ≠ c := by
    intro hpc
    apply hne
    funext k
    have := h k
    rw [hpc] at this ⊢
    simp at this
    linarith
  have hD := distSqAt_pos c p hpc
  rw [distSqAt_ray c p q s h]
  have : s ^ 2 < 1 := by nlinarith
  nlinarith

/-- Two polygons that do not intersect, the first on the far side of a plane from the
camera or in the plane, the second on the side of the camera or in the plane: wherever a
ray from the camera meets both, it meets the second nearer. -/
theorem SeenBehind_of_sides (K : Type) [LinearOrderedField K] (plane : Plane) (c : Vec3)
    (x y : bsp_polygon_s) (hxy : NonIntersecting K x y)
    (hside : (0 < planeDist plane c ∧ (∀ v ∈ x.vertices, planeDist plane v ≤ 0) ∧
        (∀ v ∈ y.vertices, 0 ≤ planeDist plane v)) ∨
      (planeDist plane c < 0 ∧ (∀ v ∈ x.vertices, 0 ≤ planeDist plane v) ∧
        (∀ v ∈ y.vertices, planeDist plane v ≤ 0))) :
    SeenBehind K (toPoint K c) x y := by
  intro p hp q hq hray
  obtain ⟨s, hs, h⟩ := hray
  have hne : p ≠ q := by
    intro he
    subst he
    exact hxy p hp hq
  refine ray_nearer (toPoint K c) p q s hs ?_ h hne
  refine ray_param_lt_one plane (toPoint K c) p q s hs h hne ?_
  rw [planeDistAt_toPoint]
  rcases hside with ⟨hc, hx, hy⟩ | ⟨hc, hx, hy⟩
  · exact Or.inl ⟨by exact_mod_cast hc, polygonPoints_nonpos K plane x hx p hp,
      polygonPoints_nonneg K plane y hy q hq⟩
  · exact Or.inr ⟨by exact_mod_cast hc, polygonPoints_nonneg K plane x hx p hp,
      polygonPoints_nonpos K plane y hy q hq⟩

/-- A list made of three parts is pairwise related by `R` when its first and last part are,
the whole list is pairwise related by `D`, and `D` gives `R` from an element of the first
two parts to an element of the last two. -/
theorem pairwise_three {α : Type} (D R : α → α → Prop) (a m b : List α)
    (hD : (a ++ m ++ b).Pairwise D) (ha : a.Pairwise R) (hb : b.Pairwise R)
    (hR : ∀ x ∈ a ++ m, ∀ y ∈ m ++ b, D x y → R x y) : (a ++ m ++ b).Pairwise R := by
  rw [List.pairwise_append, List.pairwise_append] at hD ⊢
  obtain ⟨⟨hDa, hDm, hDam⟩, hDb, hDc⟩ := hD
  refine ⟨⟨ha, ?_, ?_⟩, hb, ?_⟩
  · exact hDm.imp_of_mem fun hx hy hd =>
      hR _ (List.mem_append_right _ hx) _ (List.mem_append_left _ hy) hd
  · intro x hx y hy
    exact hR x (List.mem_append_left _ hx) y (List.mem_append_left _ hy) (hDam x hx y hy)
  · intro x hx y hy
    exact hR x hx y (List.mem_append_right _ hy) (hDc x hx y hy)

theorem NonIntersecting_symm {K : Type} [LinearOrderedField K] {x y : bsp_polygon_s}
    (h : NonIntersecting K x y) : NonIntersecting K y x :=
  fun p hy hx => h p hx hy

theorem backToFrontOrder_depth (K : Type) [LinearOrderedField K] (E : DrawEnv)
    (t : bsp_node_p) :
    OnProperSides t → CameraOffPlanes E t →
    (backToFrontOrder E t).Pairwise (NonIntersecting K) →
    (backToFrontOrder E t).Pairwise (SeenBehind K (toPoint K E.engine_camera_pos)) := by
  induction t with
  | null => intro _ _ _; simp [backToFrontOrder]
  | node plane front back pf pb ihf ihb =>
    intro hside hcam hdis
    unfold OnProperSides at hside
    unfold CameraOffPlanes at hcam
    obtain ⟨hown, hfront, hback, hsf, hsb⟩ := hside
    obtain ⟨hc, hcf, hcb⟩ := hcam
    have hmemf : ∀ x ∈ backToFrontOrder E front, x ∈ storedPolygons front :=
      fun x hx => (backToFrontOrder_perm E front).mem_iff.mp hx
    have hmemb : ∀ x ∈ backToFrontOrder E back, x ∈ storedPolygons back :=
      fun x hx => (backToFrontOrder_perm E back).mem_iff.mp hx
    unfold backToFrontOrder at hdis ⊢
    rcases hc with ⟨hpos, hd⟩ | ⟨hneg, hd⟩
    · rw [if_pos hd] at hdis ⊢
      have hdb : (backToFrontOrder E back).Pairwise (NonIntersecting K) :=
        (List.pairwise_append.mp (List.pairwise_append.mp hdis).1).1
      have hdf : (backToFrontOrder E front).Pairwise (NonIntersecting K) :=
        (List.pairwise_append.mp hdis).2.1
      refine pairwise_three (NonIntersecting K) _ _ _ _ hdis (ihb hsb hcb hdb)
        (ihf hsf hcf hdf) ?_
      intro x hx y hy hxy
      refine SeenBehind_of_sides K plane _ x y hxy (Or.inl ⟨hpos, ?_, ?_⟩)
      · rcases List.mem_append.mp hx with h | h
        · exact hback x (hmemb x h)
        · intro v hv
          have hm : x ∈ pf ++ pb := by
            rcases List.mem_append.mp h with h1 | h1
            · exact List.mem_append_right _ h1
            · exact List.mem_append_left _ h1
          exact le_of_eq (hown x hm v hv)
      · rcases List.mem_append.mp hy with h | h
        · intro v hv
          have hm : y ∈ pf ++ pb := by
            rcases List.mem_append.mp h with h1 | h1
            · exact List.mem_append_right _ h1
            · exact List.mem_append_left _ h1
          exact le_of_eq (hown y hm v hv).symm
        · exact hfront y (hmemf y h)
    · rw [if_neg hd] at hdis ⊢
      have hdf : (backToFrontOrder E front).Pairwise (NonIntersecting K) :=
        (List.pairwise_append.mp (List.pairwise_append.mp hdis).1).1
      have hdb : (backToFrontOrder E back).Pairwise (NonIntersecting K) :=
        (List.pairwise_append.mp hdis).2.1
      refine pairwise_three (NonIntersecting K) _ _ _ _ hdis (ihf hsf hcf hdf)
        (ihb hsb hcb hdb) ?_
      intro x hx y hy hxy
      refine SeenBehind_of_sides K plane _ x y hxy (Or.inr ⟨hneg, ?_, ?_⟩)
      · rcases List.mem_append.mp hx with h | h
        · exact hfront x (hmemf x h)
        · intro v hv
          exact le_of_eq (hown x h v hv).symm
      · rcases List.mem_append.mp hy with h | h
        · intro v hv
          exact le_of_eq (hown y h v hv)
        · exact hback y (hmemb y h)

/-- C12 (amended): in a BSP tree whose polygons are pairwise non-intersecting and lie on
their sides of the planes of the nodes (the polygons of a node in its plane, those of its
front subtree in front of it, those of its back subtree behind it), seen from a camera that
lies on no plane of a node, the sequence emitted by `DrawBSPBackToFront` is in strictly
descending distance from the camera along every line of sight: of two points of two
polygons on one ray from the camera, the point of the polygon emitted later is strictly
nearer to the camera. In particular, when one ray from the camera meets every polygon, at
the point `hit x` for the polygon `x`, the emitted sequence is sorted by strictly
descending distance of these points from the camera. Points have their coordinates in any
ordered field `K`, the reals among them. -/
theorem bsp_order_by_distance (K : Type) [LinearOrderedField K] (E : DrawEnv) (t : bsp_node_p)
    (hside : OnProperSides t) (hcam : CameraOffPlanes E t)
    (hdis : (storedPolygons t).Pairwise (NonIntersecting K)) :
    (emitted E t).Pairwise (SeenBehind K (toPoint K E.engine_camera_pos)) ∧
    ∀ hit : bsp_polygon_s → Point K,
      (∀ x ∈ emitted E t, hit x ∈ polygonPoints K x) →
      (∀ x ∈ emitted E t, ∀ y ∈ emitted E t,
        OnRay (toPoint K E.engine_camera_pos) (hit x) (hit y)) →
      (emitted E t).Pairwise fun x y =>
        distSqAt (toPoint K E.engine_camera_pos) (hit y) <
          distSqAt (toPoint K E.engine_camera_pos) (hit x) := by
  have key : (emitted E t).Pairwise (SeenBehind K (toPoint K E.engine_camera_pos)) := by
    rw [emitted_eq]
    exact backToFrontOrder_depth K E t hside hcam
      (((backToFrontOrder_perm E t).pairwise_iff NonIntersecting_symm).mpr hdis)
  refine ⟨key, fun hit hmem hray => key.imp_of_mem fun hx hy hR => ?_⟩
  exact hR _ (hmem _ hx) _ (hmem _ hy) (hray _ hx _ hy)

/-- Every point of the quad `quadAt a` has first coordinate `a`. -/
theorem quadAt_points (a : Int) : ∀ p ∈ polygonPoints ℚ (quadAt a), p 0 = a := by
  intro p hp
  have hv : ∀ v ∈ (quadAt a).vertices, planeDist (plane4 1 0 0 (-a)) v = 0 := by
    intro v hv
    simp only [quadAt, List.mem_cons, List.mem_singleton, List.not_mem_nil, or_false] at hv
    rcases hv with rfl | rfl | rfl | rfl <;> simp [planeDist, plane4, vec3]
  have h1 := polygonPoints_nonpos ℚ (plane4 1 0 0 (-a)) (quadAt a)
    (fun v h => le_of_eq (hv v h)) p hp
  have h2 := polygonPoints_nonneg ℚ (plane4 1 0 0 (-a)) (quadAt a)
    (fun v h => le_of_eq (hv v h).symm) p hp
  have h3 : planeDistAt (plane4 1 0 0 (-a)) p = p 0 - a := by
    simp [planeDistAt, plane4]
    ring
  rw [h3] at h1 h2
  linarith

theorem quadAt_nonIntersecting (a b : Int) (h : a ≠ b) :
    NonIntersecting ℚ (quadAt a) (quadAt b) := by
  intro p hp hq
  have h1 := quadAt_points a p hp
  have h2 := quadAt_points b p hq
  rw [h1] at h2
  exact h (by exact_mod_cast h2)

/-- The middle of the quad `quadAt a` is one of its points. -/
theorem quadAt_middle (a : Int) : toPoint ℚ (vec3 a 0 0) ∈ polygonPoints ℚ (quadAt a) := by
  have hs := subset_convexHull ℚ {x : Point ℚ | ∃ v ∈ (quadAt a).vertices, x = toPoint ℚ v}
  have h1 : toPoint ℚ (vec3 a (-10) (-10)) ∈ polygonPoints ℚ (quadAt a) :=
    hs ⟨_, by simp [quadAt], rfl⟩
  have h2 : toPoint ℚ (vec3 a 10 10) ∈ polygonPoints ℚ (quadAt a) :=
    hs ⟨_, by simp [quadAt], rfl⟩
  have hc := convex_convexHull ℚ {x : Point ℚ | ∃ v ∈ (quadAt a).vertices, x = toPoint ℚ v}
    h1 h2 (by norm_num : (0 : ℚ) ≤ 1 / 2) (by norm_num : (0 : ℚ) ≤ 1 / 2) (by norm_num)
  have he : toPoint ℚ (vec3 a 0 0) =
      (1 / 2 : ℚ) • toPoint ℚ (vec3 a (-10) (-10)) + (1 / 2 : ℚ) • toPoint ℚ (vec3 a 10 10) := by
    funext k
    fin_cases k
    · simp [toPoint, vec3]
      ring
    · simp [toPoint, vec3]
    · simp [toPoint, vec3]
  rw [he]
  exact hc

/-- Two points of the positive first axis lie on one ray from the origin. -/
theorem axis_OnRay (a b : Int) (ha : 0 < a) (hb : 0 < b) :
    OnRay (toPoint ℚ (vec3 0 0 0)) (toPoint ℚ (vec3 a 0 0)) (toPoint ℚ (vec3 b 0 0)) := by
  have ha0 : (0 : ℚ) < a := by exact_mod_cast ha
  have hb0 : (0 : ℚ) < b := by exact_mod_cast hb
  refine ⟨(b : ℚ) / a, div_pos hb0 ha0, ?_⟩
  intro k
  fin_cases k
  · simp [toPoint, vec3]
    field_simp
  · simp [toPoint, vec3]
  · simp [toPoint, vec3]

theorem bsp_order_by_distance_witness :
    emitted envOrigin treeStack = [quadAt 300, quadAt 200, quadAt 100] ∧
    (emitted envOrigin treeStack).Pairwise
      (SeenBehind ℚ (toPoint ℚ envOrigin.engine_camera_pos)) ∧
    (emitted envOrigin treeStack).Pairwise (fun x y =>
      distSqAt (toPoint ℚ envOrigin.engine_camera_pos) (toPoint ℚ (axisPoint y)) <
        distSqAt (toPoint ℚ envOrigin.engine_camera_pos) (toPoint ℚ (axisPoint x))) ∧
    (emitted envOrigin treeStack).map (fun x =>
      distSqAt (toPoint ℚ envOrigin.engine_camera_pos) (toPoint ℚ (axisPoint x))) =
      [90000, 40000, 10000] := by
  have hside : OnProperSides treeStack := by
    simp [OnProperSides, treeStack, storedPolygons, quadAt, planeDist, plane4, vec3]
  have hcam : CameraOffPlanes envOrigin treeStack := by
    simp [CameraOffPlanes, treeStack, envOrigin, planeDist, plane4, vec3]
  have hdis : (storedPolygons treeStack).Pairwise (NonIntersecting ℚ) := by
    show ([quadAt 200, quadAt 300, quadAt 100] : List bsp_polygon_s).Pairwise (NonIntersecting ℚ)
    refine List.Pairwise.cons ?_ (List.Pairwise.cons ?_ (List.Pairwise.cons ?_ List.Pairwise.nil))
    · intro y hy
      simp only [List.mem_cons, List.mem_singleton, List.not_mem_nil, or_false] at hy
      rcases hy with rfl | rfl
      · exact quadAt_nonIntersecting 200 300 (by decide)
      · exact quadAt_nonIntersecting 200 100 (by decide)
    · intro y hy
      simp only [List.mem_singleton] at hy
      subst hy
      exact quadAt_nonIntersecting 300 100 (by decide)
    · intro y hy
      exact absurd hy (List.not_mem_nil y)
  have hem : emitted envOrigin treeStack = [quadAt 300, quadAt 200, quadAt 100] := rfl
  have hq : ∀ x ∈ emitted envOrigin treeStack,
      ∃ a : Int, 0 < a ∧ x = quadAt a := by
    intro x hx
    rw [hem] at hx
    simp only [List.mem_cons, List.mem_singleton, List.not_mem_nil, or_false] at hx
    rcases hx with rfl | rfl | rfl
    · exact ⟨300, by decide, rfl⟩
    · exact ⟨200, by decide, rfl⟩
    · exact ⟨100, by decide, rfl⟩
  have h := bsp_order_by_distance ℚ envOrigin treeStack hside hcam hdis
  refine ⟨hem, h.1, h.2 (fun x => toPoint ℚ (axisPoint x)) ?_ ?_, ?_⟩
  · intro x hx
    obtain ⟨a, -, rfl⟩ := hq x hx
    exact quadAt_middle a
  · intro x hx y hy
    obtain ⟨a, ha, rfl⟩ := hq x hx
    obtain ⟨b, hb, rfl⟩ := hq y hy
    exact axis_OnRay a b ha hb
  · rw [hem]
    simp [distSqAt, toPoint, axisPoint, quadAt, vec3, envOrigin]
    norm_num

/-- The three quads of `treeQuads`, whose emission order is ascending in distance, meet the
conditions on the tree and on the camera: they lie on their sides of the planes, the camera
at the origin is on no plane, and they do not intersect. -/
theorem treeQuads_admissible :
    OnProperSides treeQuads ∧ CameraOffPlanes envOrigin treeQuads ∧
    (storedPolygons treeQuads).Pairwise (NonIntersecting ℚ) := by
  have hmid : ∀ p ∈ polygonPoints ℚ quadMid, p 1 = 100 ∧ p 0 ≤ 500 := by
    intro p hp
    have h1 := polygonPoints_nonpos ℚ (plane4 0 1 0 (-100)) quadMid (by decide) p hp
    have h2 := polygonPoints_nonneg ℚ (plane4 0 1 0 (-100)) quadMid (by decide) p hp
    have h3 := polygonPoints_nonpos ℚ (plane4 1 0 0 (-500)) quadMid (by decide) p hp
    simp [planeDistAt, plane4] at h1 h2 h3
    exact ⟨by linarith, by linarith⟩
  have hnear : ∀ p ∈ polygonPoints ℚ quadNear, p 1 = 200 ∧ p 0 ≤ 500 := by
    intro p hp
    have h1 := polygonPoints_nonpos ℚ (plane4 0 1 0 (-200)) quadNear (by decide) p hp
    have h2 := polygonPoints_nonneg ℚ (plane4 0 1 0 (-200)) quadNear (by decide) p hp
    have h3 := polygonPoints_nonpos ℚ (plane4 1 0 0 (-500)) quadNear (by decide) p hp
    simp [planeDistAt, plane4] at h1 h2 h3
    exact ⟨by linarith, by linarith⟩
  have hfar : ∀ p ∈ polygonPoints ℚ quadFar, 1000 ≤ p 0 := by
    intro p hp
    have h2 := polygonPoints_nonneg ℚ (plane4 1 0 0 (-1000)) quadFar (by decide) p hp
    simp [planeDistAt, plane4] at h2
    linarith
  refine ⟨?_, ?_, ?_⟩
  · simp [OnProperSides, treeQuads, storedPolygons, quadMid, quadNear, quadFar, planeDist,
      plane4, vec3]
  · simp [CameraOffPlanes, treeQuads, envOrigin, planeDist, plane4, vec3]
  · show ([quadMid, quadNear, quadFar] : List bsp_polygon_s).Pairwise (NonIntersecting ℚ)
    refine List.Pairwise.cons ?_ (List.Pairwise.cons ?_ (List.Pairwise.cons ?_ List.Pairwise.nil))
    · intro y hy
      simp only [List.mem_cons, List.mem_singleton, List.not_mem_nil, or_false] at hy
      rcases hy with rfl | rfl
      · intro p hp hq
        have a := (hmid p hp).1
        have b := (hnear p hq).1
        linarith
      · intro p hp hq
        have a := (hmid p hp).2
        have b := hfar p hq
        linarith
    · intro y hy
      simp only [List.mem_singleton] at hy
      subst hy
      intro p hp hq
      have a := (hnear p hp).2
      have b := hfar p hq
      linarith
    · intro y hy
      exact absurd hy (List.not_mem_nil y)

/-! ## Single-precision rounding -/

theorem f32ulp_small (k n : Nat) (h : n < 2 ^ 24) : f32ulp k n = 1 := by
  cases k with
  | zero => rfl
  | succ k =>
    show (if n < 2 ^ 24 then 1 else 2 * f32ulp k (n / 2)) = 1
    rw [if_pos h]

/-- An integer of magnitude below `2 ^ 24` is a single-precision value: rounding leaves
it as it is, so sums and differences of such bounds are exact in `lvl3`. -/
theorem f32_of_small (z : Int) (h : z.natAbs < 2 ^ 24) : f32 z = z := by
  unfold f32
  simp only [f32ulp_small 104 _ h, Nat.div_one, Nat.mod_one, Nat.mul_zero, Nat.mul_one]
  rw [if_pos Nat.zero_lt_one]
  split <;> omega

/-- Values of the rounding above `2 ^ 24`: the nearest multiple of the spacing, a tie going
to the even significand. -/
theorem f32_values :
    f32 200000010 = 200000016 ∧ f32 99999990 = 99999992 ∧ f32 16777217 = 16777216 ∧
    f32 16777219 = 16777220 ∧ f32 (-16777219) = -16777220 ∧ f32 200000016 = 200000016 := by
  decide

/-- Where the `float` sum and difference round as `f32` does and the bounds of the enlarged
box are of magnitude below `2 ^ 24`, the test of lines 262-265 is the test on the box
enlarged by exactly 10 units. -/
theorem nearBox_exact_of_small (W : Level) (pos : Vec3) (curr_room dest_room : Nat)
    (hadd : ∀ a b, W.fadd a b = f32 (a + b)) (hsub : ∀ a b, W.fsub a b = f32 (a - b))
    (hsmall : ∀ k : Fin 3, (W.bb_max dest_room k + 10).natAbs < 2 ^ 24 ∧
      (W.bb_min dest_room k - 10).natAbs < 2 ^ 24) :
    nearBox W pos curr_room dest_room ↔
      (enlargedBox W pos dest_room ∧
        W.Room_IsInOverlappedRoomsList curr_room dest_room = false) := by
  unfold nearBox enlargedBox
  have h : ∀ k : Fin 3, (W.fsub (W.bb_min dest_room k) eps ≤ pos k ∧
      pos k ≤ W.fadd (W.bb_max dest_room k) eps) ↔
      (W.bb_min dest_room k - 10 ≤ pos k ∧ pos k ≤ W.bb_max dest_room k + 10) := by
    intro k
    rw [hadd, hsub]
    show (f32 (W.bb_min dest_room k - 10) ≤ pos k ∧ pos k ≤ f32 (W.bb_max dest_room k + 10)) ↔ _
    rw [f32_of_small _ (hsmall k).1, f32_of_small _ (hsmall k).2]
  simp only [h]

end OpenTomb
